import Mathlib

/-!
# Verification of the cURLmONKEY request core

A shallow embedding, over `List Char` strings, of the cURL importer/exporter
(`curlmonkey/curl_import.py`, `curlmonkey/curl_export.py`), the variable
substitution engine and request builder (`curlmonkey/http_client.py`), and the
environment loader (`curlmonkey/persistence.py`), together with the Python
standard-library text helpers those modules call (`str.replace`, `str.split`,
`str.strip`, `shlex.split`, `shlex.quote`, `urllib.parse.urlsplit/urlparse/
urlunparse/parse_qs/urlencode/quote_plus/unquote`).

Modelling conventions:
* Python strings are `List Char`.  Python `dict`s are association lists with
  the insertion-order/update-in-place semantics of CPython dicts.
* Functions that can raise return `Except`; everything else is total.
* Case mapping (`upper`/`lower`) is modelled on ASCII; the IDNA/NFKC netloc
  check of `urlsplit`, which can only fire for non-ASCII authority components,
  is not modelled, and theorems about whole-input behaviour therefore carry an
  ASCII hypothesis where that matters.
-/

namespace CurlMonkey

/-- Python strings, modelled as lists of Unicode characters. -/
abbrev Str := List Char

/-- Equality of `Except` results is decidable when both components' are;
needed so concrete runs of the fallible functions can be settled by `decide`. -/
instance {ε α : Type} [DecidableEq ε] [DecidableEq α] : DecidableEq (Except ε α) :=
  fun x y =>
    match x, y with
    | .ok a, .ok b => if h : a = b then .isTrue (by rw [h]) else .isFalse (by simp [h])
    | .error a, .error b => if h : a = b then .isTrue (by rw [h]) else .isFalse (by simp [h])
    | .ok _, .error _ => .isFalse (by simp)
    | .error _, .ok _ => .isFalse (by simp)

/-- Coerce a Lean string literal to the model's string type. -/
def str (s : String) : Str := s.data

/-- The characters Python's `str.isspace` (hence `str.strip()` with no
argument) treats as whitespace. -/
def pyIsSpace (c : Char) : Bool :=
  (9 ≤ c.toNat ∧ c.toNat ≤ 13) ∨ (28 ≤ c.toNat ∧ c.toNat ≤ 32) ∨
  c.toNat = 0x85 ∨ c.toNat = 0xa0 ∨ c.toNat = 0x1680 ∨
  (0x2000 ≤ c.toNat ∧ c.toNat ≤ 0x200a) ∨ c.toNat = 0x2028 ∨
  c.toNat = 0x2029 ∨ c.toNat = 0x202f ∨ c.toNat = 0x205f ∨ c.toNat = 0x3000

/-- Python `s.strip()`: drop leading and trailing whitespace. -/
def pyStrip (s : Str) : Str :=
  ((s.dropWhile pyIsSpace).reverse.dropWhile pyIsSpace).reverse

/-- ASCII-only `str.lower`. -/
def asciiLower (s : Str) : Str := s.map Char.toLower

/-- ASCII-only `str.upper`. -/
def asciiUpper (s : Str) : Str := s.map Char.toUpper

/-- Helper for `pyReplace`: Python `str.replace` for a non-empty pattern.
`skip` counts characters of an already-emitted occurrence of the pattern that
are still to be consumed (so matching restarts only after a whole occurrence:
leftmost, non-overlapping, exactly CPython's semantics). -/
def pyReplaceAux (pat repl : Str) : Str → Nat → Str
  | [], _ => []
  | _ :: rest, k + 1 => pyReplaceAux pat repl rest k
  | c :: rest, 0 =>
    if pat.isPrefixOf (c :: rest) then
      repl ++ pyReplaceAux pat repl rest (pat.length - 1)
    else c :: pyReplaceAux pat repl rest 0

/-- Python `s.replace(pat, repl)`.  An empty pattern (never used by this code
base, but kept faithful) interleaves `repl` between all characters. -/
def pyReplace (s pat repl : Str) : Str :=
  if pat = [] then repl ++ s.foldr (fun c acc => c :: (repl ++ acc)) []
  else pyReplaceAux pat repl s 0

/-- Helper for `pySplitStr`, same `skip` device as `pyReplaceAux`. -/
def pySplitAux (sep : Str) : Str → Nat → Str → List Str
  | [], _, cur => [cur]
  | _ :: rest, k + 1, cur => pySplitAux sep rest k cur
  | c :: rest, 0, cur =>
    if sep.isPrefixOf (c :: rest) ∧ sep ≠ [] then
      cur :: pySplitAux sep rest (sep.length - 1) []
    else pySplitAux sep rest 0 (cur ++ [c])

/-- Python `s.split(sep)` for a non-empty separator (CPython raises on an
empty one; this code base never passes one). -/
def pySplitStr (s sep : Str) : List Str := pySplitAux sep s 0 []

/-- Helper for `pySplitOnce`. -/
def pySplitOnceAux (sep : Str) : Str → Str → Str × Option Str
  | [], cur => (cur, none)
  | c :: rest, cur =>
    if sep.isPrefixOf (c :: rest) ∧ sep ≠ [] then
      (cur, some ((c :: rest).drop sep.length))
    else pySplitOnceAux sep rest (cur ++ [c])

/-- Python `s.split(sep, 1)`: the part before the first occurrence of `sep`,
and the remainder if `sep` occurs at all. -/
def pySplitOnce (s sep : Str) : Str × Option Str := pySplitOnceAux sep s []

/-! ## `shlex` (POSIX mode, `whitespace_split=True`, no comments) -/

/-- The lexer states of `shlex.shlex.read_token` relevant to this
configuration: between tokens, inside a word, inside single/double quotes,
and the escape state with its two possible contexts. -/
inductive LexState where
  | ws | word | inSingle | inDouble | escWord | escDouble
deriving DecidableEq

/-- `shlex` whitespace. -/
def shlexWs (c : Char) : Bool := c = ' ' ∨ c = '\t' ∨ c = '\r' ∨ c = '\n'

/-- The state machine of `shlex.shlex.read_token` (posix, whitespace-split),
fused over the whole input: `q` is the per-token `quoted` flag, `cur` the
token accumulated so far.  Errors are CPython's two `ValueError`s (unclosed
quote / trailing escape). -/
def shlexSplitAux : LexState → Bool → Str → Str → Except Unit (List Str)
  | .ws, _, _, [] => .ok []
  | .ws, q, cur, c :: rest =>
    if shlexWs c then shlexSplitAux .ws q cur rest
    else if c = '\\' then shlexSplitAux .escWord q cur rest
    else if c = '\'' then shlexSplitAux .inSingle true cur rest
    else if c = '"' then shlexSplitAux .inDouble true cur rest
    else shlexSplitAux .word q (cur ++ [c]) rest
  | .word, q, cur, [] => .ok (if cur ≠ [] ∨ q then [cur] else [])
  | .word, q, cur, c :: rest =>
    if shlexWs c then
      if cur ≠ [] ∨ q then
        match shlexSplitAux .ws false [] rest with
        | .ok ts => .ok (cur :: ts)
        | .error e => .error e
      else shlexSplitAux .ws false [] rest
    else if c = '\'' then shlexSplitAux .inSingle true cur rest
    else if c = '"' then shlexSplitAux .inDouble true cur rest
    else if c = '\\' then shlexSplitAux .escWord q cur rest
    else shlexSplitAux .word q (cur ++ [c]) rest
  | .inSingle, _, _, [] => .error ()
  | .inSingle, q, cur, c :: rest =>
    if c = '\'' then shlexSplitAux .word q cur rest
    else shlexSplitAux .inSingle q (cur ++ [c]) rest
  | .inDouble, _, _, [] => .error ()
  | .inDouble, q, cur, c :: rest =>
    if c = '"' then shlexSplitAux .word q cur rest
    else if c = '\\' then shlexSplitAux .escDouble q cur rest
    else shlexSplitAux .inDouble q (cur ++ [c]) rest
  | .escWord, _, _, [] => .error ()
  | .escWord, q, cur, c :: rest => shlexSplitAux .word q (cur ++ [c]) rest
  | .escDouble, _, _, [] => .error ()
  | .escDouble, q, cur, c :: rest =>
    if c = '"' ∨ c = '\\' then shlexSplitAux .inDouble q (cur ++ [c]) rest
    else shlexSplitAux .inDouble q (cur ++ ['\\', c]) rest

/-- `shlex.split(s)` (posix mode): the strict tokenizer `parse_curl_command`
tries first. -/
def shlexSplitStrict (s : Str) : Except Unit (List Str) :=
  shlexSplitAux .ws false [] s

/-- The permissive quote-aware fallback tokenizer written inline in
`parse_curl_command` (used when `shlex.split` raises). -/
def fallbackTokenizeAux : Bool → Option Char → Str → Str → List Str
  | _, _, cur, [] => if cur ≠ [] then [cur] else []
  | inQ, qc, cur, c :: rest =>
    if (c = '"' ∨ c = '\'') ∧ ¬inQ then fallbackTokenizeAux true (some c) cur rest
    else if some c = qc ∧ inQ then fallbackTokenizeAux false none cur rest
    else if c = ' ' ∧ ¬inQ then
      if cur ≠ [] then cur :: fallbackTokenizeAux inQ qc [] rest
      else fallbackTokenizeAux inQ qc [] rest
    else fallbackTokenizeAux inQ qc (cur ++ [c]) rest

/-- The fallback tokenizer, from the initial state. -/
def fallbackTokenize (s : Str) : List Str := fallbackTokenizeAux false none [] s

/-- The characters `shlex.quote` treats as safe: ASCII alphanumerics and
underscore (`\w` under `re.ASCII`) plus `@ % + = : , .` and the slash and
hyphen characters. -/
def shlexSafeChar (c : Char) : Bool :=
  c.isAlphanum ∨ c = '_' ∨ c = '@' ∨ c = '%' ∨ c = '+' ∨ c = '=' ∨
  c = ':' ∨ c = ',' ∨ c = '.' ∨ c = '/' ∨ c = '-'

/-- `shlex.quote(s)`: empty becomes `''`; all-safe strings pass through;
anything else is wrapped in single quotes with embedded single quotes spelled
as a closing quote, a double-quoted quote, and a reopening quote. -/
def shlexQuote (s : Str) : Str :=
  if s = [] then ['\'', '\'']
  else if s.all shlexSafeChar then s
  else '\'' :: (pyReplace s ['\''] ['\'', '"', '\'', '"', '\'']) ++ ['\'']

/-! ## UTF-8 and percent-coding (`urllib.parse.quote` / `unquote`) -/

/-- UTF-8 encoding of one character (total: Lean `Char` excludes surrogates,
which is also the only case where CPython's `str.encode('utf-8')` can fail). -/
def utf8EncodeChar (c : Char) : List Nat :=
  let n := c.toNat
  if n < 0x80 then [n]
  else if n < 0x800 then [0xC0 + n / 64, 0x80 + n % 64]
  else if n < 0x10000 then [0xE0 + n / 4096, 0x80 + (n / 64) % 64, 0x80 + n % 64]
  else [0xF0 + n / 262144, 0x80 + (n / 4096) % 64, 0x80 + (n / 64) % 64, 0x80 + n % 64]

/-- `s.encode('utf-8')` as a byte list. -/
def utf8Encode (s : Str) : List Nat := (s.map utf8EncodeChar).flatten

/-- The Unicode replacement character emitted by `errors='replace'`. -/
def replChar : Char := Char.ofNat 0xFFFD

/-- Is `b` a UTF-8 continuation byte? -/
def utf8Cont (b : Nat) : Bool := 0x80 ≤ b ∧ b ≤ 0xBF

/-- Valid range for the first continuation byte after lead `b` (excludes
overlong encodings and surrogates, as CPython's decoder does). -/
def utf8Cont2Ok (b b2 : Nat) : Bool :=
  if b = 0xE0 then 0xA0 ≤ b2 ∧ b2 ≤ 0xBF
  else if b = 0xED then 0x80 ≤ b2 ∧ b2 ≤ 0x9F
  else if b = 0xF0 then 0x90 ≤ b2 ∧ b2 ≤ 0xBF
  else if b = 0xF4 then 0x80 ≤ b2 ∧ b2 ≤ 0x8F
  else utf8Cont b2

/-- `bytes.decode('utf-8', errors='replace')`: maximal-subpart replacement as
in CPython's decoder.  The fuel argument only makes the recursion structural;
it is run with fuel = length, which by the one-in-one-out shape of every step
is always enough. -/
def utf8DecodeAux : Nat → List Nat → Str
  | 0, _ => []
  | _ + 1, [] => []
  | f + 1, b :: rest =>
    if b ≤ 0x7F then Char.ofNat b :: utf8DecodeAux f rest
    else if 0xC2 ≤ b ∧ b ≤ 0xDF then
      match rest with
      | [] => [replChar]
      | b2 :: r2 =>
        if utf8Cont b2 then Char.ofNat ((b - 0xC0) * 64 + (b2 - 0x80)) :: utf8DecodeAux f r2
        else replChar :: utf8DecodeAux f rest
    else if 0xE0 ≤ b ∧ b ≤ 0xEF then
      match rest with
      | [] => [replChar]
      | b2 :: r2 =>
        if utf8Cont2Ok b b2 then
          match r2 with
          | [] => [replChar]
          | b3 :: r3 =>
            if utf8Cont b3 then
              Char.ofNat ((b - 0xE0) * 4096 + (b2 - 0x80) * 64 + (b3 - 0x80)) ::
                utf8DecodeAux f r3
            else replChar :: utf8DecodeAux f r2
        else replChar :: utf8DecodeAux f rest
    else if 0xF0 ≤ b ∧ b ≤ 0xF4 then
      match rest with
      | [] => [replChar]
      | b2 :: r2 =>
        if utf8Cont2Ok b b2 then
          match r2 with
          | [] => [replChar]
          | b3 :: r3 =>
            if utf8Cont b3 then
              match r3 with
              | [] => [replChar]
              | b4 :: r4 =>
                if utf8Cont b4 then
                  Char.ofNat ((b - 0xF0) * 262144 + (b2 - 0x80) * 4096 +
                    (b3 - 0x80) * 64 + (b4 - 0x80)) :: utf8DecodeAux f r4
                else replChar :: utf8DecodeAux f r3
            else replChar :: utf8DecodeAux f r2
        else replChar :: utf8DecodeAux f rest
    else replChar :: utf8DecodeAux f rest

/-- `bytes.decode('utf-8', errors='replace')`. -/
def utf8DecodeReplace (bs : List Nat) : Str := utf8DecodeAux bs.length bs

/-- Is `c` an ASCII hex digit? -/
def isHexDigit (c : Char) : Bool :=
  c.isDigit ∨ ('a' ≤ c ∧ c ≤ 'f') ∨ ('A' ≤ c ∧ c ≤ 'F')

/-- Value of a hex digit. -/
def hexVal (c : Char) : Nat :=
  if c.isDigit then c.toNat - 48 else if 'a' ≤ c then c.toNat - 87 else c.toNat - 55

/-- Upper-case hex digit for a nibble (CPython quotes with `%{:02X}`). -/
def hexUpper (n : Nat) : Char :=
  if n < 10 then Char.ofNat (48 + n) else Char.ofNat (55 + n)

/-- `urllib.parse.unquote_to_bytes`: split on `%`, turn valid two-digit hex
items into bytes, leave invalid escapes literal. -/
def unquoteToBytes (s : Str) : List Nat :=
  match pySplitStr s ['%'] with
  | [] => []
  | first :: items =>
    utf8Encode first ++
      (items.map fun item =>
        match item with
        | h1 :: h2 :: rest =>
          if isHexDigit h1 ∧ isHexDigit h2 then
            (hexVal h1 * 16 + hexVal h2) :: utf8Encode rest
          else 0x25 :: utf8Encode item
        | _ => 0x25 :: utf8Encode item).flatten

/-- Percent-decode one maximal ASCII run (UTF-8, `errors='replace'`). -/
def decodeAsciiRun (run : Str) : Str := utf8DecodeReplace (unquoteToBytes run)

/-- Helper for `pyUnquote`: non-ASCII characters pass through untouched, each
maximal ASCII run is percent-decoded as a unit, exactly as `unquote` does via
`_asciire.split`. -/
def pyUnquoteAux : Str → Str → Str
  | acc, [] => decodeAsciiRun acc
  | acc, c :: rest =>
    if c.toNat ≤ 0x7F then pyUnquoteAux (acc ++ [c]) rest
    else decodeAsciiRun acc ++ c :: pyUnquoteAux [] rest

/-- `urllib.parse.unquote(s)` with the defaults used by `parse_qsl`
(`encoding='utf-8'`, `errors='replace'`). -/
def pyUnquote (s : Str) : Str := if '%' ∈ s then pyUnquoteAux [] s else s

/-- The bytes `quote` never escapes: ASCII alphanumerics and `_ . - ~`. -/
def alwaysSafeByte (b : Nat) : Bool :=
  (48 ≤ b ∧ b ≤ 57) ∨ (65 ≤ b ∧ b ≤ 90) ∨ (97 ≤ b ∧ b ≤ 122) ∨
  b = 45 ∨ b = 46 ∨ b = 95 ∨ b = 126

/-- One byte of `quote` output. -/
def quoteByte (extraSafe : List Nat) (b : Nat) : Str :=
  if alwaysSafeByte b ∨ b ∈ extraSafe then [Char.ofNat b]
  else ['%', hexUpper (b / 16), hexUpper (b % 16)]

/-- `quote_from_bytes`: quote each byte of a byte string. -/
def pyQuoteBytes (extraSafe : List Nat) (bs : List Nat) : Str :=
  (bs.map (quoteByte extraSafe)).flatten

/-- `urllib.parse.quote(s, safe=extraSafe)` (safe set given as bytes). -/
def pyQuote (extraSafe : List Nat) (s : Str) : Str :=
  pyQuoteBytes extraSafe (utf8Encode s)

/-- `urllib.parse.quote_plus(s, safe='')`, the `quote_via` used by
`urlencode`: spaces become `+`, everything unsafe is percent-escaped. -/
def quotePlus (s : Str) : Str :=
  if ' ' ∈ s then pyReplace (pyQuote [32] s) [' '] ['+'] else pyQuote [] s

/-- Python `sep.join(xs)`. -/
def joinWith (sep : Str) : List Str → Str
  | [] => []
  | [x] => x
  | x :: y :: xs => x ++ sep ++ joinWith sep (y :: xs)

/-! ## Query strings (`parse_qsl` / `parse_qs` / `urlencode`) -/

/-- One chunk of `parse_qsl` with `keep_blank_values=True`: empty chunks are
dropped, a chunk with no `=` keeps a blank value, `+` means space, and both
sides are percent-decoded. -/
def qslPair (chunk : Str) : Option (Str × Str) :=
  if chunk = [] then none
  else
    let nv := pySplitOnce chunk ['=']
    some (pyUnquote (pyReplace nv.1 ['+'] [' ']),
          pyUnquote (pyReplace (nv.2.getD []) ['+'] [' ']))

/-- `urllib.parse.parse_qsl(qs, keep_blank_values=True)`. -/
def parse_qsl (qs : Str) : List (Str × Str) :=
  if qs = [] then [] else (pySplitStr qs ['&']).filterMap qslPair

/-- Append a value under a key in a CPython-dict-like association list:
an existing key keeps its position, a new key goes to the end. -/
def dictAppend : List (Str × List Str) → Str → Str → List (Str × List Str)
  | [], k, v => [(k, [v])]
  | (k', vs) :: rest, k, v =>
    if k' = k then (k', vs ++ [v]) :: rest else (k', vs) :: dictAppend rest k v

/-- Overwrite a key's value in a CPython-dict-like association list
(`d[k] = v`): an existing key keeps its position, a new key goes to the end. -/
def dictSet : List (Str × List Str) → Str → List Str → List (Str × List Str)
  | [], k, v => [(k, v)]
  | (k', vs) :: rest, k, v =>
    if k' = k then (k', v) :: rest else (k', vs) :: dictSet rest k v

/-- `urllib.parse.parse_qs(qs, keep_blank_values=True)`: the grouped dict. -/
def parse_qs (qs : Str) : List (Str × List Str) :=
  (parse_qsl qs).foldl (fun d kv => dictAppend d kv.1 kv.2) []

/-- The `k=v` fragments `urlencode(d, doseq=True)` emits, in order. -/
def encodedEntries (q : List (Str × List Str)) : List Str :=
  (q.map fun kv => kv.2.map fun v => quotePlus kv.1 ++ '=' :: quotePlus v).flatten

/-- `urllib.parse.urlencode(d, doseq=True)` on a dict of string lists. -/
def urlencodeDoseq (q : List (Str × List Str)) : Str :=
  joinWith ['&'] (encodedEntries q)

/-! ## URL parsing (`urllib.parse.urlsplit` and friends) -/

/-- Leading characters stripped by `urlsplit` (WHATWG C0 controls and space). -/
def c0ControlOrSpace (c : Char) : Bool := c.toNat ≤ 32

/-- The characters allowed in a scheme (`urllib.parse.scheme_chars`). -/
def schemeChar (c : Char) : Bool :=
  c.isAlpha ∨ c.isDigit ∨ c = '+' ∨ c = '-' ∨ c = '.'

/-- Does the string start with an ASCII letter? -/
def headIsAlpha (s : Str) : Bool :=
  match s.head? with
  | some c => c.isAlpha
  | none => false

/-- A netloc extends up to the first `/`, `?` or `#` (`_splitnetloc`). -/
def netlocChar (c : Char) : Bool := c ≠ '/' ∧ c ≠ '?' ∧ c ≠ '#'

/-- One decimal octet of an IPv4 address (`ipaddress._parse_octet`): one to
three digits, no leading zero, value at most 255. -/
def isIPv4Octet (p : Str) : Bool :=
  p ≠ [] ∧ p.length ≤ 3 ∧ p.all Char.isDigit ∧
  (p.length = 1 ∨ p.head? ≠ some '0') ∧
  p.foldl (fun n c => n * 10 + (c.toNat - 48)) 0 ≤ 255

/-- A dotted-quad IPv4 address literal (`ipaddress.IPv4Address`). -/
def isValidIPv4 (s : Str) : Bool :=
  let parts := pySplitStr s ['.']
  parts.length = 4 ∧ parts.all isIPv4Octet

/-- One hextet of an IPv6 address: one to four hex digits. -/
def isHextet (p : Str) : Bool := p ≠ [] ∧ p.length ≤ 4 ∧ p.all isHexDigit

/-- An IPv6 address literal without scope (`ipaddress._ip_int_from_string`):
colon-separated hextets with at most one `::` run and an optional embedded
dotted-quad tail. -/
def isValidIPv6Base (s : Str) : Bool :=
  let parts0 := pySplitStr s [':']
  if parts0.length < 3 then false
  else
    let lastPart := (parts0.getLast?).getD []
    let usesV4 := '.' ∈ lastPart
    if usesV4 ∧ ¬isValidIPv4 lastPart then false
    else
      let parts := if usesV4 then parts0.dropLast ++ [['0'], ['0']] else parts0
      let n := parts.length
      if n > 9 then false
      else
        match (List.range n).filter (fun i => 0 < i ∧ i < n - 1 ∧ parts.get? i = some []) with
        | [] => n = 8 ∧ parts.all isHextet
        | [i] =>
          let hi := if parts.head? = some [] then (if i = 1 then some 0 else none)
                    else some i
          let lo := if parts.getLast? = some [] then (if i = n - 2 then some 0 else none)
                    else some (n - 1 - i)
          match hi, lo with
          | some h, some l =>
            h + l ≤ 7 ∧ (parts.take h).all isHextet ∧
              ((parts.drop (n - l)).all isHextet)
          | _, _ => false
        | _ => false

/-- `ipaddress.IPv6Address` acceptance including an optional non-empty
`%scope`. -/
def isValidIPv6 (s : Str) : Bool :=
  match pySplitOnce s ['%'] with
  | (addr, none) => isValidIPv6Base addr
  | (addr, some scope) => scope ≠ [] ∧ isValidIPv6Base addr

/-- `urllib.parse._check_bracketed_host`: `v`-prefixed IPvFuture literals, or
an address accepted by `ipaddress.ip_address` that is not IPv4. -/
def checkBracketedHost (h : Str) : Bool :=
  match h with
  | 'v' :: t =>
    match t.dropWhile isHexDigit with
    | '.' :: tail => t.takeWhile isHexDigit ≠ [] ∧ tail ≠ [] ∧ tail.all (· ≠ '\n')
    | _ => false
  | _ => ¬isValidIPv4 h ∧ isValidIPv6 h

/-- The substring of a netloc between the first `[` and the following `]`
(`netloc.partition('[')[2].partition(']')[0]`). -/
def bracketedHostOf (netloc : Str) : Str :=
  ((netloc.dropWhile (· ≠ '[')).drop 1).takeWhile (· ≠ ']')

/-- The five components returned by `urlsplit`. -/
structure SplitRes where
  scheme : Str
  netloc : Str
  path : Str
  query : Str
  fragment : Str
deriving DecidableEq

/-- The six components returned by `urlparse`. -/
structure UrlParts where
  scheme : Str
  netloc : Str
  path : Str
  params : Str
  query : Str
  fragment : Str
deriving DecidableEq

/-- The leading clean-up of `urlsplit`: strip unsafe leading characters,
remove tab/CR/LF everywhere. -/
def urlsplitClean (url0 : Str) : Str :=
  (url0.dropWhile c0ControlOrSpace).filter
    fun c => c ≠ '\t' ∧ c ≠ '\r' ∧ c ≠ '\n'

/-- The scheme-detection step of `urlsplit`: the (lower-cased) scheme and the
remainder. -/
def urlsplitScheme (url1 : Str) : Str × Str :=
  match url1.findIdx? (· = ':') with
  | some i =>
    if 0 < i ∧ headIsAlpha url1 ∧ (url1.take i).all schemeChar then
      (asciiLower (url1.take i), url1.drop (i + 1))
    else ([], url1)
  | none => ([], url1)

/-- The netloc-detection step of `urlsplit` (`_splitnetloc` behind a leading
`//`): the netloc and the remainder. -/
def urlsplitNetloc (url2 : Str) : Str × Str :=
  if url2.take 2 = ['/', '/'] then
    ((url2.drop 2).takeWhile netlocChar, (url2.drop 2).dropWhile netlocChar)
  else ([], url2)

/-- The fragment split of `urlsplit`: the part before `#` and the fragment. -/
def urlsplitFrag (url3 : Str) : Str × Str :=
  if '#' ∈ url3 then
    ((pySplitOnce url3 ['#']).1, ((pySplitOnce url3 ['#']).2).getD [])
  else (url3, [])

/-- The query split of `urlsplit`: the path and the query. -/
def urlsplitQuery (url4 : Str) : Str × Str :=
  if '?' ∈ url4 then
    ((pySplitOnce url4 ['?']).1, ((pySplitOnce url4 ['?']).2).getD [])
  else (url4, [])

/-- `urllib.parse.urlsplit(url)` with default arguments: strips unsafe
leading characters and tab/CR/LF, detects the scheme, the `//netloc`
(validating bracketed IPv6/IPvFuture hosts, the one place it can raise), the
fragment and the query.  The NFKC netloc check, which can only fire for
non-ASCII netlocs, is not modelled. -/
def pyUrlsplit (url0 : Str) : Except Unit SplitRes :=
  let su := urlsplitScheme (urlsplitClean url0)
  let nu := urlsplitNetloc su.2
  if ('[' ∈ nu.1 ∧ ']' ∉ nu.1) ∨ (']' ∈ nu.1 ∧ '[' ∉ nu.1) then
    .error ()
  else if '[' ∈ nu.1 ∧ ']' ∈ nu.1 ∧ ¬checkBracketedHost (bracketedHostOf nu.1) then
    .error ()
  else
    let uf := urlsplitFrag nu.2
    let uq := urlsplitQuery uf.1
    .ok ⟨su.1, nu.1, uq.1, uq.2, uf.2⟩

/-- The schemes for which `urlparse` splits `;params` off the path
(`urllib.parse.uses_params`). -/
def usesParams : List Str :=
  [str "", str "ftp", str "hdl", str "prospero", str "http", str "imap",
   str "https", str "shttp", str "rtsp", str "rtsps", str "rtspu", str "sip",
   str "sips", str "mms", str "sftp", str "tel"]

/-- `urllib.parse._splitparams`: split at the first `;` of the last path
segment. -/
def splitParams (u : Str) : Str × Str :=
  if '/' ∈ u then
    let afterSlash := (u.reverse.takeWhile (· ≠ '/')).reverse
    let before := u.take (u.length - afterSlash.length)
    match afterSlash.findIdx? (· = ';') with
    | some i => (u.take (before.length + i), u.drop (before.length + i + 1))
    | none => (u, [])
  else
    match u.findIdx? (· = ';') with
    | some i => (u.take i, u.drop (i + 1))
    | none => (u, [])

/-- `urllib.parse.urlparse(url)`. -/
def pyUrlparse (url : Str) : Except Unit UrlParts :=
  match pyUrlsplit url with
  | .error e => .error e
  | .ok r =>
    if r.scheme ∈ usesParams ∧ ';' ∈ r.path then
      let pp := splitParams r.path
      .ok ⟨r.scheme, r.netloc, pp.1, pp.2, r.query, r.fragment⟩
    else
      .ok ⟨r.scheme, r.netloc, r.path, [], r.query, r.fragment⟩

/-- The schemes for which `urlunsplit` re-introduces `//`
(`urllib.parse.uses_netloc`). -/
def usesNetloc : List Str :=
  [str "", str "ftp", str "http", str "gopher", str "nntp", str "telnet",
   str "imap", str "wais", str "file", str "mms", str "https", str "shttp",
   str "snews", str "prospero", str "rtsp", str "rtsps", str "rtspu",
   str "rsync", str "svn", str "svn+ssh", str "sftp", str "nfs", str "git",
   str "git+ssh", str "ws", str "wss"]

/-- `urllib.parse.urlunsplit`. -/
def pyUrlunsplit (r : SplitRes) : Str :=
  let u0 := r.path
  let u1 :=
    if r.netloc ≠ [] ∨
        (r.scheme ≠ [] ∧ r.scheme ∈ usesNetloc ∧ u0.take 2 ≠ ['/', '/']) then
      ['/', '/'] ++ r.netloc ++
        (if u0 ≠ [] ∧ u0.take 1 ≠ ['/'] then '/' :: u0 else u0)
    else u0
  let u2 := if r.scheme ≠ [] then r.scheme ++ ':' :: u1 else u1
  let u3 := if r.query ≠ [] then u2 ++ '?' :: r.query else u2
  if r.fragment ≠ [] then u3 ++ '#' :: r.fragment else u3

/-- `urllib.parse.urlunparse`. -/
def pyUrlunparse (p : UrlParts) : Str :=
  let path := if p.params ≠ [] then p.path ++ ';' :: p.params else p.path
  pyUrlunsplit ⟨p.scheme, p.netloc, path, p.query, p.fragment⟩

/-! ## Data model (`curlmonkey/models.py`) -/

/-- `models.HttpMethod`. -/
inductive HttpMethod where
  | GET | POST | PUT | PATCH | DELETE | HEAD | OPTIONS
deriving DecidableEq

/-- The `.value` string of an `HttpMethod` member. -/
def HttpMethod.value : HttpMethod → Str
  | .GET => str "GET"
  | .POST => str "POST"
  | .PUT => str "PUT"
  | .PATCH => str "PATCH"
  | .DELETE => str "DELETE"
  | .HEAD => str "HEAD"
  | .OPTIONS => str "OPTIONS"

/-- The `HttpMethod(s)` enum constructor: the member with value `s`, if any
(`ValueError` otherwise, modelled as `none`). -/
def httpMethodOfValue (s : Str) : Option HttpMethod :=
  if s = str "GET" then some .GET
  else if s = str "POST" then some .POST
  else if s = str "PUT" then some .PUT
  else if s = str "PATCH" then some .PATCH
  else if s = str "DELETE" then some .DELETE
  else if s = str "HEAD" then some .HEAD
  else if s = str "OPTIONS" then some .OPTIONS
  else none

/-- `models.BodyType`. -/
inductive BodyType where
  | NONE | RAW | FORM_URLENCODED | MULTIPART
deriving DecidableEq

/-- The `.value` string of a `BodyType` member. -/
def BodyType.value : BodyType → Str
  | .NONE => str "none"
  | .RAW => str "raw"
  | .FORM_URLENCODED => str "x-www-form-urlencoded"
  | .MULTIPART => str "multipart/form-data"

/-- `models.RawBodyType`. -/
inductive RawBodyType where
  | TEXT | JSON | XML
deriving DecidableEq

/-- `models.AuthType`. -/
inductive AuthType where
  | NONE | BASIC | BEARER
deriving DecidableEq

/-- The `.value` string of an `AuthType` member. -/
def AuthType.value : AuthType → Str
  | .NONE => str "none"
  | .BASIC => str "basic"
  | .BEARER => str "bearer"

/-- `models.KeyValuePair`. -/
structure KeyValuePair where
  enabled : Bool := true
  key : Str := []
  value : Str := []
deriving DecidableEq

/-- `models.MultipartItem` (`type` is the literal string `"text"` or
`"file"`, exactly as in the source). -/
structure MultipartItem where
  enabled : Bool := true
  key : Str := []
  type : Str := str "text"
  value : Str := []
deriving DecidableEq

/-- `models.AuthConfig`. -/
structure AuthConfig where
  auth_type : AuthType := .NONE
  username : Str := []
  password : Str := []
  bearer_token : Str := []
deriving DecidableEq

/-- `models.RequestModel`. -/
structure RequestModel where
  method : HttpMethod := .GET
  url : Str := []
  query_params : List KeyValuePair := []
  headers : List KeyValuePair := []
  body_type : BodyType := .NONE
  raw_body_type : RawBodyType := .TEXT
  raw_body : Str := []
  form_data : List KeyValuePair := []
  multipart_data : List MultipartItem := []
  auth : AuthConfig := {}
  environment : Str := str "Default"
deriving DecidableEq

/-- `models.Environment`.  The field modelling `Environment.variables` is
called `vars` because `variables` cannot be a field name in this Lean
environment. -/
structure Environment where
  name : Str := []
  vars : List (Str × Str) := []
deriving DecidableEq

/-! ## Variable substitution and URL building (`curlmonkey/http_client.py`) -/

/-- The placeholder `f"{{{{{var_name}}}}}"`, i.e. the name in double braces. -/
def placeholder (var_name : Str) : Str :=
  '\x7b' :: '\x7b' :: var_name ++ ['\x7d', '\x7d']

/-- `http_client.substitute_variables`: fold plain `str.replace` of every
variable's placeholder over the environment map, in insertion order. -/
def substitute_variables (text : Str) (env_vars : List (Str × Str)) : Str :=
  env_vars.foldl (fun result kv => pyReplace result (placeholder kv.1) kv.2) text

/-- The quote-stripping step of `build_url`: one surrounding pair (or lone
occurrence, when the string has length one) of `"` or `'`. -/
def stripSurroundingQuotes (url : Str) : Str :=
  if (url.take 1 = ['"'] ∧ url.getLast? = some '"') ∨
      (url.take 1 = ['\''] ∧ url.getLast? = some '\'') then
    (url.drop 1).dropLast
  else url

/-- The query dict of `build_url` after merging the enabled query parameters
into the URL's own (parsed) query string: each enabled, non-empty-key
parameter overwrites its key with the one substituted value. -/
def mergedQueryParams (request : RequestModel) (env_vars : List (Str × Str))
    (existing_params : List (Str × List Str)) : List (Str × List Str) :=
  request.query_params.foldl
    (fun d param =>
      if param.enabled ∧ param.key ≠ [] then
        dictSet d param.key [substitute_variables param.value env_vars]
      else d)
    existing_params

/-- The value of the last enabled occurrence of key `k` in a parameter list
(what the overwrite loop of `build_url` leaves in the dict for `k`). -/
def lastEnabledParamValue (params : List KeyValuePair) (k : Str) : Option Str :=
  params.foldr
    (fun p acc =>
      match acc with
      | some v => some v
      | none => if p.enabled ∧ p.key = k then some p.value else none)
    none

/-- Lookup in a dict-like association list. -/
def assocLookup (d : List (Str × List Str)) (k : Str) : Option (List Str) :=
  (d.find? fun kv => kv.1 = k).map Prod.snd

/-- `http_client.build_url`: substitute into the URL, strip whitespace and one
layer of surrounding quotes, parse, merge enabled query parameters, rebuild.
The `Except` is the `ValueError` that `urlparse` can raise for a bracketed
authority. -/
def build_url (request : RequestModel) (env_vars : List (Str × Str)) :
    Except Unit Str :=
  let url0 := substitute_variables request.url env_vars
  let url := stripSurroundingQuotes (pyStrip url0)
  match pyUrlparse url with
  | .error e => .error e
  | .ok parsed =>
    let merged := mergedQueryParams request env_vars (parse_qs parsed.query)
    .ok (pyUrlunparse {parsed with query := urlencodeDoseq merged})

/-! ## cURL export (`curlmonkey/curl_export.py`) -/

/-- `curl_export.escape_shell_string` (= `shlex.quote`). -/
def escape_shell_string (s : Str) : Str := shlexQuote s

/-- The proxy section of `generate_curl_command`: re-parses the rebuilt URL
(the second place a `ValueError` can surface) and appends the matching
`--proxy` part, if any, to the accumulated parts. -/
def proxyParts (include_proxy : Bool) (proxy_http proxy_https full_url : Str)
    (parts5 : List Str) : Except Unit (List Str) :=
  if include_proxy then
    match pyUrlparse full_url with
    | .error e => .error e
    | .ok parsed_url =>
      if parsed_url.scheme = str "https" ∧ proxy_https ≠ [] then
        .ok (parts5 ++ [str "--proxy " ++ escape_shell_string proxy_https])
      else if parsed_url.scheme = str "http" ∧ proxy_http ≠ [] then
        .ok (parts5 ++ [str "--proxy " ++ escape_shell_string proxy_http])
      else .ok parts5
  else .ok parts5

/-- The URL rebuilding of `generate_curl_command`: parse the request URL's
query, overwrite it with the enabled query parameters (unsubstituted values),
re-serialise. -/
def generateFullUrl (request : RequestModel) (parsed : UrlParts) : Str :=
  pyUrlunparse { parsed with query := urlencodeDoseq (request.query_params.foldl (fun d param => if param.enabled ∧ param.key ≠ [] then dictSet d param.key [param.value] else d) (parse_qs parsed.query)) }

/-- The enabled, non-empty-key `k=v` fragments of a form body, as
`generate_curl_command` serialises them. -/
def generateFormParts (request : RequestModel) : List Str :=
  request.form_data.filterMap fun item =>
    if item.enabled ∧ item.key ≠ [] then some (item.key ++ '=' :: item.value)
    else none

/-- The body-section argument groups of the command line
`generate_curl_command` builds: each group is one emitted part, as the list
of its space-separated atom values before shell-quoting. -/
def generateBodyGroups (request : RequestModel) : List (List Str) :=
  if request.body_type.value = str "raw" then
    if request.raw_body ≠ [] then [[str "--data-raw", request.raw_body]] else []
  else if request.body_type.value = str "x-www-form-urlencoded" then
    if request.form_data ≠ [] then
      if generateFormParts request ≠ [] then
        [[str "--data", joinWith ['&'] (generateFormParts request)]]
      else []
    else []
  else if request.body_type.value = str "multipart/form-data" then
    request.multipart_data.filterMap fun item =>
      if item.enabled ∧ item.key ≠ [] then
        if item.type = str "file" then some [str "-F", item.key ++ '=' :: '@' :: item.value]
        else some [str "-F", item.key ++ '=' :: item.value]
      else none
  else []

/-- The argument groups following `curl` on the command line
`generate_curl_command` builds for an auth-less request with proxies disabled
and ssl verification on. -/
def generateTailGroups (request : RequestModel) (p : UrlParts) : List (List Str) :=
  (if request.method.value ≠ str "GET" then [[str "-X", request.method.value]] else [])
  ++ [[generateFullUrl request p]]
  ++ (request.headers.filterMap fun h => if h.enabled ∧ h.key ≠ [] then some [str "-H", h.key ++ str ": " ++ h.value] else none)
  ++ generateBodyGroups request

/-- `curl_export.generate_curl_command`.  The `Except` is the `ValueError`
`urlparse` can raise for a bracketed authority; everything else is total. -/
def generate_curl_command (request : RequestModel) (include_proxy : Bool)
    (proxy_http proxy_https : Str) (ssl_verify : Bool) : Except Unit Str :=
  let parts0 := [str "curl"]
  let parts1 :=
    if request.method.value ≠ str "GET" then
      parts0 ++ [str "-X " ++ request.method.value]
    else parts0
  (pyUrlparse request.url).bind fun parsed =>
    let full_url := generateFullUrl request parsed
    let parts2 := parts1 ++ [escape_shell_string full_url]
    let parts3 := parts2 ++ request.headers.filterMap fun header =>
      if header.enabled ∧ header.key ≠ [] then
        some (str "-H " ++ escape_shell_string (header.key ++ str ": " ++ header.value))
      else none
    let parts4 :=
      if request.auth.auth_type.value = str "basic" then
        if request.auth.username ≠ [] ∨ request.auth.password ≠ [] then
          parts3 ++ [str "-u " ++
            escape_shell_string (request.auth.username ++ ':' :: request.auth.password)]
        else parts3
      else if request.auth.auth_type.value = str "bearer" then
        if request.auth.bearer_token ≠ [] then
          parts3 ++ [str "-H " ++
            escape_shell_string (str "Authorization: Bearer " ++ request.auth.bearer_token)]
        else parts3
      else parts3
    let parts5 :=
      if request.body_type.value = str "raw" then
        if request.raw_body ≠ [] then
          parts4 ++ [str "--data-raw " ++ escape_shell_string request.raw_body]
        else parts4
      else if request.body_type.value = str "x-www-form-urlencoded" then
        if request.form_data ≠ [] then
          let form_parts := request.form_data.filterMap fun item =>
            if item.enabled ∧ item.key ≠ [] then some (item.key ++ '=' :: item.value)
            else none
          if form_parts ≠ [] then
            parts4 ++ [str "--data " ++
              escape_shell_string (joinWith ['&'] form_parts)]
          else parts4
        else parts4
      else if request.body_type.value = str "multipart/form-data" then
        parts4 ++ request.multipart_data.filterMap fun item =>
          if item.enabled ∧ item.key ≠ [] then
            if item.type = str "file" then
              some (str "-F " ++ escape_shell_string (item.key ++ '=' :: '@' :: item.value))
            else
              some (str "-F " ++ escape_shell_string (item.key ++ '=' :: item.value))
          else none
      else parts4
    (proxyParts include_proxy proxy_http proxy_https full_url parts5).map
      fun parts6 =>
        joinWith [' '] (if ¬ssl_verify then parts6 ++ [str "--insecure"] else parts6)

/-! ## cURL import (`curlmonkey/curl_import.py`) -/

/-- The local variables accumulated by the token-scanning loop of
`parse_curl_command` (lines 54–64): `none` models Python `None`, and the
`url` slot models `url = None` as the empty string, which Python treats
identically (both are falsy, and nothing else is ever compared). -/
structure ScanState where
  url : Str := []
  method : Str := str "GET"
  headers : List (Str × Str) := []
  data : Option Str := none
  data_raw : Option Str := none
  data_binary : Option Str := none
  form_data : List Str := []
  auth_user : Option Str := none
  auth_pass : Option Str := none
  bearer_token : Option Str := none
deriving DecidableEq

/-- Python truthiness of an optional string (`None` and `""` are falsy). -/
def optTruthy : Option Str → Bool
  | none => false
  | some s => s ≠ []

/-- Python `a or b` on optional strings. -/
def pyOrOpt (a b : Option Str) : Option Str := if optTruthy a then a else b

/-- The `-H`/`--header` handler of the scanning loop: colon-split, strip both
sides, divert `Authorization: Bearer …` into the bearer-token slot, drop
colon-less arguments. -/
def processHeader (st : ScanState) (header_str : Str) : ScanState :=
  if ':' ∈ header_str then
    let kv := pySplitOnce header_str [':']
    let key := pyStrip kv.1
    let value := pyStrip (kv.2.getD [])
    if asciiLower key = str "authorization" ∧
        (str "bearer ").isPrefixOf (asciiLower value) then
      { st with bearer_token := some (pyStrip (value.drop 7)) }
    else { st with headers := st.headers ++ [(key, value)] }
  else st

/-- The token-scanning loop of `parse_curl_command` (lines 66–136): each
recognized flag consumes its argument when one is present; `--proxy…` skips
its argument; any other `-…` token is skipped alone; the first other token
becomes the URL. -/
def scanTokens : ScanState → List Str → ScanState
  | st, [] => st
  | st, t :: rest =>
    if t = str "-X" ∨ t = str "--request" then
      match rest with
      | a :: rest2 => scanTokens { st with method := asciiUpper a } rest2
      | [] => st
    else if t = str "-H" ∨ t = str "--header" then
      match rest with
      | a :: rest2 => scanTokens (processHeader st a) rest2
      | [] => st
    else if t = str "-d" ∨ t = str "--data" then
      match rest with
      | a :: rest2 => scanTokens { st with data := some a } rest2
      | [] => st
    else if t = str "--data-raw" then
      match rest with
      | a :: rest2 => scanTokens { st with data_raw := some a } rest2
      | [] => st
    else if t = str "--data-binary" then
      match rest with
      | a :: rest2 => scanTokens { st with data_binary := some a } rest2
      | [] => st
    else if t = str "-F" ∨ t = str "--form" then
      match rest with
      | a :: rest2 => scanTokens { st with form_data := st.form_data ++ [a] } rest2
      | [] => st
    else if t = str "-u" ∨ t = str "--user" then
      match rest with
      | a :: rest2 =>
        if ':' ∈ a then
          let up := pySplitOnce a [':']
          scanTokens { st with auth_user := some up.1, auth_pass := some (up.2.getD []) } rest2
        else scanTokens { st with auth_user := some a } rest2
      | [] => st
    else if (str "--proxy").isPrefixOf t then
      match rest with
      | _ :: rest2 => scanTokens st rest2
      | [] => st
    else if ['-'].isPrefixOf t then
      scanTokens st rest
    else if st.url = [] then
      scanTokens { st with url := t } rest
    else scanTokens st rest

/-- The parse errors of `parse_curl_command`: the two explicit
`ValueError`s, and the `ValueError` that `urlparse(url)` itself can raise
(an invalid bracketed authority). -/
inductive ParseErr where
  | emptyCommand | noUrl | invalidUrl
deriving DecidableEq

/-- Body classification of `parse_curl_command` (lines 176–194): strip the
collected data value; a leading `{` or `[` means raw JSON, else `=` together
with `&` means form-urlencoded split on `&` and first `=`, else raw text. -/
def classifyAndSetBody (req : RequestModel) (body_content0 : Str) : RequestModel :=
  let body_content := pyStrip body_content0
  if body_content.take 1 = ['\x7b'] ∨ body_content.take 1 = ['['] then
    { req with body_type := .RAW, raw_body_type := .JSON, raw_body := body_content }
  else if '=' ∈ body_content ∧ '&' ∈ body_content then
    { req with
      body_type := .FORM_URLENCODED,
      form_data := (pySplitStr body_content ['&']).filterMap fun pair =>
        if '=' ∈ pair then
          let kv := pySplitOnce pair ['=']
          some ⟨true, kv.1, kv.2.getD []⟩
        else none }
  else
    { req with body_type := .RAW, raw_body_type := .TEXT, raw_body := body_content }

/-- The multipart items built from the collected `-F` arguments (lines
195–210): split on the first `=`, a leading `@` in the value means a file
upload; `=`-less items are dropped. -/
def multipartFromItems (items : List Str) : List MultipartItem :=
  items.filterMap fun form_item =>
    if '=' ∈ form_item then
      let kv := pySplitOnce form_item ['=']
      let value := kv.2.getD []
      if value.take 1 = ['@'] then some ⟨true, kv.1, str "file", value.drop 1⟩
      else some ⟨true, kv.1, str "text", value⟩
    else none

/-- The body candidate chosen at assembly time, line 175:
`body_content = data_raw or data_binary or data`. -/
def bodyContentOf (st : ScanState) : Option Str :=
  pyOrOpt st.data_raw (pyOrOpt st.data_binary st.data)

/-- The flags the scanning loop recognizes (everything else starting with
`-` is skipped alone). -/
def recognizedFlag (t : Str) : Bool :=
  t = str "-X" ∨ t = str "--request" ∨ t = str "-H" ∨ t = str "--header" ∨
  t = str "-d" ∨ t = str "--data" ∨ t = str "--data-raw" ∨
  t = str "--data-binary" ∨ t = str "-F" ∨ t = str "--form" ∨
  t = str "-u" ∨ t = str "--user" ∨ (str "--proxy").isPrefixOf t

/-- The model-population phase of `parse_curl_command` (lines 138–212). -/
def assembleRequest (st : ScanState) : Except ParseErr RequestModel :=
  if st.url = [] then .error .noUrl
  else
    match pyUrlparse st.url with
    | .error _ => .error .invalidUrl
    | .ok parsed =>
      let req0 : RequestModel := {
        method := (httpMethodOfValue st.method).getD .GET,
        url := st.url,
        query_params :=
          ((parse_qs parsed.query).map fun kv =>
            kv.2.map fun v => (⟨true, kv.1, v⟩ : KeyValuePair)).flatten,
        headers := st.headers.map fun kv => ⟨true, kv.1, kv.2⟩,
        auth :=
          if optTruthy st.bearer_token then
            { auth_type := .BEARER, bearer_token := st.bearer_token.getD [] }
          else if optTruthy st.auth_user then
            { auth_type := .BASIC, username := st.auth_user.getD [],
              password := st.auth_pass.getD [] }
          else {} }
      let body_content := bodyContentOf st
      if optTruthy body_content then
        .ok (classifyAndSetBody req0 (body_content.getD []))
      else if st.form_data ≠ [] then
        .ok { req0 with body_type := .MULTIPART,
                        multipart_data := multipartFromItems st.form_data }
      else .ok req0

/-- The input normalization of `parse_curl_command` (lines 19–23): strip,
then drop a leading `curl ` or `curl\n` prefix. -/
def importCommandBody (curl_string0 : Str) : Str :=
  let curl_string1 := pyStrip curl_string0
  if (str "curl ").isPrefixOf curl_string1 then pyStrip (curl_string1.drop 5)
  else if (str "curl\n").isPrefixOf curl_string1 then pyStrip (curl_string1.drop 5)
  else curl_string1

/-- The tokenization of `parse_curl_command` (lines 27–49): strict `shlex`
split, falling back to the permissive scanner on a `ValueError`. -/
def importTokens (curl_string0 : Str) : List Str :=
  match shlexSplitStrict (importCommandBody curl_string0) with
  | .ok ts => ts
  | .error _ => fallbackTokenize (importCommandBody curl_string0)

/-- `curl_import.parse_curl_command`: strip a `curl` prefix, tokenize (strict
`shlex`, falling back to the permissive scanner), scan the tokens, assemble
the model. -/
def parse_curl_command (curl_string0 : Str) : Except ParseErr RequestModel :=
  let tokens := importTokens curl_string0
  if tokens = [] then .error .emptyCommand
  else assembleRequest (scanTokens {} tokens)

/-! ## The scan state left behind by a generated command -/

/-- The header pairs the scanning loop collects from the generated `-H`
groups: the enabled, non-empty-key headers of the request. -/
def scannedHeaders (hs : List KeyValuePair) : List (Str × Str) :=
  hs.filterMap fun h => if h.enabled ∧ h.key ≠ [] then some (h.key, h.value) else none

/-- The method string the scanning loop is left with after the generated
`-X` group (absent for `GET`). -/
def scannedMethod (request : RequestModel) : Str :=
  if request.method.value ≠ str "GET" then asciiUpper request.method.value
  else str "GET"

/-- The `-F` argument values the scanning loop collects from the generated
multipart groups. -/
def scannedForms (items : List MultipartItem) : List Str :=
  items.filterMap fun item =>
    if item.enabled ∧ item.key ≠ [] then
      if item.type = str "file" then some (item.key ++ '=' :: '@' :: item.value)
      else some (item.key ++ '=' :: item.value)
    else none

/-- The scan state after consuming every token of a command generated for an
auth-less request with proxies disabled and ssl verification on. -/
def scannedState (request : RequestModel) (p : UrlParts) : ScanState :=
  { url := generateFullUrl request p, method := scannedMethod request, headers := scannedHeaders request.headers, data := if request.body_type.value = str "x-www-form-urlencoded" ∧ request.form_data ≠ [] ∧ generateFormParts request ≠ [] then some (joinWith ['&'] (generateFormParts request)) else none, data_raw := if request.body_type.value = str "raw" ∧ request.raw_body ≠ [] then some request.raw_body else none, data_binary := none, form_data := if request.body_type.value = str "multipart/form-data" then scannedForms request.multipart_data else [], auth_user := none, auth_pass := none, bearer_token := none }

/-- The body-side conditions under which the importer's body sniffing
reclassifies the generated body exactly as the original request had it: a
non-empty, strip-stable raw body whose first character agrees with its
declared raw kind; a form body whose serialized `k=v&…` string survives the
sniffing tests and whose keys contain no `=` (with `&` nowhere in a
fragment); a multipart body with `=`-free keys whose text values do not
start with `@`; or no body at all. -/
@[reducible] def C1BodyHyp (request : RequestModel) : Prop :=
  (request.body_type = .RAW ∧ request.raw_body ≠ [] ∧
    pyStrip request.raw_body = request.raw_body ∧
    ((request.raw_body_type = .JSON ∧
        (request.raw_body.take 1 = ['\x7b'] ∨ request.raw_body.take 1 = ['['])) ∨
     (request.raw_body_type = .TEXT ∧
        ¬(request.raw_body.take 1 = ['\x7b'] ∨ request.raw_body.take 1 = ['[']) ∧
        ¬('=' ∈ request.raw_body ∧ '&' ∈ request.raw_body))))
  ∨
  (request.body_type = .FORM_URLENCODED ∧ request.form_data ≠ [] ∧
    generateFormParts request ≠ [] ∧
    pyStrip (joinWith ['&'] (generateFormParts request))
      = joinWith ['&'] (generateFormParts request) ∧
    ¬((joinWith ['&'] (generateFormParts request)).take 1 = ['\x7b'] ∨
      (joinWith ['&'] (generateFormParts request)).take 1 = ['[']) ∧
    '=' ∈ joinWith ['&'] (generateFormParts request) ∧
    '&' ∈ joinWith ['&'] (generateFormParts request) ∧
    (∀ pt ∈ generateFormParts request, '&' ∉ pt) ∧
    (∀ item ∈ request.form_data, item.enabled = true → item.key ≠ [] →
      '=' ∉ item.key))
  ∨
  (request.body_type = .MULTIPART ∧ scannedForms request.multipart_data ≠ [] ∧
    (∀ item ∈ request.multipart_data, item.enabled = true → item.key ≠ [] →
      '=' ∉ item.key ∧
      (item.type = str "file" ∨
        (item.type = str "text" ∧ item.value.take 1 ≠ ['@']))))
  ∨
  (request.body_type = .NONE)

/-- How the re-imported request's body reproduces the original one, per body
kind: raw bodies come back with the same content and raw kind, form bodies
come back as their enabled items, multipart bodies as their enabled items
(file values in `@path` form re-split), and a missing body stays missing. -/
def C1BodyConc (request r2 : RequestModel) : Prop :=
  (request.body_type = .RAW →
    r2.body_type = .RAW ∧ r2.raw_body = request.raw_body ∧
    r2.raw_body_type = request.raw_body_type) ∧
  (request.body_type = .FORM_URLENCODED →
    r2.body_type = .FORM_URLENCODED ∧
    r2.form_data = request.form_data.filterMap (fun i =>
      if i.enabled ∧ i.key ≠ [] then some ⟨true, i.key, i.value⟩ else none)) ∧
  (request.body_type = .MULTIPART →
    r2.body_type = .MULTIPART ∧
    r2.multipart_data = request.multipart_data.filterMap (fun i =>
      if i.enabled ∧ i.key ≠ [] then some ⟨true, i.key, i.type, i.value⟩ else none)) ∧
  (request.body_type = .NONE → r2.body_type = .NONE)

/-! ## Environment persistence (`curlmonkey/persistence.py`) -/

/-- The JSON object persisted for one environment, before
`Environment.from_dict`'s defaulting (a key can be absent). -/
structure EnvData where
  nameField : Option Str := none
  varsField : Option (List (Str × Str)) := none
deriving DecidableEq

/-- `Environment.from_dict`. -/
def environmentFromDict (d : EnvData) : Environment :=
  ⟨d.nameField.getD [], d.varsField.getD []⟩

/-- The observable states of `environments.json` when `load_environments`
runs: absent, unreadable/unparseable, or a parsed JSON object (an ordered
mapping from names to environment dicts). -/
inductive EnvironmentsFile where
  | missing
  | unreadable
  | stored (entries : List (Str × EnvData))
deriving DecidableEq

/-- `persistence.load_environments`, as a function of the file state (the
file I/O itself is outside the model; the `.missing` branch also writes the
default collection back to disk, which does not affect the returned value).
A missing file yields the fresh `"Default"` environment; a read/parse error
yields the same default; otherwise every stored entry is decoded with
`Environment.from_dict` and returned as-is. -/
def load_environments : EnvironmentsFile → List (Str × Environment)
  | .missing => [(str "Default", ⟨str "Default", []⟩)]
  | .unreadable => [(str "Default", ⟨str "Default", []⟩)]
  | .stored entries => entries.map fun e => (e.1, environmentFromDict e.2)

/-! ## Theory of `str.replace` and `str.split` -/

theorem pySplitAux_ne_nil (sep : Str) :
    ∀ (s : Str) (k : Nat) (cur : Str), pySplitAux sep s k cur ≠ []
  | [], _, _ => by simp [pySplitAux]
  | _ :: rest, k + 1, cur => by
    simpa [pySplitAux] using pySplitAux_ne_nil sep rest k cur
  | c :: rest, 0, cur => by
    rw [pySplitAux]
    split
    · simp
    · exact pySplitAux_ne_nil sep rest 0 (cur ++ [c])

theorem joinWith_cons (sep x : Str) (l : List Str) (hl : l ≠ []) :
    joinWith sep (x :: l) = x ++ sep ++ joinWith sep l := by
  cases l with
  | nil => exact absurd rfl hl
  | cons y ys => rfl

/-- Splitting on a pattern and re-joining with it reconstructs the string. -/
theorem joinWith_pySplitAux (pat : Str) (hpat : pat ≠ []) :
    ∀ (s : Str) (k : Nat) (cur : Str),
      joinWith pat (pySplitAux pat s k cur) = cur ++ s.drop k
  | [], k, cur => by simp [pySplitAux, joinWith]
  | _ :: rest, k + 1, cur => by
    simpa [pySplitAux] using joinWith_pySplitAux pat hpat rest k cur
  | c :: rest, 0, cur => by
    by_cases hm : pat.isPrefixOf (c :: rest)
    · have hpre : pat <+: (c :: rest) := List.isPrefixOf_iff_prefix.1 hm
      obtain ⟨t, ht⟩ := hpre
      obtain ⟨p, ps, rfl⟩ : ∃ p ps, pat = p :: ps := by
        cases pat with
        | nil => exact absurd rfl hpat
        | cons p ps => exact ⟨p, ps, rfl⟩
      rw [pySplitAux, if_pos ⟨hm, hpat⟩,
        joinWith_cons _ _ _ (pySplitAux_ne_nil _ _ _ _),
        joinWith_pySplitAux (p :: ps) hpat rest ((p :: ps).length - 1) []]
      simp only [List.length_cons, Nat.pred_succ, List.nil_append, List.drop_zero]
      have hdrop : rest.drop ps.length = t := by
        have := congrArg (List.drop (ps.length + 1)) ht
        simpa using this.symm
      simp [← ht, hdrop]
    · rw [pySplitAux, if_neg (by simp [hm])]
      simpa using joinWith_pySplitAux pat hpat rest 0 (cur ++ [c])

/-- `str.replace` is: split on the pattern, re-join with the replacement. -/
theorem pyReplaceAux_eq (pat repl : Str) (hpat : pat ≠ []) :
    ∀ (s : Str) (k : Nat) (cur : Str),
      joinWith repl (pySplitAux pat s k cur) = cur ++ pyReplaceAux pat repl s k
  | [], k, cur => by simp [pySplitAux, pyReplaceAux, joinWith]
  | _ :: rest, k + 1, cur => by
    simpa [pySplitAux, pyReplaceAux] using pyReplaceAux_eq pat repl hpat rest k cur
  | c :: rest, 0, cur => by
    by_cases hm : pat.isPrefixOf (c :: rest)
    · rw [pySplitAux, if_pos ⟨hm, hpat⟩, pyReplaceAux, if_pos hm,
        joinWith_cons _ _ _ (pySplitAux_ne_nil _ _ _ _),
        pyReplaceAux_eq pat repl hpat rest (pat.length - 1) []]
      simp
    · rw [pySplitAux, if_neg (by simp [hm]), pyReplaceAux, if_neg hm]
      simpa using pyReplaceAux_eq pat repl hpat rest 0 (cur ++ [c])

theorem pyReplace_eq_joinWith (s pat repl : Str) (hpat : pat ≠ []) :
    pyReplace s pat repl = joinWith repl (pySplitStr s pat) := by
  rw [pyReplace, if_neg hpat]
  unfold pySplitStr
  simpa using (pyReplaceAux_eq pat repl hpat s 0 []).symm

theorem joinWith_pySplitStr (s pat : Str) (hpat : pat ≠ []) :
    joinWith pat (pySplitStr s pat) = s := by
  simpa using joinWith_pySplitAux pat hpat s 0 []

theorem snoc_decomp {α : Type} {a b cur : List α} {c : α} (hb : b ≠ [])
    (h : a ++ b = cur ++ [c]) : ∃ b', b = b' ++ [c] ∧ cur = a ++ b' := by
  rcases List.eq_nil_or_concat b with rfl | ⟨b', x, rfl⟩
  · exact absurd rfl hb
  · simp only [List.concat_eq_append] at h ⊢
    rw [← List.append_assoc] at h
    have h2 := congrArg List.reverse h
    simp only [List.reverse_append, List.reverse_cons, List.reverse_nil,
      List.nil_append, List.cons_append, List.singleton_append,
      List.cons.injEq] at h2
    obtain ⟨rfl, h3⟩ := h2
    have : a ++ b' = cur := by
      have := congrArg List.reverse h3
      simpa [List.reverse_append] using this
    exact ⟨b', rfl, this.symm⟩

/-- No piece produced by splitting on a pattern still contains the pattern. -/
theorem pySplitAux_not_infix (pat : Str) (hpat : pat ≠ []) :
    ∀ (s : Str) (k : Nat) (cur : Str), (k ≠ 0 → cur = []) →
      (∀ a b, cur = a ++ b → b ≠ [] → ¬ pat <+: (b ++ s)) →
      ∀ seg ∈ pySplitAux pat s k cur, ¬ List.IsInfix pat seg
  | [], k, cur, _, hinv => by
    intro seg hseg hInf
    simp [pySplitAux] at hseg
    subst hseg
    obtain ⟨pre, suf, hps⟩ := hInf
    exact hinv pre (pat ++ suf) (by rw [← hps]; simp) (by simp [hpat])
      (by simp [List.prefix_append pat suf])
  | _ :: rest, k + 1, cur, hk, _ => by
    have hcur : cur = [] := hk (Nat.succ_ne_zero k)
    subst hcur
    intro seg hseg
    rw [pySplitAux] at hseg
    refine pySplitAux_not_infix pat hpat rest k [] (fun _ => rfl) ?_ seg hseg
    intro a b hab hb
    exact absurd (List.append_eq_nil.1 hab.symm).2 hb
  | c :: rest, 0, cur, _, hinv => by
    intro seg hseg
    by_cases hm : pat.isPrefixOf (c :: rest)
    · rw [pySplitAux, if_pos ⟨hm, hpat⟩] at hseg
      rcases List.mem_cons.1 hseg with rfl | htail
      · intro hInf
        obtain ⟨pre, suf, hps⟩ := hInf
        refine hinv pre (pat ++ suf) (by rw [← hps]; simp) (by simp [hpat]) ?_
        simp [List.prefix_append pat (suf ++ (c :: rest))]
      · refine pySplitAux_not_infix pat hpat rest (pat.length - 1) [] (fun _ => rfl) ?_ seg htail
        intro a b hab hb
        exact absurd (List.append_eq_nil.1 hab.symm).2 hb
    · rw [pySplitAux, if_neg (by simp [hm])] at hseg
      refine pySplitAux_not_infix pat hpat rest 0 (cur ++ [c]) (fun h => absurd rfl h) ?_ seg hseg
      intro a b hab hb
      obtain ⟨b', rfl, rfl⟩ := snoc_decomp hb hab.symm
      by_cases hb' : b' = []
      · subst hb'
        simpa [List.isPrefixOf_iff_prefix] using hm
      · have := hinv a b' rfl hb'
        simpa using this

theorem pySplitStr_not_infix (s pat : Str) (hpat : pat ≠ []) :
    ∀ seg ∈ pySplitStr s pat, ¬ List.IsInfix pat seg := by
  refine pySplitAux_not_infix pat hpat s 0 [] (fun h => absurd rfl h) ?_
  intro a b hab hb
  exact absurd (List.append_eq_nil.1 hab.symm).2 hb

/-- A string not containing the pattern splits into a single piece. -/
theorem pySplitAux_of_not_infix (pat : Str) (hpat : pat ≠ []) :
    ∀ (s cur : Str), ¬ List.IsInfix pat (cur ++ s) →
      pySplitAux pat s 0 cur = [cur ++ s]
  | [], cur, _ => by simp [pySplitAux]
  | c :: rest, cur, h => by
    have hm : ¬ pat.isPrefixOf (c :: rest) := by
      intro hpre
      obtain ⟨t, ht⟩ := List.isPrefixOf_iff_prefix.1 hpre
      exact h ⟨cur, t, by rw [List.append_assoc, ht]⟩
    rw [pySplitAux, if_neg (by simp [hm])]
    have := pySplitAux_of_not_infix pat hpat rest (cur ++ [c])
      (by simpa using h)
    simpa using this

theorem pyReplace_of_not_infix (s pat repl : Str) (hpat : pat ≠ [])
    (h : ¬ List.IsInfix pat s) : pyReplace s pat repl = s := by
  rw [pyReplace_eq_joinWith s pat repl hpat, pySplitStr,
    pySplitAux_of_not_infix pat hpat s [] (by simpa using h)]
  rfl

theorem placeholder_ne_nil (k : Str) : placeholder k ≠ [] := by
  simp [placeholder]

/-! ## Claim C3: the variable-substitution engine -/

/-- **C3.**  `substitute_variables` is the fold, in map insertion order, of
plain (non-regex) string replacement of each key's `{{key}}` placeholder by
its value: (1) it is exactly that fold; (2) one replacement step decomposes
its input into the segments between literal occurrences of the placeholder —
none of which still contains it — and rejoins them with the value, for every
key, including keys containing regex metacharacters, which get no special
treatment; (3) when no key's placeholder occurs in the text (in particular
for placeholders whose name is not a key of the map), the text is returned
verbatim and no error is possible (the function is total). -/
theorem C3_substitution_replaces_placeholders (text : Str) (env_vars : List (Str × Str)) :
    (substitute_variables text env_vars =
      env_vars.foldl (fun result kv => pyReplace result (placeholder kv.1) kv.2) text)
    ∧ (∀ result k v, ∃ segs : List Str,
        result = joinWith (placeholder k) segs ∧
        (∀ seg ∈ segs, ¬ List.IsInfix (placeholder k) seg) ∧
        pyReplace result (placeholder k) v = joinWith v segs)
    ∧ ((∀ kv ∈ env_vars, ¬ List.IsInfix (placeholder kv.1) text) →
        substitute_variables text env_vars = text) := by
  refine ⟨rfl, ?_, ?_⟩
  · intro result k v
    exact ⟨pySplitStr result (placeholder k),
      (joinWith_pySplitStr result (placeholder k) (placeholder_ne_nil k)).symm,
      pySplitStr_not_infix result (placeholder k) (placeholder_ne_nil k),
      pyReplace_eq_joinWith result (placeholder k) v (placeholder_ne_nil k)⟩
  · intro h
    unfold substitute_variables
    induction env_vars with
    | nil => rfl
    | cons kv rest ih =>
      rw [List.foldl_cons,
        pyReplace_of_not_infix text (placeholder kv.1) kv.2 (placeholder_ne_nil kv.1)
          (h kv (List.mem_cons_self kv rest))]
      exact ih fun kv' h' => h kv' (List.mem_cons_of_mem kv h')

/-- Witness for C3: the spec's own examples, plus a key containing the regex
metacharacter `.`, which is replaced literally. -/
theorem C3_substitution_replaces_placeholders_witness :
    substitute_variables (str "\x7b\x7ba\x7d\x7d-\x7b\x7bb\x7d\x7d")
      [(str "a", str "1"), (str "b", str "2")] = str "1-2"
    ∧ substitute_variables (str "\x7b\x7bmissing\x7d\x7d") [] = str "\x7b\x7bmissing\x7d\x7d"
    ∧ substitute_variables (str "x.\x7b\x7ba.b\x7d\x7d") [(str "a.b", str "V")] = str "x.V" := by
  refine ⟨by decide, ?_, by decide⟩
  exact (C3_substitution_replaces_placeholders (str "\x7b\x7bmissing\x7d\x7d") []).2.2
    (by intro kv h; simp at h)

/-! ## Claim C8: the `"Default"` environment -/

/-- **C8 counterexample.**  A readable environments file whose JSON object
has no `"Default"` key is returned as-is by `load_environments`: the result
has no `"Default"` entry, refuting the claim that every result has one. -/
theorem C8_default_can_be_missing_counterexample :
    ¬ (str "Default") ∈ (load_environments
        (.stored [(str "Prod", ⟨some (str "Prod"), some []⟩)])).map Prod.fst := by
  decide

/-- **C8 (amended).**  `load_environments` returns a collection containing
`"Default"` when the environments file does not exist (it is created then)
and when the file cannot be read or parsed; when the file is readable it
returns exactly the file's entries, so `"Default"` is present if and only if
the file stores it.  (The always-present invariant is re-established by the
caller in `app.py`, not here.) -/
theorem C8_default_environment_on_first_load :
    (str "Default") ∈ (load_environments .missing).map Prod.fst
    ∧ (str "Default") ∈ (load_environments .unreadable).map Prod.fst
    ∧ ∀ entries, (load_environments (.stored entries)).map Prod.fst =
        entries.map Prod.fst := by
  refine ⟨by decide, by decide, fun entries => ?_⟩
  simp [load_environments]

/-! ## Claim C4: the data-slot precedence -/

/-- **C4 counterexample.**  Within one slot the kept value is the *last*
occurrence, not the first: `curl http://x -d a -d b` parses with raw body
`b`, not `a`. -/
theorem C4_first_found_wins_counterexample :
    (parse_curl_command (str "curl http://x -d a -d b")).map (fun r => r.raw_body)
      = .ok (str "b")
    ∧ str "b" ≠ str "a" := by
  constructor
  · decide
  · decide

/-- **C4 (amended).**  Each of `-d`/`--data`, `--data-raw` and
`--data-binary` writes its own single body-candidate slot, overwriting any
earlier value (so with repeated flags the value kept is last-found-wins),
and at assembly time the body content is the `data_raw or data_binary or
data` chain: `data-raw` first, then `data-binary`, then `data`, each skipped
when absent or empty (Python falsiness). -/
theorem C4_data_slots_overwrite_with_raw_precedence :
    (∀ st v rest, scanTokens st (str "-d" :: v :: rest)
        = scanTokens { st with data := some v } rest)
    ∧ (∀ st v rest, scanTokens st (str "--data" :: v :: rest)
        = scanTokens { st with data := some v } rest)
    ∧ (∀ st v rest, scanTokens st (str "--data-raw" :: v :: rest)
        = scanTokens { st with data_raw := some v } rest)
    ∧ (∀ st v rest, scanTokens st (str "--data-binary" :: v :: rest)
        = scanTokens { st with data_binary := some v } rest)
    ∧ (∀ st, optTruthy st.data_raw → bodyContentOf st = st.data_raw)
    ∧ (∀ st, ¬optTruthy st.data_raw → optTruthy st.data_binary →
        bodyContentOf st = st.data_binary)
    ∧ (∀ st, ¬optTruthy st.data_raw → ¬optTruthy st.data_binary →
        bodyContentOf st = st.data) := by
  refine ⟨fun st v rest => rfl, fun st v rest => rfl, fun st v rest => rfl,
    fun st v rest => rfl, fun st h => ?_, fun st h1 h2 => ?_, fun st h1 h2 => ?_⟩
  · simp [bodyContentOf, pyOrOpt, h]
  · simp [bodyContentOf, pyOrOpt, h1, h2]
  · simp [bodyContentOf, pyOrOpt, h1, h2]

/-- Witness for the amended C4: a command carrying every data flag, with the
last `--data-raw` occurrence winning its slot and taking precedence. -/
theorem C4_data_slots_overwrite_witness :
    scanTokens {} [str "--data-raw", str "r1", str "--data-raw", str "r2"]
      = scanTokens { data_raw := some (str "r1") } [str "--data-raw", str "r2"]
    ∧ bodyContentOf { data_raw := some (str "r2"), data_binary := some (str "b"), data := some (str "d") } = some (str "r2")
    ∧ (parse_curl_command
        (str "curl http://x --data d --data-binary b --data-raw r1 --data-raw r2")).map
          (fun r => r.raw_body) = .ok (str "r2") := by
  refine ⟨(C4_data_slots_overwrite_with_raw_precedence).2.2.1 {} (str "r1")
      [str "--data-raw", str "r2"], ?_, by decide⟩
  exact ((C4_data_slots_overwrite_with_raw_precedence).2.2.2.2.1
    { data_raw := some (str "r2"), data_binary := some (str "b"), data := some (str "d") } (by decide)).trans rfl

/-! ## Claim C10: empty body slots are treated as absent -/

/-- **C10.**  A collected slot holding the empty string is falsy, so the
assembly chain skips an empty `--data-raw` in favour of `--data-binary` or
`--data`; and when every collected data value is empty or absent and no `-F`
item was collected, the assembled body kind is `none`. -/
theorem C10_empty_slots_are_absent :
    (∀ st, st.data_raw = some [] →
      bodyContentOf st = pyOrOpt st.data_binary st.data)
    ∧ (∀ st r, ¬optTruthy (bodyContentOf st) → st.form_data = [] →
        assembleRequest st = .ok r → r.body_type = .NONE) := by
  constructor
  · intro st h
    simp [bodyContentOf, pyOrOpt, h, optTruthy]
  · intro st r hbody hform hok
    unfold assembleRequest at hok
    split at hok
    · exact absurd hok (by simp)
    · split at hok
      · exact absurd hok (by simp)
      · rw [if_neg hbody] at hok
        rw [if_neg (by simp [hform])] at hok
        cases hok
        rfl

/-- Witness for C10: an empty `--data-raw` slot defers to `--data`, and a
state with an empty `-d` value and no `-F` items assembles to a body-less
request. -/
theorem C10_empty_slots_are_absent_witness :
    bodyContentOf { url := str "http://x", data_raw := some [], data := some (str "d") }
      = some (str "d")
    ∧ ({ url := str "http://x", data := some [] } : ScanState).form_data = []
    ∧ assembleRequest { url := str "http://x", data := some [] }
        = .ok { url := str "http://x" }
    ∧ ({ url := str "http://x" } : RequestModel).body_type = .NONE := by
  refine ⟨((C10_empty_slots_are_absent).1
      { url := str "http://x", data_raw := some [], data := some (str "d") } rfl).trans
        (by decide), rfl, by decide, ?_⟩
  exact (C10_empty_slots_are_absent).2
    { url := str "http://x", data := some [] } { url := str "http://x" }
    (by decide) rfl (by decide)

/-! ## Claim C5: body classification -/

theorem classifyAndSetBody_method (q : RequestModel) (b : Str) :
    (classifyAndSetBody q b).method = q.method := by
  simp only [classifyAndSetBody]
  split
  · rfl
  · split <;> rfl

theorem classifyAndSetBody_auth (q : RequestModel) (b : Str) :
    (classifyAndSetBody q b).auth = q.auth := by
  simp only [classifyAndSetBody]
  split
  · rfl
  · split <;> rfl

/-- **C5.**  When a data/data-raw/data-binary value is present (truthy), the
assembled body is its trim, classified: a leading `{` or `[` gives a raw JSON
body; otherwise containing both `=` and `&` gives a form-urlencoded body made
of the `&`-chunks split at their first `=` (chunks with no `=` dropped);
otherwise a raw text body. -/
theorem C5_collected_body_is_sniffed (st : ScanState) (r : RequestModel)
    (hok : assembleRequest st = .ok r) (htr : optTruthy (bodyContentOf st)) :
    ∃ bc, bodyContentOf st = some bc ∧
      (((pyStrip bc).take 1 = ['\x7b'] ∨ (pyStrip bc).take 1 = ['[']) →
        r.body_type = .RAW ∧ r.raw_body_type = .JSON ∧ r.raw_body = pyStrip bc)
      ∧ (¬((pyStrip bc).take 1 = ['\x7b'] ∨ (pyStrip bc).take 1 = ['[']) →
          ('=' ∈ pyStrip bc ∧ '&' ∈ pyStrip bc) →
          r.body_type = .FORM_URLENCODED ∧
          r.form_data = (pySplitStr (pyStrip bc) ['&']).filterMap (fun pair =>
            if '=' ∈ pair then
              some ⟨true, (pySplitOnce pair ['=']).1, ((pySplitOnce pair ['=']).2).getD []⟩
            else none))
      ∧ (¬((pyStrip bc).take 1 = ['\x7b'] ∨ (pyStrip bc).take 1 = ['[']) →
          ¬('=' ∈ pyStrip bc ∧ '&' ∈ pyStrip bc) →
          r.body_type = .RAW ∧ r.raw_body_type = .TEXT ∧ r.raw_body = pyStrip bc) := by
  obtain ⟨bc, hbc⟩ : ∃ bc, bodyContentOf st = some bc := by
    cases h : bodyContentOf st with
    | none => rw [h] at htr; exact absurd htr (by simp [optTruthy])
    | some v => exact ⟨v, rfl⟩
  simp only [assembleRequest] at hok
  split at hok
  · exact absurd hok (by simp)
  · split at hok
    · exact absurd hok (by simp)
    · rw [hbc] at hok htr
      simp only [htr, if_true, Option.getD_some] at hok
      have hr := (Except.ok.inj hok).symm
      refine ⟨bc, hbc, ?_, ?_, ?_⟩
      · intro hlead
        rw [hr]
        simp only [classifyAndSetBody]
        rw [if_pos hlead]
        exact ⟨rfl, rfl, rfl⟩
      · intro hlead hfrm
        rw [hr]
        simp only [classifyAndSetBody]
        rw [if_neg hlead, if_pos hfrm]
        exact ⟨rfl, rfl⟩
      · intro hlead hfrm
        rw [hr]
        simp only [classifyAndSetBody]
        rw [if_neg hlead, if_neg hfrm]
        exact ⟨rfl, rfl, rfl⟩

/-- Witness for C5, on the spec's own example `a=1&b=2`: the collected value
classifies as form-urlencoded with the two pairs. -/
theorem C5_collected_body_is_sniffed_witness :
    assembleRequest { url := str "http://x", data := some (str "a=1&b=2") }
      = .ok { url := str "http://x", body_type := .FORM_URLENCODED,
              form_data := [⟨true, str "a", str "1"⟩, ⟨true, str "b", str "2"⟩] }
    ∧ ({ url := str "http://x", body_type := .FORM_URLENCODED,
         form_data := [⟨true, str "a", str "1"⟩, ⟨true, str "b", str "2"⟩] }
          : RequestModel).body_type = .FORM_URLENCODED := by
  have hok : assembleRequest { url := str "http://x", data := some (str "a=1&b=2") }
      = .ok { url := str "http://x", body_type := .FORM_URLENCODED,
              form_data := [⟨true, str "a", str "1"⟩, ⟨true, str "b", str "2"⟩] } := by
    decide
  obtain ⟨bc, hbc, h1, h2, h3⟩ := C5_collected_body_is_sniffed _ _ hok (by decide)
  have hbceq : bc = str "a=1&b=2" := by
    have : bodyContentOf { url := str "http://x", data := some (str "a=1&b=2") }
        = some (str "a=1&b=2") := by decide
    rw [this] at hbc
    exact (Option.some.inj hbc).symm
  subst hbceq
  exact ⟨hok, (h2 (by decide) (by decide)).1⟩

/-! ## Claim C2: when the importer raises -/

/-- `assembleRequest` errors exactly when the scanned URL slot is falsy or
`urlparse` rejects it. -/
theorem assembleRequest_error_iff (st : ScanState) :
    (∃ e, assembleRequest st = .error e) ↔
      (st.url = [] ∨ ∃ e2, pyUrlparse st.url = .error e2) := by
  constructor
  · rintro ⟨e, he⟩
    simp only [assembleRequest] at he
    split at he
    · exact Or.inl (by assumption)
    · split at he
      · exact Or.inr ⟨_, by assumption⟩
      · split at he
        · exact absurd he (by simp)
        · split at he
          · exact absurd he (by simp)
          · exact absurd he (by simp)
  · intro h
    simp only [assembleRequest]
    rcases h with h | ⟨e2, h⟩
    · rw [if_pos h]
      exact ⟨.noUrl, rfl⟩
    · split
      · exact ⟨.noUrl, rfl⟩
      · rw [h]
        exact ⟨.invalidUrl, rfl⟩

/-- **C2 counterexample.**  `curl http://[` locates a URL token, yet parsing
raises: the `ValueError` comes from `urlparse`'s bracketed-authority
validation (CPython's "Invalid IPv6 URL"), refuting "raises only when no URL
can be located". -/
theorem C2_error_despite_url_counterexample :
    (scanTokens {} (importTokens (str "curl http://["))).url = str "http://["
    ∧ parse_curl_command (str "curl http://[") = .error .invalidUrl := by
  exact ⟨by decide, by decide⟩

/-- **C2 (amended).**  For ASCII inputs (the model is case/netloc-faithful on
ASCII), the importer raises if and only if no URL token is located *or* the
located URL's authority is rejected by `urlparse` (mismatched or invalid
square-bracket host).  Every other malformed input degrades: an unrecognized
`-…` flag is skipped without consuming its argument, a method string outside
the enum falls back to `GET`, and a `-u` argument without a colon is stored
as the username with the password left empty. -/
theorem C2_parse_error_conditions (s : Str) (_hascii : ∀ c ∈ s, c.toNat ≤ 127) :
    ((∃ e, parse_curl_command s = .error e) ↔
      ((scanTokens {} (importTokens s)).url = [] ∨
        ∃ e2, pyUrlparse (scanTokens {} (importTokens s)).url = .error e2))
    ∧ (∀ (st : ScanState) (t : Str) (rest : List Str),
        t.take 1 = ['-'] → recognizedFlag t = false →
        scanTokens st (t :: rest) = scanTokens st rest)
    ∧ (∀ (st : ScanState) (r : RequestModel), assembleRequest st = .ok r →
        httpMethodOfValue st.method = none → r.method = .GET)
    ∧ (∀ (st : ScanState) (a : Str) (rest : List Str), ¬ ':' ∈ a →
        scanTokens st (str "-u" :: a :: rest)
          = scanTokens { st with auth_user := some a } rest)
    ∧ (∀ (st : ScanState) (r : RequestModel), assembleRequest st = .ok r →
        ¬optTruthy st.bearer_token → optTruthy st.auth_user →
        r.auth = { auth_type := .BASIC, username := st.auth_user.getD [],
                   password := st.auth_pass.getD [] }) := by
  refine ⟨?_, ?_, ?_, ?_, ?_⟩
  · unfold parse_curl_command
    by_cases hts : importTokens s = []
    · rw [hts, if_pos rfl]
      constructor
      · intro _
        exact Or.inl rfl
      · intro _
        exact ⟨.emptyCommand, rfl⟩
    · rw [if_neg hts]
      exact assembleRequest_error_iff (scanTokens {} (importTokens s))
  · intro st t rest ht hflag
    simp only [recognizedFlag, Bool.or_eq_false_iff, decide_eq_false_iff_not] at hflag
    conv_lhs => rw [scanTokens.eq_def]
    dsimp only
    rw [if_neg (fun h => hflag (by tauto)), if_neg (fun h => hflag (by tauto)),
      if_neg (fun h => hflag (by tauto)), if_neg (fun h => hflag (by tauto)),
      if_neg (fun h => hflag (by tauto)), if_neg (fun h => hflag (by tauto)),
      if_neg (fun h => hflag (by tauto)), if_neg (fun h => hflag (by tauto)),
      if_pos ?hpre]
    case hpre =>
      cases t with
      | nil => simp at ht
      | cons c t' =>
        simp at ht
        simp [ht]
  · intro st r hok hmeth
    simp only [assembleRequest] at hok
    split at hok
    · exact absurd hok (by simp)
    · split at hok
      · exact absurd hok (by simp)
      · split at hok
        · have hr := (Except.ok.inj hok).symm
          rw [hr, classifyAndSetBody_method]
          simp [hmeth]
        · split at hok
          · have hr := (Except.ok.inj hok).symm
            rw [hr]
            simp [hmeth]
          · have hr := (Except.ok.inj hok).symm
            rw [hr]
            simp [hmeth]
  · intro st a rest hcolon
    conv_lhs => rw [scanTokens.eq_def]
    dsimp only
    rw [if_neg (by decide), if_neg (by decide), if_neg (by decide),
      if_neg (by decide), if_neg (by decide), if_neg (by decide), if_pos (by decide)]
    rw [if_neg hcolon]
  · intro st r hok hbear huser
    simp only [assembleRequest] at hok
    split at hok
    · exact absurd hok (by simp)
    · split at hok
      · exact absurd hok (by simp)
      · split at hok
        · have hr := (Except.ok.inj hok).symm
          rw [hr, classifyAndSetBody_auth]
          try simp [hbear, huser]
        · split at hok
          · have hr := (Except.ok.inj hok).symm
            rw [hr]
            try simp [hbear, huser]
          · have hr := (Except.ok.inj hok).symm
            rw [hr]
            try simp [hbear, huser]

/-- Witness for the amended C2: a command with no URL errors; `-Z` is skipped
without consuming the following token; an invalid method and a colon-less
`-u` degrade to `GET` and a password-less basic auth. -/
theorem C2_parse_error_conditions_witness :
    parse_curl_command (str "curl -d x") = .error .noUrl
    ∧ scanTokens {} [str "-Z", str "http://x"] = scanTokens {} [str "http://x"]
    ∧ (parse_curl_command (str "curl -X BREW -u bob http://x")).map
        (fun r => (r.method, r.auth))
      = .ok (.GET, { auth_type := .BASIC, username := str "bob", password := [] }) := by
  refine ⟨by decide, ?_, by decide⟩
  exact (C2_parse_error_conditions (str "curl -d x") (by decide)).2.1 {}
    (str "-Z") [str "http://x"] (by decide) (by decide)

/-! ## Round-trip theory of the UTF-8 codec -/

theorem char_toNat_valid (c : Char) :
    c.toNat < 0xd800 ∨ (0xe000 ≤ c.toNat ∧ c.toNat < 0x110000) := by
  rcases c.valid with h | h
  · exact Or.inl h
  · refine Or.inr ⟨?_, h.2⟩
    have h1 : 57343 < c.toNat := h.1
    omega

theorem toNat_ofNat_valid (n : Nat) (h : n.isValidChar) : (Char.ofNat n).toNat = n := by
  unfold Char.ofNat
  rw [dif_pos h]
  rfl

theorem decode_one (f b : Nat) (bs : List Nat) (h : b ≤ 0x7F) :
    utf8DecodeAux (f + 1) (b :: bs) = Char.ofNat b :: utf8DecodeAux f bs := by
  conv_lhs => rw [utf8DecodeAux.eq_def]
  dsimp only
  rw [if_pos h]

theorem decode_two (f b1 b2 : Nat) (bs : List Nat)
    (h1 : 0xC2 ≤ b1) (h2 : b1 ≤ 0xDF) (h3 : 0x80 ≤ b2) (h4 : b2 ≤ 0xBF) :
    utf8DecodeAux (f + 1) (b1 :: b2 :: bs)
      = Char.ofNat ((b1 - 0xC0) * 64 + (b2 - 0x80)) :: utf8DecodeAux f bs := by
  conv_lhs => rw [utf8DecodeAux.eq_def]
  dsimp only
  rw [if_neg (by omega), if_pos (by omega)]
  rw [if_pos (by simp [utf8Cont]; omega)]

theorem decode_three (f b1 b2 b3 : Nat) (bs : List Nat)
    (h1 : 0xE0 ≤ b1) (h2 : b1 ≤ 0xEF) (h5 : utf8Cont2Ok b1 b2 = true)
    (h3 : 0x80 ≤ b3) (h4 : b3 ≤ 0xBF) :
    utf8DecodeAux (f + 1) (b1 :: b2 :: b3 :: bs)
      = Char.ofNat ((b1 - 0xE0) * 4096 + (b2 - 0x80) * 64 + (b3 - 0x80))
          :: utf8DecodeAux f bs := by
  conv_lhs => rw [utf8DecodeAux.eq_def]
  dsimp only
  rw [if_neg (by omega), if_neg (by omega), if_pos (by omega)]
  rw [if_pos h5]
  rw [if_pos (by simp [utf8Cont]; omega)]

theorem decode_four (f b1 b2 b3 b4 : Nat) (bs : List Nat)
    (h1 : 0xF0 ≤ b1) (h2 : b1 ≤ 0xF4) (h5 : utf8Cont2Ok b1 b2 = true)
    (h3 : 0x80 ≤ b3) (h4 : b3 ≤ 0xBF) (h6 : 0x80 ≤ b4) (h7 : b4 ≤ 0xBF) :
    utf8DecodeAux (f + 1) (b1 :: b2 :: b3 :: b4 :: bs)
      = Char.ofNat ((b1 - 0xF0) * 262144 + (b2 - 0x80) * 4096 +
          (b3 - 0x80) * 64 + (b4 - 0x80)) :: utf8DecodeAux f bs := by
  conv_lhs => rw [utf8DecodeAux.eq_def]
  dsimp only
  rw [if_neg (by omega), if_neg (by omega), if_neg (by omega), if_pos (by omega)]
  rw [if_pos h5]
  rw [if_pos (by simp [utf8Cont]; omega)]
  rw [if_pos (by simp [utf8Cont]; omega)]

/-- Decoding undoes encoding, one character at a time. -/
theorem utf8DecodeAux_encodeChar (f : Nat) (c : Char) (bs : List Nat) :
    utf8DecodeAux (f + 1) (utf8EncodeChar c ++ bs) = c :: utf8DecodeAux f bs := by
  have hv := char_toNat_valid c
  have hofn : Char.ofNat c.toNat = c := Char.ofNat_toNat c
  unfold utf8EncodeChar
  dsimp only
  by_cases ha : c.toNat < 0x80
  · rw [if_pos ha]
    simp only [List.cons_append, List.nil_append]
    rw [decode_one f c.toNat bs (by omega), hofn]
  · by_cases hb : c.toNat < 0x800
    · rw [if_neg ha, if_pos hb]
      simp only [List.cons_append, List.nil_append]
      rw [decode_two f _ _ bs (by omega) (by omega) (by omega) (by omega)]
      rw [show (0xC0 + c.toNat / 64 - 0xC0) * 64 + (0x80 + c.toNat % 64 - 0x80)
          = c.toNat by omega, hofn]
    · by_cases hc : c.toNat < 0x10000
      · rw [if_neg ha, if_neg hb, if_pos hc]
        simp only [List.cons_append, List.nil_append]
        rw [decode_three f _ _ _ bs (by omega) (by omega) ?h5 (by omega) (by omega)]
        case h5 =>
          simp only [utf8Cont2Ok, utf8Cont]
          split_ifs <;> simp <;> omega
        rw [show (0xE0 + c.toNat / 4096 - 0xE0) * 4096 +
            (0x80 + c.toNat / 64 % 64 - 0x80) * 64 + (0x80 + c.toNat % 64 - 0x80)
            = c.toNat by omega, hofn]
      · rw [if_neg ha, if_neg hb, if_neg hc]
        simp only [List.cons_append, List.nil_append]
        rw [decode_four f _ _ _ _ bs (by omega) (by omega) ?h5 (by omega) (by omega)
          (by omega) (by omega)]
        case h5 =>
          simp only [utf8Cont2Ok, utf8Cont]
          split_ifs <;> simp <;> omega
        rw [show (0xF0 + c.toNat / 262144 - 0xF0) * 262144 +
            (0x80 + c.toNat / 4096 % 64 - 0x80) * 4096 +
            (0x80 + c.toNat / 64 % 64 - 0x80) * 64 + (0x80 + c.toNat % 64 - 0x80)
            = c.toNat by omega, hofn]

theorem utf8DecodeAux_encode (s : Str) :
    ∀ f, s.length ≤ f → utf8DecodeAux f (utf8Encode s) = s := by
  induction s with
  | nil =>
    intro f _
    cases f <;> rfl
  | cons c rest ih =>
    intro f hf
    obtain ⟨f', rfl⟩ : ∃ f', f = f' + 1 := ⟨f - 1, by simp at hf; omega⟩
    have : utf8Encode (c :: rest) = utf8EncodeChar c ++ utf8Encode rest := by
      simp [utf8Encode]
    rw [this, utf8DecodeAux_encodeChar f' c (utf8Encode rest),
      ih f' (by simp at hf; omega)]

theorem utf8EncodeChar_length_pos (c : Char) : 1 ≤ (utf8EncodeChar c).length := by
  unfold utf8EncodeChar
  dsimp only
  split_ifs <;> simp

theorem utf8Encode_length (s : Str) : s.length ≤ (utf8Encode s).length := by
  induction s with
  | nil => simp [utf8Encode]
  | cons c rest ih =>
    have : utf8Encode (c :: rest) = utf8EncodeChar c ++ utf8Encode rest := by
      simp [utf8Encode]
    rw [this]
    simp only [List.length_append, List.length_cons]
    have := utf8EncodeChar_length_pos c
    omega

/-- `bytes.decode` undoes `str.encode`. -/
theorem utf8Decode_encode (s : Str) : utf8DecodeReplace (utf8Encode s) = s :=
  utf8DecodeAux_encode s (utf8Encode s).length (utf8Encode_length s)

/-! ## Round-trip theory of percent-coding -/

theorem alwaysSafeByte_lt (b : Nat) (h : alwaysSafeByte b = true) : b < 0x80 := by
  simp [alwaysSafeByte] at h
  omega

theorem alwaysSafeByte_ne_percent (b : Nat) (h : alwaysSafeByte b = true) : b ≠ 37 := by
  simp [alwaysSafeByte] at h
  omega

theorem utf8EncodeChar_ascii (b : Nat) (h : b < 0x80) :
    utf8EncodeChar (Char.ofNat b) = [b] := by
  have hv : b.isValidChar := Or.inl (by omega)
  unfold utf8EncodeChar
  dsimp only
  rw [toNat_ofNat_valid b hv, if_pos h]

theorem hexUpper_vals (n : Nat) (h : n < 16) :
    isHexDigit (hexUpper n) = true ∧ hexVal (hexUpper n) = n ∧ hexUpper n ≠ '%' ∧
    (hexUpper n).toNat ≤ 0x7F ∧ hexUpper n ≠ '&' ∧ hexUpper n ≠ '=' ∧
    hexUpper n ≠ '+' ∧ hexUpper n ≠ '[' ∧ hexUpper n ≠ ']' ∧ hexUpper n ≠ ' ' ∧
    hexUpper n ≠ '\'' ∧ hexUpper n ≠ '"' ∧ hexUpper n ≠ '#' ∧ hexUpper n ≠ '?' := by
  interval_cases n <;> exact ⟨by decide, by decide, by decide, by decide, by decide,
    by decide, by decide, by decide, by decide, by decide, by decide, by decide,
    by decide, by decide⟩

theorem isHexDigit_ne_percent (c : Char) (h : isHexDigit c = true) : c ≠ '%' := by
  intro hc
  rw [hc] at h
  exact absurd h (by decide)

/-- Prefixing the accumulator of the splitter prefixes its first piece. -/
theorem pySplitAux_accum (sep : Str) :
    ∀ (s a b : Str), pySplitAux sep s 0 (a ++ b)
      = (a ++ (pySplitAux sep s 0 b).headI) :: (pySplitAux sep s 0 b).tail
  | [], a, b => by simp [pySplitAux]
  | c :: rest, a, b => by
    by_cases hm : sep.isPrefixOf (c :: rest) ∧ sep ≠ []
    · rw [pySplitAux, if_pos hm]
      conv_rhs => rw [pySplitAux, if_pos hm]
      simp
    · rw [pySplitAux, if_neg hm]
      conv_rhs => rw [pySplitAux, if_neg hm]
      rw [List.append_assoc]
      exact pySplitAux_accum sep rest a (b ++ [c])

theorem utf8Encode_nil : utf8Encode [] = [] := rfl

theorem utf8Encode_cons (c : Char) (s : Str) :
    utf8Encode (c :: s) = utf8EncodeChar c ++ utf8Encode s := by
  simp [utf8Encode]

/-- A non-`%` head passes through `unquote_to_bytes` as its UTF-8 bytes. -/
theorem unquoteToBytes_cons (c : Char) (s : Str) (hc : c ≠ '%') :
    unquoteToBytes (c :: s) = utf8EncodeChar c ++ unquoteToBytes s := by
  unfold unquoteToBytes
  unfold pySplitStr
  have hsplit := pySplitAux_accum ['%'] s [c] []
  simp only [List.append_nil, List.nil_append] at hsplit
  rw [pySplitAux, if_neg (by simp [List.isPrefixOf]; intro h; exact absurd h.symm hc)]
  rw [show ([] : Str) ++ [c] = [c] from rfl, hsplit]
  cases hps : pySplitAux ['%'] s 0 [] with
  | nil => exact absurd hps (pySplitAux_ne_nil _ _ _ _)
  | cons h t =>
    simp [utf8Encode_cons]

/-- A valid `%XX` head decodes to its byte. -/
theorem unquoteToBytes_pct (h1 h2 : Char) (s : Str)
    (hh1 : isHexDigit h1 = true) (hh2 : isHexDigit h2 = true) :
    unquoteToBytes ('%' :: h1 :: h2 :: s)
      = (hexVal h1 * 16 + hexVal h2) :: unquoteToBytes s := by
  unfold unquoteToBytes
  unfold pySplitStr
  rw [pySplitAux, if_pos (by simp [List.isPrefixOf])]
  simp only [List.length_singleton, Nat.sub_self]
  rw [pySplitAux, if_neg (by
      simp [List.isPrefixOf]
      intro h
      exact absurd h.symm (isHexDigit_ne_percent h1 hh1))]
  rw [pySplitAux, if_neg (by
      simp [List.isPrefixOf]
      intro h
      exact absurd h.symm (isHexDigit_ne_percent h2 hh2))]
  have hsplit := pySplitAux_accum ['%'] s [h1, h2] []
  simp only [List.append_nil, List.nil_append] at hsplit
  rw [show ([] : Str) ++ [h1] ++ [h2] = [h1, h2] from rfl, hsplit]
  cases hps : pySplitAux ['%'] s 0 [] with
  | nil => exact absurd hps (pySplitAux_ne_nil _ _ _ _)
  | cons h t =>
    simp [utf8Encode_cons, hh1, hh2, utf8Encode_nil]

/-- Percent-decoding undoes byte-wise quoting. -/
theorem unquoteToBytes_quoteBytes (extraSafe : List Nat)
    (hsafe : ∀ b ∈ extraSafe, b < 0x80 ∧ b ≠ 37) :
    ∀ bs : List Nat, (∀ b ∈ bs, b < 256) →
      unquoteToBytes (pyQuoteBytes extraSafe bs) = bs
  | [] => fun _ => rfl
  | b :: rest => by
    intro hbs
    have hrest := unquoteToBytes_quoteBytes extraSafe hsafe rest
      (fun x hx => hbs x (List.mem_cons_of_mem b hx))
    have hb : b < 256 := hbs b (List.mem_cons_self b rest)
    show unquoteToBytes (quoteByte extraSafe b ++ pyQuoteBytes extraSafe rest) = b :: rest
    by_cases hsb : alwaysSafeByte b = true ∨ b ∈ extraSafe
    · have hlt : b < 0x80 := by
        rcases hsb with h | h
        · exact alwaysSafeByte_lt b h
        · exact (hsafe b h).1
      have hnp : b ≠ 37 := by
        rcases hsb with h | h
        · exact alwaysSafeByte_ne_percent b h
        · exact (hsafe b h).2
      rw [quoteByte, if_pos hsb]
      simp only [List.singleton_append]
      rw [unquoteToBytes_cons _ _ (by
        intro hc
        have := congrArg Char.toNat hc
        rw [toNat_ofNat_valid b (Or.inl (by omega))] at this
        exact hnp this)]
      rw [utf8EncodeChar_ascii b hlt, hrest]
      rfl
    · rw [quoteByte, if_neg hsb]
      simp only [List.cons_append, List.nil_append]
      have hdiv : b / 16 < 16 := by omega
      have hmod : b % 16 < 16 := by omega
      rw [unquoteToBytes_pct _ _ _ (hexUpper_vals _ hdiv).1 (hexUpper_vals _ hmod).1]
      rw [(hexUpper_vals _ hdiv).2.1, (hexUpper_vals _ hmod).2.1, hrest]
      congr 1
      omega

/-- Every character of byte-wise quote output is a safe literal, `%`, or an
upper-case hex digit. -/
theorem mem_pyQuoteBytes (extraSafe : List Nat) (bs : List Nat)
    (hbs : ∀ b ∈ bs, b < 256) (c : Char)
    (hc : c ∈ pyQuoteBytes extraSafe bs) :
    (∃ b ∈ bs, (alwaysSafeByte b = true ∨ b ∈ extraSafe) ∧ c = Char.ofNat b) ∨
    c = '%' ∨ ∃ n, n < 16 ∧ c = hexUpper n := by
  unfold pyQuoteBytes at hc
  rw [List.mem_flatten] at hc
  obtain ⟨l, hl, hcl⟩ := hc
  rw [List.mem_map] at hl
  obtain ⟨b, hb, rfl⟩ := hl
  unfold quoteByte at hcl
  by_cases hsb : alwaysSafeByte b = true ∨ b ∈ extraSafe
  · rw [if_pos hsb] at hcl
    simp at hcl
    exact Or.inl ⟨b, hb, hsb, hcl⟩
  · rw [if_neg hsb] at hcl
    simp at hcl
    have hb256 : b < 256 := hbs b hb
    rcases hcl with rfl | rfl | rfl
    · exact Or.inr (Or.inl rfl)
    · exact Or.inr (Or.inr ⟨b / 16, by omega, rfl⟩)
    · exact Or.inr (Or.inr ⟨b % 16, by omega, rfl⟩)

/-- A character that is not a safe literal, not `%`, and not an upper-case
hex digit never appears in quote output. -/
theorem not_mem_pyQuoteBytes (extraSafe : List Nat)
    (hsafe : ∀ b ∈ extraSafe, b < 0x80) (x : Char)
    (hx1 : alwaysSafeByte x.toNat = false) (hx2 : x.toNat ∉ extraSafe)
    (hx3 : x ≠ '%') (hx4 : ∀ n, n < 16 → hexUpper n ≠ x)
    (bs : List Nat) (hbs : ∀ b ∈ bs, b < 256) : x ∉ pyQuoteBytes extraSafe bs := by
  intro hmem
  rcases mem_pyQuoteBytes extraSafe bs hbs x hmem with ⟨b, _, hsb, rfl⟩ | h | ⟨n, hn, hx⟩
  · have hlt : b < 0x80 := by
      rcases hsb with h | h
      · exact alwaysSafeByte_lt b h
      · exact hsafe b h
    rw [toNat_ofNat_valid b (Or.inl (by omega))] at hx1 hx2
    rcases hsb with h | h
    · rw [h] at hx1; exact absurd hx1 (by simp)
    · exact hx2 h
  · exact hx3 h
  · exact hx4 n hn hx.symm

/-- Single-character replacement is a character map. -/
theorem pyReplaceAux_single (a b : Char) :
    ∀ s : Str, pyReplaceAux [a] [b] s 0 = s.map fun c => if c = a then b else c
  | [] => rfl
  | c :: rest => by
    rw [pyReplaceAux]
    by_cases h : c = a
    · rw [if_pos (by simp [List.isPrefixOf, h])]
      simp [h, pyReplaceAux_single a b rest]
    · rw [if_neg (by simp [List.isPrefixOf]; intro hh; exact absurd hh.symm h)]
      simp [h, pyReplaceAux_single a b rest]

theorem pyReplace_single (s : Str) (a b : Char) :
    pyReplace s [a] [b] = s.map fun c => if c = a then b else c := by
  rw [pyReplace, if_neg (by simp)]
  exact pyReplaceAux_single a b s

/-- Replacing `a` by `b` then `b` by `a` is the identity when `b` does not
occur. -/
theorem pyReplace_single_inverse (s : Str) (a b : Char) (hb : b ∉ s) :
    pyReplace (pyReplace s [a] [b]) [b] [a] = s := by
  rw [pyReplace_single, pyReplace_single, List.map_map]
  conv_rhs => rw [show s = s.map id from (List.map_id s).symm]
  apply List.map_congr_left
  intro c hc
  by_cases h : c = a
  · simp [h]
  · have : c ≠ b := fun hcb => hb (hcb ▸ hc)
    simp [h, this]

/-- On all-ASCII input the unquote scanner is one run. -/
theorem pyUnquoteAux_ascii :
    ∀ (s : Str), (∀ c ∈ s, c.toNat ≤ 0x7F) →
      ∀ acc, pyUnquoteAux acc s = decodeAsciiRun (acc ++ s)
  | [], _, acc => by simp [pyUnquoteAux]
  | c :: rest, h, acc => by
    rw [pyUnquoteAux, if_pos (h c (List.mem_cons_self c rest))]
    rw [pyUnquoteAux_ascii rest (fun x hx => h x (List.mem_cons_of_mem c hx)) (acc ++ [c])]
    simp

theorem pyQuoteBytes_ascii (extraSafe : List Nat) (hsafe : ∀ b ∈ extraSafe, b < 0x80)
    (bs : List Nat) (hbs : ∀ b ∈ bs, b < 256) :
    ∀ c ∈ pyQuoteBytes extraSafe bs, c.toNat ≤ 0x7F := by
  intro c hc
  rcases mem_pyQuoteBytes extraSafe bs hbs c hc with ⟨b, _, hsb, rfl⟩ | rfl | ⟨n, hn, rfl⟩
  · have hlt : b < 0x80 := by
      rcases hsb with h | h
      · exact alwaysSafeByte_lt b h
      · exact hsafe b h
    rw [toNat_ofNat_valid b (Or.inl (by omega))]
    omega
  · decide
  · exact (hexUpper_vals n hn).2.2.2.1

/-- Bytes of a UTF-8 encoding are bytes. -/
theorem utf8Encode_lt (s : Str) : ∀ b ∈ utf8Encode s, b < 256 := by
  intro b hb
  unfold utf8Encode at hb
  rw [List.mem_flatten] at hb
  obtain ⟨l, hl, hbl⟩ := hb
  rw [List.mem_map] at hl
  obtain ⟨c, _, rfl⟩ := hl
  revert hbl
  unfold utf8EncodeChar
  dsimp only
  have := char_toNat_valid c
  split_ifs <;> intro hbl <;> simp at hbl <;> omega

theorem singleton_infix_iff (x : Char) (l : Str) : List.IsInfix [x] l ↔ x ∈ l := by
  constructor
  · rintro ⟨pre, suf, rfl⟩
    simp
  · intro h
    obtain ⟨a, b, rfl⟩ := List.append_of_mem h
    exact ⟨a, b, by simp⟩

/-- `unquote(quote(s))` is `s` for the byte-safe sets in play. -/
theorem pyUnquote_pyQuote (extraSafe : List Nat)
    (hsafe : ∀ b ∈ extraSafe, b < 0x80 ∧ b ≠ 37) (s : Str) :
    pyUnquote (pyQuote extraSafe s) = s := by
  have hbytes : ∀ b ∈ utf8Encode s, b < 256 := utf8Encode_lt s
  have hascii := pyQuoteBytes_ascii extraSafe (fun b hb => (hsafe b hb).1)
    (utf8Encode s) hbytes
  have hinv : unquoteToBytes (pyQuote extraSafe s) = utf8Encode s :=
    unquoteToBytes_quoteBytes extraSafe hsafe (utf8Encode s) hbytes
  unfold pyUnquote
  split
  · rw [pyUnquoteAux_ascii (pyQuote extraSafe s) hascii []]
    unfold decodeAsciiRun
    rw [show ([] : Str) ++ pyQuote extraSafe s = pyQuote extraSafe s from rfl,
      hinv, utf8Decode_encode]
  · rename_i hnp
    have hno : ¬ List.IsInfix ['%'] (([] : Str) ++ pyQuote extraSafe s) := by
      rw [List.nil_append, singleton_infix_iff]
      exact hnp
    have h1 : unquoteToBytes (pyQuote extraSafe s) = utf8Encode (pyQuote extraSafe s) := by
      unfold unquoteToBytes
      rw [show pySplitStr (pyQuote extraSafe s) ['%'] = [pyQuote extraSafe s] by
        unfold pySplitStr
        have := pySplitAux_of_not_infix ['%'] (by simp) (pyQuote extraSafe s) [] hno
        simpa using this]
      simp
    calc pyQuote extraSafe s
        = utf8DecodeReplace (utf8Encode (pyQuote extraSafe s)) := (utf8Decode_encode _).symm
      _ = utf8DecodeReplace (unquoteToBytes (pyQuote extraSafe s)) := by rw [h1]
      _ = utf8DecodeReplace (utf8Encode s) := by rw [hinv]
      _ = s := utf8Decode_encode s

theorem pyReplace_single_id (s : Str) (a r : Char) (ha : a ∉ s) :
    pyReplace s [a] [r] = s := by
  refine pyReplace_of_not_infix s [a] [r] (by simp) ?_
  rw [singleton_infix_iff]
  exact ha

/-- `unquote(s.replace('+', ' '))` undoes `quote_plus`: the decoding
`parse_qsl` applies to every name and value. -/
theorem unquotePlus_quotePlus (s : Str) :
    pyUnquote (pyReplace (quotePlus s) ['+'] [' ']) = s := by
  unfold quotePlus
  split
  · have hplus : '+' ∉ pyQuote [32] s := by
      unfold pyQuote
      exact not_mem_pyQuoteBytes [32] (by decide) '+' (by decide) (by decide) (by decide)
        (fun n hn => (hexUpper_vals n hn).2.2.2.2.2.2.1) (utf8Encode s) (utf8Encode_lt s)
    rw [pyReplace_single_inverse _ _ _ hplus]
    exact pyUnquote_pyQuote [32] (by decide) s
  · have hplus : '+' ∉ pyQuote [] s := by
      unfold pyQuote
      exact not_mem_pyQuoteBytes [] (by decide) '+' (by decide) (by decide) (by decide)
        (fun n hn => (hexUpper_vals n hn).2.2.2.2.2.2.1) (utf8Encode s) (utf8Encode_lt s)
    rw [pyReplace_single_id _ _ _ hplus]
    exact pyUnquote_pyQuote [] (by decide) s

/-- `quote_plus` is injective (it has a left inverse). -/
theorem quotePlus_injective (a b : Str) (hab : quotePlus a = quotePlus b) : a = b := by
  have ha := unquotePlus_quotePlus a
  have hb := unquotePlus_quotePlus b
  rw [← ha, ← hb, hab]

/-- The characters `&`, `=`, and friends never survive `quote_plus`. -/
theorem not_mem_quotePlus (x : Char) (s : Str)
    (hx1 : alwaysSafeByte x.toNat = false)
    (hx4 : ∀ n, n < 16 → hexUpper n ≠ x)
    (hx3 : x ≠ '%') (hxp : x ≠ '+') (hxsp : x ≠ ' ') : x ∉ quotePlus s := by
  unfold quotePlus
  split
  · rw [pyReplace_single]
    intro hmem
    rw [List.mem_map] at hmem
    obtain ⟨c, hc, hfc⟩ := hmem
    by_cases hcsp : c = ' '
    · rw [if_pos hcsp] at hfc
      exact hxp hfc.symm
    · rw [if_neg hcsp] at hfc
      subst hfc
      revert hc
      unfold pyQuote
      exact not_mem_pyQuoteBytes [32] (by decide) c hx1
        (by
          intro hc2
          rw [show (32 : Nat) = Char.toNat ' ' from rfl] at hc2
          simp at hc2
          exact hxsp (by
            have := congrArg Char.ofNat hc2
            rw [Char.ofNat_toNat] at this
            exact this.trans (by decide)))
        hx3 hx4 (utf8Encode s) (utf8Encode_lt s)
  · unfold pyQuote
    exact not_mem_pyQuoteBytes [] (by decide) x hx1 (by simp) hx3 hx4
      (utf8Encode s) (utf8Encode_lt s)

/-- Scanning a separator-free piece followed by the separator emits the
piece. -/
theorem pySplitAux_piece (sepc : Char) :
    ∀ (e r cur : Str), sepc ∉ e →
      pySplitAux [sepc] (e ++ sepc :: r) 0 cur = (cur ++ e) :: pySplitAux [sepc] r 0 []
  | [], r, cur, _ => by
    rw [List.nil_append, pySplitAux, if_pos (by simp [List.isPrefixOf])]
    simp
  | c :: e', r, cur, he => by
    have hc : c ≠ sepc := fun h => he (h ▸ List.mem_cons_self c e')
    rw [List.cons_append, pySplitAux,
      if_neg (by simp [List.isPrefixOf]; intro h; exact absurd h.symm hc)]
    rw [pySplitAux_piece sepc e' r (cur ++ [c]) (fun h => he (List.mem_cons_of_mem c h))]
    simp

/-- Splitting a `sep`-join recovers the pieces when none contains the
separator. -/
theorem pySplit_joinWith (sepc : Char) :
    ∀ (entries : List Str), entries ≠ [] → (∀ e ∈ entries, sepc ∉ e) →
      pySplitStr (joinWith [sepc] entries) [sepc] = entries
  | [], h, _ => absurd rfl h
  | [e], _, hs => by
    unfold pySplitStr
    have := pySplitAux_of_not_infix [sepc] (by simp) e []
      (by
        rw [List.nil_append, singleton_infix_iff]
        exact hs e (List.mem_cons_self e []))
    simpa [joinWith] using this
  | e :: e2 :: rest, _, hs => by
    rw [joinWith_cons _ _ _ (by simp)]
    unfold pySplitStr
    rw [List.append_assoc, List.singleton_append,
      pySplitAux_piece sepc e _ [] (hs e (List.mem_cons_self e _))]
    rw [List.nil_append]
    congr 1
    exact pySplit_joinWith sepc (e2 :: rest) (by simp)
      (fun x hx => hs x (List.mem_cons_of_mem e hx))

/-- Splitting once on `=` cuts exactly at the first `=`. -/
theorem pySplitOnceAux_eq (a b cur : Str) (ha : '=' ∉ a) :
    pySplitOnceAux ['='] (a ++ '=' :: b) cur = (cur ++ a, some b) := by
  induction a generalizing cur with
  | nil =>
    rw [List.nil_append, pySplitOnceAux, if_pos (by simp [List.isPrefixOf])]
    simp
  | cons c a' ih =>
    have hc : c ≠ '=' := fun h => ha (h ▸ List.mem_cons_self c a')
    rw [List.cons_append, pySplitOnceAux,
      if_neg (by simp [List.isPrefixOf]; intro h; exact absurd h.symm hc)]
    rw [ih (cur ++ [c]) (fun h => ha (List.mem_cons_of_mem c h))]
    simp

/-! ## `parse_qs` recovers what `urlencode` wrote -/

theorem not_mem_quotePlus_eq (s : Str) : '=' ∉ quotePlus s :=
  not_mem_quotePlus '=' s (by decide) (fun n hn => (hexUpper_vals n hn).2.2.2.2.2.1)
    (by decide) (by decide) (by decide)

theorem not_mem_quotePlus_amp (s : Str) : '&' ∉ quotePlus s :=
  not_mem_quotePlus '&' s (by decide) (fun n hn => (hexUpper_vals n hn).2.2.2.2.1)
    (by decide) (by decide) (by decide)

/-- One encoded `k=v` entry decodes back to its pair. -/
theorem qslPair_encoded (k v : Str) :
    qslPair (quotePlus k ++ '=' :: quotePlus v) = some (k, v) := by
  unfold qslPair
  rw [if_neg (by simp)]
  unfold pySplitOnce
  rw [pySplitOnceAux_eq _ _ [] (not_mem_quotePlus_eq k)]
  simp only [List.nil_append, Option.getD_some]
  rw [unquotePlus_quotePlus, unquotePlus_quotePlus]

theorem encodedEntries_cons (k : Str) (vs : List Str) (D : List (Str × List Str)) :
    encodedEntries ((k, vs) :: D)
      = vs.map (fun v => quotePlus k ++ '=' :: quotePlus v) ++ encodedEntries D := by
  simp [encodedEntries]

theorem mem_encodedEntries (D : List (Str × List Str)) (e : Str)
    (he : e ∈ encodedEntries D) :
    ∃ k v, e = quotePlus k ++ '=' :: quotePlus v := by
  unfold encodedEntries at he
  rw [List.mem_flatten] at he
  obtain ⟨l, hl, hel⟩ := he
  rw [List.mem_map] at hl
  obtain ⟨kv, _, rfl⟩ := hl
  rw [List.mem_map] at hel
  obtain ⟨v, _, rfl⟩ := hel
  exact ⟨kv.1, v, rfl⟩

theorem encodedEntries_ne_nil (D : List (Str × List Str)) (e : Str)
    (he : e ∈ encodedEntries D) : e ≠ [] := by
  obtain ⟨k, v, rfl⟩ := mem_encodedEntries D e he
  simp

theorem encodedEntries_no_amp (D : List (Str × List Str)) (e : Str)
    (he : e ∈ encodedEntries D) : '&' ∉ e := by
  obtain ⟨k, v, rfl⟩ := mem_encodedEntries D e he
  intro hmem
  rcases List.mem_append.1 hmem with h | h
  · exact not_mem_quotePlus_amp k h
  · rcases List.mem_cons.1 h with h | h
    · exact absurd h (by decide)
    · exact not_mem_quotePlus_amp v h

/-- Decoding every encoded entry yields the flat pair list. -/
theorem filterMap_qslPair_encoded :
    ∀ D : List (Str × List Str),
      (encodedEntries D).filterMap qslPair
        = (D.map fun kv => kv.2.map fun v => (kv.1, v)).flatten
  | [] => rfl
  | kv :: D' => by
    rw [encodedEntries_cons kv.1 kv.2, List.filterMap_append,
      filterMap_qslPair_encoded D']
    simp only [List.map_cons, List.flatten_cons]
    congr 1
    rw [List.filterMap_map]
    have : (qslPair ∘ fun v => quotePlus kv.1 ++ '=' :: quotePlus v)
        = fun v => some (kv.1, v) := by
      funext v
      exact qslPair_encoded kv.1 v
    rw [this]
    exact List.filterMap_eq_map_iff_forall_eq_some.2 (fun v _ => rfl) |>.symm ▸ rfl

/-- `parse_qsl` of an `urlencode` output is the flat pair list. -/
theorem parse_qsl_urlencode (D : List (Str × List Str)) :
    parse_qsl (urlencodeDoseq D)
      = (D.map fun kv => kv.2.map fun v => (kv.1, v)).flatten := by
  by_cases hD : encodedEntries D = []
  · unfold urlencodeDoseq
    rw [hD]
    simp only [joinWith]
    unfold parse_qsl
    rw [if_pos rfl]
    have h := filterMap_qslPair_encoded D
    rw [hD] at h
    simpa using h
  · unfold parse_qsl
    rw [if_neg (by
      unfold urlencodeDoseq
      cases he : encodedEntries D with
      | nil => exact absurd he hD
      | cons e es =>
        have hene := encodedEntries_ne_nil D e (by rw [he]; exact List.mem_cons_self e es)
        cases es with
        | nil => simpa [joinWith] using hene
        | cons e2 es2 => simp [joinWith]
          )]
    unfold urlencodeDoseq
    rw [pySplit_joinWith '&' (encodedEntries D) hD (encodedEntries_no_amp D)]
    exact filterMap_qslPair_encoded D

/-- Appending under a fresh key puts the key at the end of the dict. -/
theorem dictAppend_fresh (k v : Str) :
    ∀ acc : List (Str × List Str), k ∉ acc.map Prod.fst →
      dictAppend acc k v = acc ++ [(k, [v])]
  | [], _ => rfl
  | (k2, vs2) :: acc2, h => by
    simp only [List.map_cons, List.mem_cons, not_or] at h
    have hk : ¬ k2 = k := fun he => h.1 he.symm
    simp only [dictAppend, if_neg hk, List.cons_append,
      List.cons.injEq, true_and]
    exact dictAppend_fresh k v acc2 h.2

/-- Appending under the key already sitting at the end of the dict extends
that key's value list in place. -/
theorem dictAppend_last (k v : Str) (ws : List Str) :
    ∀ acc : List (Str × List Str), k ∉ acc.map Prod.fst →
      dictAppend (acc ++ [(k, ws)]) k v = acc ++ [(k, ws ++ [v])]
  | [], _ => by simp [dictAppend]
  | (k2, vs2) :: acc2, h => by
    simp only [List.map_cons, List.mem_cons, not_or] at h
    have hk : ¬ k2 = k := fun he => h.1 he.symm
    simp only [List.cons_append, dictAppend, if_neg hk,
      List.cons.injEq, true_and]
    exact dictAppend_last k v ws acc2 h.2

/-- Folding `dictAppend` over many pairs with one fresh key accumulates all
their values under that key at the end of the dict. -/
theorem foldl_dictAppend_snoc :
    ∀ (vs : List Str) (k : Str) (ws : List Str) (acc : List (Str × List Str)),
      k ∉ acc.map Prod.fst →
      (vs.map fun v => (k, v)).foldl (fun d p => dictAppend d p.1 p.2)
          (acc ++ [(k, ws)])
        = acc ++ [(k, ws ++ vs)]
  | [], k, ws, acc, _ => by simp
  | v :: vs, k, ws, acc, h => by
    simp only [List.map_cons, List.foldl_cons]
    rw [dictAppend_last k v ws acc h,
      foldl_dictAppend_snoc vs k (ws ++ [v]) acc h]
    simp

/-- Folding `dictAppend` over the flat pair list of a dict with distinct keys
and nonempty value lists rebuilds the dict (after any key-disjoint prefix). -/
theorem foldl_dictAppend_flatten :
    ∀ (D acc : List (Str × List Str)),
      (D.map Prod.fst).Nodup →
      (∀ kv ∈ D, kv.2 ≠ []) →
      (∀ kv ∈ D, kv.1 ∉ acc.map Prod.fst) →
      ((D.map fun kv => kv.2.map fun v => (kv.1, v)).flatten).foldl
          (fun d p => dictAppend d p.1 p.2) acc
        = acc ++ D
  | [], acc, _, _, _ => by simp
  | kv :: D2, acc, hnd, hne, hfr => by
    simp only [List.map_cons, List.flatten_cons, List.foldl_append]
    have hkv2 : kv.2 ≠ [] := hne kv (List.mem_cons_self kv D2)
    obtain ⟨v, vs, hv⟩ := List.exists_cons_of_ne_nil hkv2
    have hkfr : kv.1 ∉ acc.map Prod.fst := hfr kv (List.mem_cons_self kv D2)
    have hstep : (kv.2.map fun w => (kv.1, w)).foldl
        (fun d p => dictAppend d p.1 p.2) acc = acc ++ [(kv.1, kv.2)] := by
      rw [hv]
      simp only [List.map_cons, List.foldl_cons]
      rw [dictAppend_fresh kv.1 v acc hkfr,
        foldl_dictAppend_snoc vs kv.1 [v] acc hkfr]
      rfl
    rw [hstep]
    rw [List.map_cons] at hnd
    have hk1 : kv.1 ∉ D2.map Prod.fst := (List.nodup_cons.1 hnd).1
    have hnd2 := (List.nodup_cons.1 hnd).2
    rw [foldl_dictAppend_flatten D2 (acc ++ [(kv.1, kv.2)]) hnd2
      (fun p hp => hne p (List.mem_cons_of_mem kv hp))
      (fun p hp => by
        simp only [List.map_append, List.mem_append, List.map_cons,
          List.map_nil, List.mem_singleton, not_or]
        refine ⟨hfr p (List.mem_cons_of_mem kv hp), fun he => ?_⟩
        exact hk1 (he ▸ List.mem_map_of_mem Prod.fst hp))]
    simp

/-- `parse_qs` recovers the dict that `urlencode(..., doseq=True)` serialised,
when the dict's keys are distinct and every value list is nonempty. -/
theorem parse_qs_urlencode (D : List (Str × List Str))
    (hnd : (D.map Prod.fst).Nodup) (hne : ∀ kv ∈ D, kv.2 ≠ []) :
    parse_qs (urlencodeDoseq D) = D := by
  unfold parse_qs
  rw [parse_qsl_urlencode]
  simpa using foldl_dictAppend_flatten D [] hnd hne (by simp)

/-! ## Dict-update lemmas for the query-merging loops -/

theorem assocLookup_cons (k2 : Str) (vs2 : List Str) (d : List (Str × List Str))
    (k : Str) :
    assocLookup ((k2, vs2) :: d) k = if k2 = k then some vs2 else assocLookup d k := by
  unfold assocLookup
  by_cases h : k2 = k
  · rw [List.find?_cons_of_pos _ (by simpa using h), if_pos h]
    rfl
  · rw [List.find?_cons_of_neg _ (by simpa using h), if_neg h]

theorem dictSet_lookup_self (k : Str) (v : List Str) :
    ∀ d : List (Str × List Str), assocLookup (dictSet d k v) k = some v
  | [] => by simp [dictSet, assocLookup_cons]
  | (k2, vs2) :: d2 => by
    by_cases h : k2 = k
    · simp [dictSet, h, assocLookup_cons]
    · simp only [dictSet, if_neg h, assocLookup_cons]
      exact dictSet_lookup_self k v d2

theorem dictSet_lookup_other (k k2 : Str) (hne : k2 ≠ k) (v : List Str) :
    ∀ d : List (Str × List Str), assocLookup (dictSet d k v) k2 = assocLookup d k2
  | [] => by
    simp only [dictSet, assocLookup_cons]
    rw [if_neg (fun h => hne h.symm)]
  | (k3, vs3) :: d2 => by
    by_cases h : k3 = k
    · simp only [dictSet, if_pos h, assocLookup_cons]
      rw [if_neg (fun h2 => hne (h2.symm.trans h)),
        if_neg (fun h2 => hne (h2.symm.trans h))]
    · simp only [dictSet, if_neg h, assocLookup_cons]
      by_cases h2 : k3 = k2
      · rw [if_pos h2, if_pos h2]
      · rw [if_neg h2, if_neg h2]
        exact dictSet_lookup_other k k2 hne v d2

theorem dictSet_keys (k : Str) (v : List Str) :
    ∀ d : List (Str × List Str),
      (dictSet d k v).map Prod.fst
        = if k ∈ d.map Prod.fst then d.map Prod.fst else d.map Prod.fst ++ [k]
  | [] => by simp [dictSet]
  | (k2, vs2) :: d2 => by
    by_cases h : k2 = k
    · simp [dictSet, h]
    · simp only [dictSet, if_neg h, List.map_cons]
      rw [dictSet_keys k v d2]
      by_cases h2 : k ∈ d2.map Prod.fst
      · rw [if_pos h2, if_pos (List.mem_cons_of_mem _ h2)]
      · rw [if_neg h2, if_neg (by
          rw [List.mem_cons, not_or]
          exact ⟨fun he => h he.symm, h2⟩)]
        simp

theorem nodup_keys_dictSet (k : Str) (v : List Str) (d : List (Str × List Str))
    (h : (d.map Prod.fst).Nodup) : ((dictSet d k v).map Prod.fst).Nodup := by
  rw [dictSet_keys]
  by_cases h2 : k ∈ d.map Prod.fst
  · rw [if_pos h2]
    exact h
  · rw [if_neg h2]
    refine List.nodup_append.2 ⟨h, List.nodup_singleton k, fun x hx hmem => ?_⟩
    rw [List.mem_singleton] at hmem
    exact h2 (hmem ▸ hx)

theorem dictSet_values (k : Str) (v : List Str) (hv : v ≠ []) :
    ∀ d : List (Str × List Str), (∀ kv ∈ d, kv.2 ≠ []) →
      ∀ kv ∈ dictSet d k v, kv.2 ≠ []
  | [], _, kv, hkv => by
    rw [dictSet, List.mem_singleton] at hkv
    rw [hkv]
    exact hv
  | (k2, vs2) :: d2, hd, kv, hkv => by
    by_cases h : k2 = k
    · rw [dictSet, if_pos h, List.mem_cons] at hkv
      rcases hkv with rfl | hkv
      · exact hv
      · exact hd kv (List.mem_cons_of_mem _ hkv)
    · rw [dictSet, if_neg h, List.mem_cons] at hkv
      rcases hkv with rfl | hkv
      · exact hd (k2, vs2) (List.mem_cons_self _ _)
      · exact dictSet_values k v hv d2
          (fun p hp => hd p (List.mem_cons_of_mem _ hp)) kv hkv

theorem dictAppend_keys (k : Str) (v : Str) :
    ∀ d : List (Str × List Str),
      (dictAppend d k v).map Prod.fst
        = if k ∈ d.map Prod.fst then d.map Prod.fst else d.map Prod.fst ++ [k]
  | [] => by simp [dictAppend]
  | (k2, vs2) :: d2 => by
    by_cases h : k2 = k
    · simp [dictAppend, h]
    · simp only [dictAppend, if_neg h, List.map_cons]
      rw [dictAppend_keys k v d2]
      by_cases h2 : k ∈ d2.map Prod.fst
      · rw [if_pos h2, if_pos (List.mem_cons_of_mem _ h2)]
      · rw [if_neg h2, if_neg (by
          rw [List.mem_cons, not_or]
          exact ⟨fun he => h he.symm, h2⟩)]
        simp

theorem nodup_keys_dictAppend (k : Str) (v : Str) (d : List (Str × List Str))
    (h : (d.map Prod.fst).Nodup) : ((dictAppend d k v).map Prod.fst).Nodup := by
  rw [dictAppend_keys]
  by_cases h2 : k ∈ d.map Prod.fst
  · rw [if_pos h2]
    exact h
  · rw [if_neg h2]
    refine List.nodup_append.2 ⟨h, List.nodup_singleton k, fun x hx hmem => ?_⟩
    rw [List.mem_singleton] at hmem
    exact h2 (hmem ▸ hx)

theorem dictAppend_values (k : Str) (v : Str) :
    ∀ d : List (Str × List Str), (∀ kv ∈ d, kv.2 ≠ []) →
      ∀ kv ∈ dictAppend d k v, kv.2 ≠ []
  | [], _, kv, hkv => by
    rw [dictAppend, List.mem_singleton] at hkv
    rw [hkv]
    simp
  | (k2, vs2) :: d2, hd, kv, hkv => by
    by_cases h : k2 = k
    · rw [dictAppend, if_pos h, List.mem_cons] at hkv
      rcases hkv with rfl | hkv
      · simp
      · exact hd kv (List.mem_cons_of_mem _ hkv)
    · rw [dictAppend, if_neg h, List.mem_cons] at hkv
      rcases hkv with rfl | hkv
      · exact hd (k2, vs2) (List.mem_cons_self _ _)
      · exact dictAppend_values k v d2
          (fun p hp => hd p (List.mem_cons_of_mem _ hp)) kv hkv

theorem foldl_dictAppend_keys_nodup :
    ∀ (L : List (Str × Str)) (d : List (Str × List Str)),
      (d.map Prod.fst).Nodup →
      (((L.foldl (fun d kv => dictAppend d kv.1 kv.2) d)).map Prod.fst).Nodup
  | [], _, h => h
  | kv :: L2, d, h =>
    foldl_dictAppend_keys_nodup L2 (dictAppend d kv.1 kv.2)
      (nodup_keys_dictAppend kv.1 kv.2 d h)

theorem foldl_dictAppend_values :
    ∀ (L : List (Str × Str)) (d : List (Str × List Str)),
      (∀ kv ∈ d, kv.2 ≠ []) →
      ∀ kv ∈ L.foldl (fun d kv => dictAppend d kv.1 kv.2) d, kv.2 ≠ []
  | [], _, h => h
  | kv :: L2, d, h =>
    foldl_dictAppend_values L2 (dictAppend d kv.1 kv.2)
      (dictAppend_values kv.1 kv.2 d h)

/-- The keys of a `parse_qs` result are distinct. -/
theorem parse_qs_keys_nodup (qs : Str) : ((parse_qs qs).map Prod.fst).Nodup :=
  foldl_dictAppend_keys_nodup (parse_qsl qs) [] (by simp)

/-- Every value list of a `parse_qs` result is nonempty. -/
theorem parse_qs_values_ne_nil (qs : Str) : ∀ kv ∈ parse_qs qs, kv.2 ≠ [] :=
  foldl_dictAppend_values (parse_qsl qs) [] (by simp)

theorem foldl_dictSet_keys_nodup (g : Str → Str) :
    ∀ (params : List KeyValuePair) (d : List (Str × List Str)),
      (d.map Prod.fst).Nodup →
      ((params.foldl
          (fun d p => if p.enabled ∧ p.key ≠ [] then dictSet d p.key [g p.value] else d)
          d).map Prod.fst).Nodup
  | [], _, h => h
  | p :: ps, d, h => by
    rw [List.foldl_cons]
    by_cases hc : p.enabled = true ∧ p.key ≠ []
    · rw [if_pos hc]
      exact foldl_dictSet_keys_nodup g ps _ (nodup_keys_dictSet p.key [g p.value] d h)
    · rw [if_neg hc]
      exact foldl_dictSet_keys_nodup g ps d h

theorem foldl_dictSet_values (g : Str → Str) :
    ∀ (params : List KeyValuePair) (d : List (Str × List Str)),
      (∀ kv ∈ d, kv.2 ≠ []) →
      ∀ kv ∈ params.foldl
          (fun d p => if p.enabled ∧ p.key ≠ [] then dictSet d p.key [g p.value] else d)
          d, kv.2 ≠ []
  | [], _, h => h
  | p :: ps, d, h => by
    rw [List.foldl_cons]
    by_cases hc : p.enabled = true ∧ p.key ≠ []
    · rw [if_pos hc]
      exact foldl_dictSet_values g ps _
        (dictSet_values p.key [g p.value] (by simp) d h)
    · rw [if_neg hc]
      exact foldl_dictSet_values g ps d h

/-- Unfolding equation of `lastEnabledParamValue` on a cons. -/
theorem lastEnabledParamValue_cons (p : KeyValuePair) (rest : List KeyValuePair)
    (k : Str) :
    lastEnabledParamValue (p :: rest) k
      = match lastEnabledParamValue rest k with
        | some v => some v
        | none => if p.enabled ∧ p.key = k then some p.value else none := rfl

/-- When no enabled parameter carries key `k`, the overwrite loop leaves the
dict's entry for `k` unchanged. -/
theorem foldl_dictSet_lookup_none (g : Str → Str) :
    ∀ (params : List KeyValuePair) (d : List (Str × List Str)) (k : Str),
      lastEnabledParamValue params k = none →
      assocLookup (params.foldl
          (fun d p => if p.enabled ∧ p.key ≠ [] then dictSet d p.key [g p.value] else d)
          d) k
        = assocLookup d k
  | [], _, _, _ => rfl
  | p :: ps, d, k, h => by
    rw [lastEnabledParamValue_cons] at h
    cases hrest : lastEnabledParamValue ps k with
    | some v =>
      rw [hrest] at h
      exact absurd h (by simp)
    | none =>
      rw [hrest] at h
      have hc : ¬(p.enabled = true ∧ p.key = k) := by
        intro hc
        rw [if_pos hc] at h
        exact absurd h (by simp)
      rw [List.foldl_cons]
      by_cases hstep : p.enabled = true ∧ p.key ≠ []
      · rw [if_pos hstep]
        rw [foldl_dictSet_lookup_none g ps _ k hrest]
        exact dictSet_lookup_other p.key k (fun he => hc ⟨hstep.1, he.symm⟩) [g p.value] d
      · rw [if_neg hstep]
        exact foldl_dictSet_lookup_none g ps d k hrest

/-- The overwrite loop stores, under each enabled key, exactly the processed
value of the last enabled parameter with that key. -/
theorem foldl_dictSet_lookup_some (g : Str → Str) :
    ∀ (params : List KeyValuePair) (d : List (Str × List Str)) (k v : Str),
      k ≠ [] → lastEnabledParamValue params k = some v →
      assocLookup (params.foldl
          (fun d p => if p.enabled ∧ p.key ≠ [] then dictSet d p.key [g p.value] else d)
          d) k
        = some [g v]
  | [], _, _, _, _, h => absurd h (by simp [lastEnabledParamValue])
  | p :: ps, d, k, v, hk, h => by
    rw [lastEnabledParamValue_cons] at h
    cases hrest : lastEnabledParamValue ps k with
    | some v2 =>
      rw [hrest] at h
      have hv : v2 = v := by simpa using h
      rw [List.foldl_cons]
      exact foldl_dictSet_lookup_some g ps _ k v hk (hv ▸ hrest)
    | none =>
      rw [hrest] at h
      by_cases hc : p.enabled = true ∧ p.key = k
      · rw [if_pos hc] at h
        have hv : p.value = v := by simpa using h
        rw [List.foldl_cons, if_pos ⟨hc.1, fun he => hk (hc.2.symm.trans he)⟩]
        rw [foldl_dictSet_lookup_none g ps _ k hrest, hc.2, hv,
          dictSet_lookup_self k [g v] d]
      · rw [if_neg hc] at h
        exact absurd h (by simp)

/-- C6 counterexample: `build_url` is not defined for every request and
environment — a URL whose authority opens a bracket without closing it makes
`urlparse` raise `ValueError`, so no merged query string is ever produced. -/
theorem C6_build_url_can_fail_counterexample :
    build_url { url := str "http://[" } [] = .error () := by decide

/-- C6 (amended: `urlparse` must succeed on the substituted, stripped,
unquoted URL; `build_url` propagates its `ValueError` otherwise): `build_url`
substitutes variables into the URL, strips it, removes one layer of
surrounding quotes, and rebuilds the URL around the merged query dict; the
merged dict has no duplicate keys, re-parsing the re-serialised query string
recovers it exactly (so the query string carries exactly one entry per key),
and each key with an enabled parameter maps to exactly the one substituted
value of the last enabled parameter with that key, overwriting any value the
URL's own query string had. -/
theorem C6_merged_query_overwrites (request : RequestModel)
    (env_vars : List (Str × Str)) (parsed : UrlParts)
    (hok : pyUrlparse (stripSurroundingQuotes (pyStrip
      (substitute_variables request.url env_vars))) = .ok parsed) :
    build_url request env_vars
        = .ok (pyUrlunparse { parsed with
            query := urlencodeDoseq
              (mergedQueryParams request env_vars (parse_qs parsed.query)) })
      ∧ ((mergedQueryParams request env_vars (parse_qs parsed.query)).map
          Prod.fst).Nodup
      ∧ parse_qs (urlencodeDoseq
            (mergedQueryParams request env_vars (parse_qs parsed.query)))
          = mergedQueryParams request env_vars (parse_qs parsed.query)
      ∧ ∀ k v, lastEnabledParamValue request.query_params k = some v → k ≠ [] →
          assocLookup (mergedQueryParams request env_vars (parse_qs parsed.query)) k
            = some [substitute_variables v env_vars] := by
  refine ⟨?_, ?_, ?_, ?_⟩
  · simp only [build_url]
    rw [hok]
  · exact foldl_dictSet_keys_nodup (fun s => substitute_variables s env_vars)
      request.query_params (parse_qs parsed.query) (parse_qs_keys_nodup parsed.query)
  · exact parse_qs_urlencode _
      (foldl_dictSet_keys_nodup (fun s => substitute_variables s env_vars)
        request.query_params (parse_qs parsed.query) (parse_qs_keys_nodup parsed.query))
      (foldl_dictSet_values (fun s => substitute_variables s env_vars)
        request.query_params (parse_qs parsed.query) (parse_qs_values_ne_nil parsed.query))
  · intro k v hlast hk
    exact foldl_dictSet_lookup_some (fun s => substitute_variables s env_vars)
      request.query_params (parse_qs parsed.query) k v hk hlast

theorem C6_merged_query_overwrites_witness :
    build_url { url := str "http://x.test/p?q=old", query_params := [{ key := str "q", value := str "hello world" }] } []
      = .ok (str "http://x.test/p?q=hello+world")
    ∧ assocLookup (mergedQueryParams { url := str "http://x.test/p?q=old", query_params := [{ key := str "q", value := str "hello world" }] } []
        (parse_qs (str "q=old"))) (str "q")
      = some [str "hello world"] := by
  have h := C6_merged_query_overwrites
    { url := str "http://x.test/p?q=old", query_params := [{ key := str "q", value := str "hello world" }] } []
    ⟨str "http", str "x.test", str "/p", [], str "q=old", []⟩ (by decide)
  constructor
  · rw [h.1]
    decide
  · exact (h.2.2.2 (str "q") (str "hello world") (by decide) (by decide)).trans
      (by decide)

/-- C9: the merge loop of `build_url` substitutes variables into each enabled
query parameter's value but never into its key — with an empty parsed query
and a single enabled parameter, the rebuilt query serialises the literal key
(placeholders and all) against the substituted value. -/
theorem C9_query_keys_not_substituted (request : RequestModel)
    (env_vars : List (Str × Str)) (parsed : UrlParts) (p : KeyValuePair)
    (hok : pyUrlparse (stripSurroundingQuotes (pyStrip
      (substitute_variables request.url env_vars))) = .ok parsed)
    (hq : parsed.query = []) (hps : request.query_params = [p])
    (hen : p.enabled = true) (hk : p.key ≠ []) :
    build_url request env_vars
      = .ok (pyUrlunparse { parsed with
          query := urlencodeDoseq [(p.key, [substitute_variables p.value env_vars])] }) := by
  simp only [build_url]
  rw [hok]
  have hm : mergedQueryParams request env_vars (parse_qs parsed.query)
      = [(p.key, [substitute_variables p.value env_vars])] := by
    rw [hq]
    unfold mergedQueryParams
    rw [hps]
    rw [List.foldl_cons, List.foldl_nil, if_pos ⟨hen, hk⟩]
    rfl
  exact congrArg (fun q => Except.ok (pyUrlunparse { parsed with query := urlencodeDoseq q })) hm

/-! ## `urlsplit` never raises on a bracket-free URL, and keeps it bracket-free -/

theorem not_mem_of_subset {c : Char} {s t : Str} (hsub : s ⊆ t) (h : c ∉ t) :
    c ∉ s := fun hc => h (hsub hc)

theorem urlsplitClean_subset (url0 : Str) : urlsplitClean url0 ⊆ url0 :=
  ((List.filter_sublist _).trans (List.dropWhile_sublist _)).subset

theorem toLower_eq_self_or_letter (c : Char) :
    Char.toLower c = c ∨
      (97 ≤ (Char.toLower c).toNat ∧ (Char.toLower c).toNat ≤ 122) := by
  simp only [Char.toLower]
  by_cases h : c.toNat ≥ 65 ∧ c.toNat ≤ 90
  · rw [if_pos h]
    right
    rw [toNat_ofNat_valid _ (Or.inl (by omega))]
    omega
  · rw [if_neg h]
    left
    rfl

theorem toLower_eq_of_lt (c b : Char) (hb : b.toNat < 97)
    (h : Char.toLower c = b) : c = b := by
  rcases toLower_eq_self_or_letter c with h2 | h2
  · exact h2.symm.trans h
  · rw [h] at h2
    omega

theorem mem_asciiLower_lt (s : Str) (b : Char) (hb : b.toNat < 97)
    (hmem : b ∈ asciiLower s) : b ∈ s := by
  unfold asciiLower at hmem
  rw [List.mem_map] at hmem
  obtain ⟨c, hc, he⟩ := hmem
  exact (toLower_eq_of_lt c b hb he) ▸ hc

theorem urlsplitScheme_fst_mem (url1 : Str) (b : Char) (hb : b.toNat < 97)
    (hmem : b ∈ (urlsplitScheme url1).1) : b ∈ url1 := by
  unfold urlsplitScheme at hmem
  split at hmem
  · split at hmem
    · exact List.take_subset _ _ (mem_asciiLower_lt _ b hb hmem)
    · exact absurd hmem (by simp)
  · exact absurd hmem (by simp)

theorem urlsplitScheme_snd_subset (url1 : Str) : (urlsplitScheme url1).2 ⊆ url1 := by
  unfold urlsplitScheme
  split
  · split
    · exact List.drop_subset _ _
    · exact fun x hx => hx
  · exact fun x hx => hx

theorem urlsplitNetloc_fst_subset (url2 : Str) : (urlsplitNetloc url2).1 ⊆ url2 := by
  unfold urlsplitNetloc
  split
  · exact ((List.takeWhile_sublist _).trans (List.drop_sublist _ _)).subset
  · simp

theorem urlsplitNetloc_snd_subset (url2 : Str) : (urlsplitNetloc url2).2 ⊆ url2 := by
  unfold urlsplitNetloc
  split
  · exact ((List.dropWhile_sublist _).trans (List.drop_sublist _ _)).subset
  · exact fun x hx => hx

theorem pySplitOnceAux_fst_subset (sep : Str) :
    ∀ (s cur : Str), (pySplitOnceAux sep s cur).1 ⊆ cur ++ s
  | [], cur => by
    rw [pySplitOnceAux]
    simp
  | c :: rest, cur => by
    rw [pySplitOnceAux]
    split
    · exact fun x hx => List.mem_append.2 (Or.inl hx)
    · intro x hx
      have h := pySplitOnceAux_fst_subset sep rest (cur ++ [c]) hx
      simpa using h

theorem pySplitOnceAux_snd_subset (sep : Str) :
    ∀ (s cur t : Str), (pySplitOnceAux sep s cur).2 = some t → t ⊆ s
  | [], cur, t => by
    rw [pySplitOnceAux]
    intro h
    exact absurd h (by simp)
  | c :: rest, cur, t => by
    rw [pySplitOnceAux]
    split
    · intro h
      have ht : (c :: rest).drop sep.length = t := by simpa using h
      rw [← ht]
      exact List.drop_subset _ _
    · intro h
      exact fun x hx =>
        List.mem_cons_of_mem c (pySplitOnceAux_snd_subset sep rest (cur ++ [c]) t h hx)

theorem pySplitOnce_fst_subset (s sep : Str) : (pySplitOnce s sep).1 ⊆ s := by
  have h := pySplitOnceAux_fst_subset sep s []
  simpa [pySplitOnce] using h

theorem pySplitOnce_snd_subset (s sep t : Str) (h : (pySplitOnce s sep).2 = some t) :
    t ⊆ s := pySplitOnceAux_snd_subset sep s [] t h

theorem urlsplitFrag_fst_subset (url3 : Str) : (urlsplitFrag url3).1 ⊆ url3 := by
  unfold urlsplitFrag
  split
  · exact pySplitOnce_fst_subset url3 ['#']
  · exact fun x hx => hx

theorem urlsplitFrag_snd_subset (url3 : Str) : (urlsplitFrag url3).2 ⊆ url3 := by
  unfold urlsplitFrag
  split
  · cases h : (pySplitOnce url3 ['#']).2 with
    | none => simp [h]
    | some t => exact pySplitOnce_snd_subset url3 ['#'] t h
  · simp

theorem urlsplitQuery_fst_subset (url4 : Str) : (urlsplitQuery url4).1 ⊆ url4 := by
  unfold urlsplitQuery
  split
  · exact pySplitOnce_fst_subset url4 ['?']
  · exact fun x hx => hx

theorem urlsplitQuery_snd_subset (url4 : Str) : (urlsplitQuery url4).2 ⊆ url4 := by
  unfold urlsplitQuery
  split
  · cases h : (pySplitOnce url4 ['?']).2 with
    | none => simp [h]
    | some t => exact pySplitOnce_snd_subset url4 ['?'] t h
  · simp

/-- On a URL without square brackets, `urlsplit` never raises, and every
component it returns is bracket-free as well. -/
theorem pyUrlsplit_no_brackets (url0 : Str) (hl : '[' ∉ url0) (hr : ']' ∉ url0) :
    ∃ r, pyUrlsplit url0 = .ok r ∧
      '[' ∉ r.scheme ∧ ']' ∉ r.scheme ∧ '[' ∉ r.netloc ∧ ']' ∉ r.netloc ∧
      '[' ∉ r.path ∧ ']' ∉ r.path ∧ '[' ∉ r.query ∧ ']' ∉ r.query ∧
      '[' ∉ r.fragment ∧ ']' ∉ r.fragment := by
  have h1l : '[' ∉ urlsplitClean url0 := not_mem_of_subset (urlsplitClean_subset url0) hl
  have h1r : ']' ∉ urlsplitClean url0 := not_mem_of_subset (urlsplitClean_subset url0) hr
  have hsl : '[' ∉ (urlsplitScheme (urlsplitClean url0)).1 :=
    fun h => h1l (urlsplitScheme_fst_mem _ '[' (by decide) h)
  have hsr : ']' ∉ (urlsplitScheme (urlsplitClean url0)).1 :=
    fun h => h1r (urlsplitScheme_fst_mem _ ']' (by decide) h)
  have h2l : '[' ∉ (urlsplitScheme (urlsplitClean url0)).2 :=
    not_mem_of_subset (urlsplitScheme_snd_subset _) h1l
  have h2r : ']' ∉ (urlsplitScheme (urlsplitClean url0)).2 :=
    not_mem_of_subset (urlsplitScheme_snd_subset _) h1r
  have hnl : '[' ∉ (urlsplitNetloc (urlsplitScheme (urlsplitClean url0)).2).1 :=
    not_mem_of_subset (urlsplitNetloc_fst_subset _) h2l
  have hnr : ']' ∉ (urlsplitNetloc (urlsplitScheme (urlsplitClean url0)).2).1 :=
    not_mem_of_subset (urlsplitNetloc_fst_subset _) h2r
  have h3l : '[' ∉ (urlsplitNetloc (urlsplitScheme (urlsplitClean url0)).2).2 :=
    not_mem_of_subset (urlsplitNetloc_snd_subset _) h2l
  have h3r : ']' ∉ (urlsplitNetloc (urlsplitScheme (urlsplitClean url0)).2).2 :=
    not_mem_of_subset (urlsplitNetloc_snd_subset _) h2r
  have hfl : '[' ∉ (urlsplitFrag (urlsplitNetloc (urlsplitScheme (urlsplitClean url0)).2).2).2 :=
    not_mem_of_subset (urlsplitFrag_snd_subset _) h3l
  have hfr : ']' ∉ (urlsplitFrag (urlsplitNetloc (urlsplitScheme (urlsplitClean url0)).2).2).2 :=
    not_mem_of_subset (urlsplitFrag_snd_subset _) h3r
  have h4l : '[' ∉ (urlsplitFrag (urlsplitNetloc (urlsplitScheme (urlsplitClean url0)).2).2).1 :=
    not_mem_of_subset (urlsplitFrag_fst_subset _) h3l
  have h4r : ']' ∉ (urlsplitFrag (urlsplitNetloc (urlsplitScheme (urlsplitClean url0)).2).2).1 :=
    not_mem_of_subset (urlsplitFrag_fst_subset _) h3r
  have hpl : '[' ∉ (urlsplitQuery (urlsplitFrag (urlsplitNetloc (urlsplitScheme (urlsplitClean url0)).2).2).1).1 :=
    not_mem_of_subset (urlsplitQuery_fst_subset _) h4l
  have hpr : ']' ∉ (urlsplitQuery (urlsplitFrag (urlsplitNetloc (urlsplitScheme (urlsplitClean url0)).2).2).1).1 :=
    not_mem_of_subset (urlsplitQuery_fst_subset _) h4r
  have hql : '[' ∉ (urlsplitQuery (urlsplitFrag (urlsplitNetloc (urlsplitScheme (urlsplitClean url0)).2).2).1).2 :=
    not_mem_of_subset (urlsplitQuery_snd_subset _) h4l
  have hqr : ']' ∉ (urlsplitQuery (urlsplitFrag (urlsplitNetloc (urlsplitScheme (urlsplitClean url0)).2).2).1).2 :=
    not_mem_of_subset (urlsplitQuery_snd_subset _) h4r
  refine ⟨⟨(urlsplitScheme (urlsplitClean url0)).1,
      (urlsplitNetloc (urlsplitScheme (urlsplitClean url0)).2).1,
      (urlsplitQuery (urlsplitFrag (urlsplitNetloc (urlsplitScheme (urlsplitClean url0)).2).2).1).1,
      (urlsplitQuery (urlsplitFrag (urlsplitNetloc (urlsplitScheme (urlsplitClean url0)).2).2).1).2,
      (urlsplitFrag (urlsplitNetloc (urlsplitScheme (urlsplitClean url0)).2).2).2⟩,
    ?_, hsl, hsr, hnl, hnr, hpl, hpr, hql, hqr, hfl, hfr⟩
  unfold pyUrlsplit
  rw [if_neg (fun h => by
      rcases h with ⟨h, _⟩ | ⟨h, _⟩
      exacts [hnl h, hnr h]),
    if_neg (fun h => hnl h.1)]

theorem splitParams_fst_subset (u : Str) : (splitParams u).1 ⊆ u := by
  unfold splitParams
  split
  · dsimp only
    split
    · exact List.take_subset _ _
    · exact fun x hx => hx
  · split
    · exact List.take_subset _ _
    · exact fun x hx => hx

theorem splitParams_snd_subset (u : Str) : (splitParams u).2 ⊆ u := by
  unfold splitParams
  split
  · dsimp only
    split
    · exact List.drop_subset _ _
    · simp
  · split
    · exact List.drop_subset _ _
    · simp

/-- On a URL without square brackets, `urlparse` never raises, and every
component it returns is bracket-free as well. -/
theorem pyUrlparse_no_brackets (url0 : Str) (hl : '[' ∉ url0) (hr : ']' ∉ url0) :
    ∃ p, pyUrlparse url0 = .ok p ∧
      '[' ∉ p.scheme ∧ ']' ∉ p.scheme ∧ '[' ∉ p.netloc ∧ ']' ∉ p.netloc ∧
      '[' ∉ p.path ∧ ']' ∉ p.path ∧ '[' ∉ p.params ∧ ']' ∉ p.params ∧
      '[' ∉ p.query ∧ ']' ∉ p.query ∧ '[' ∉ p.fragment ∧ ']' ∉ p.fragment := by
  obtain ⟨r, hok, hsl, hsr, hnl, hnr, hpl, hpr, hql, hqr, hfl, hfr⟩ :=
    pyUrlsplit_no_brackets url0 hl hr
  unfold pyUrlparse
  rw [hok]
  dsimp only
  by_cases hc : r.scheme ∈ usesParams ∧ ';' ∈ r.path
  · rw [if_pos hc]
    exact ⟨_, rfl, hsl, hsr, hnl, hnr,
      not_mem_of_subset (splitParams_fst_subset r.path) hpl,
      not_mem_of_subset (splitParams_fst_subset r.path) hpr,
      not_mem_of_subset (splitParams_snd_subset r.path) hpl,
      not_mem_of_subset (splitParams_snd_subset r.path) hpr,
      hql, hqr, hfl, hfr⟩
  · rw [if_neg hc]
    exact ⟨_, rfl, hsl, hsr, hnl, hnr, hpl, hpr, (by simp), (by simp),
      hql, hqr, hfl, hfr⟩

theorem not_mem_quotePlus_lbracket (s : Str) : '[' ∉ quotePlus s :=
  not_mem_quotePlus '[' s (by decide)
    (fun n hn => (hexUpper_vals n hn).2.2.2.2.2.2.2.1) (by decide) (by decide)
    (by decide)

theorem not_mem_quotePlus_rbracket (s : Str) : ']' ∉ quotePlus s :=
  not_mem_quotePlus ']' s (by decide)
    (fun n hn => (hexUpper_vals n hn).2.2.2.2.2.2.2.2.1) (by decide) (by decide)
    (by decide)

theorem mem_joinWith (sep : Str) :
    ∀ (l : List Str) (c : Char), c ∈ joinWith sep l → c ∈ sep ∨ ∃ e ∈ l, c ∈ e
  | [], c => by
    intro hc
    simp [joinWith] at hc
  | [x], c => by
    intro hc
    simp only [joinWith] at hc
    exact Or.inr ⟨x, by simp, hc⟩
  | x :: y :: xs, c => by
    intro hc
    simp only [joinWith] at hc
    rcases List.mem_append.1 hc with h | h
    · rcases List.mem_append.1 h with h | h
      · exact Or.inr ⟨x, by simp, h⟩
      · exact Or.inl h
    · rcases mem_joinWith sep (y :: xs) c h with h | ⟨e, he, hce⟩
      · exact Or.inl h
      · exact Or.inr ⟨e, List.mem_cons_of_mem x he, hce⟩

/-- Every character of an `urlencode(doseq=True)` output is a separator or
comes from a `quote_plus` encoding. -/
theorem mem_urlencodeDoseq (D : List (Str × List Str)) (c : Char)
    (hc : c ∈ urlencodeDoseq D) :
    c = '&' ∨ c = '=' ∨ ∃ s, c ∈ quotePlus s := by
  unfold urlencodeDoseq at hc
  rcases mem_joinWith ['&'] (encodedEntries D) c hc with h | ⟨e, he, hce⟩
  · exact Or.inl (by simpa using h)
  · obtain ⟨k, v, rfl⟩ := mem_encodedEntries D e he
    rcases List.mem_append.1 hce with h | h
    · exact Or.inr (Or.inr ⟨k, h⟩)
    · rcases List.mem_cons.1 h with h | h
      · exact Or.inr (Or.inl h)
      · exact Or.inr (Or.inr ⟨v, h⟩)

/-- The `urlencode(doseq=True)` output of any dict is bracket-free. -/
theorem urlencodeDoseq_no_brackets (D : List (Str × List Str)) :
    '[' ∉ urlencodeDoseq D ∧ ']' ∉ urlencodeDoseq D := by
  constructor <;> intro hc <;>
    rcases mem_urlencodeDoseq D _ hc with h | h | ⟨s, h⟩
  · exact absurd h (by decide)
  · exact absurd h (by decide)
  · exact not_mem_quotePlus_lbracket s h
  · exact absurd h (by decide)
  · exact absurd h (by decide)
  · exact not_mem_quotePlus_rbracket s h

theorem mem_ite_append_cons {c x : Char} {b : Prop} [Decidable b] {u t : Str}
    (h : c ∈ if b then u ++ x :: t else u) : c ∈ u ∨ c = x ∨ c ∈ t := by
  split at h
  · rcases List.mem_append.1 h with h | h
    · exact Or.inl h
    · rcases List.mem_cons.1 h with h | h
      · exact Or.inr (Or.inl h)
      · exact Or.inr (Or.inr h)
  · exact Or.inl h

theorem mem_ite_cons_append {c x : Char} {b : Prop} [Decidable b] {s u : Str}
    (h : c ∈ if b then s ++ x :: u else u) : c ∈ s ∨ c = x ∨ c ∈ u := by
  split at h
  · rcases List.mem_append.1 h with h | h
    · exact Or.inl h
    · rcases List.mem_cons.1 h with h | h
      · exact Or.inr (Or.inl h)
      · exact Or.inr (Or.inr h)
  · exact Or.inr (Or.inr h)

theorem mem_ite_netloc {c : Char} {b b2 : Prop} [Decidable b] [Decidable b2]
    {n p : Str}
    (h : c ∈ if b then ['/', '/'] ++ n ++ (if b2 then '/' :: p else p) else p) :
    c = '/' ∨ c ∈ n ∨ c ∈ p := by
  split at h
  · rcases List.mem_append.1 h with h | h
    · rcases List.mem_append.1 h with h | h
      · rcases List.mem_cons.1 h with h | h
        · exact Or.inl h
        · exact Or.inl (by simpa using h)
      · exact Or.inr (Or.inl h)
    · revert h
      split <;> intro h
      · rcases List.mem_cons.1 h with h | h
        · exact Or.inl h
        · exact Or.inr (Or.inr h)
      · exact Or.inr (Or.inr h)
  · exact Or.inr (Or.inr h)

/-- Every character of an `urlunsplit` output comes from one of the five
components or is one of the inserted separators. -/
theorem mem_pyUrlunsplit (r : SplitRes) (c : Char) (hc : c ∈ pyUrlunsplit r) :
    c ∈ r.scheme ∨ c ∈ r.netloc ∨ c ∈ r.path ∨ c ∈ r.query ∨ c ∈ r.fragment ∨
      c = '/' ∨ c = ':' ∨ c = '?' ∨ c = '#' := by
  unfold pyUrlunsplit at hc
  dsimp only at hc
  rcases mem_ite_append_cons hc with hc | h | h
  · rcases mem_ite_append_cons hc with hc | h | h
    · rcases mem_ite_cons_append hc with h | h | hc
      · exact Or.inl h
      · tauto
      · rcases mem_ite_netloc hc with h | h | h
        · tauto
        · tauto
        · tauto
    · tauto
    · tauto
  · tauto
  · tauto

/-- Every character of an `urlunparse` output comes from one of the six
components or is one of the inserted separators. -/
theorem mem_pyUrlunparse (p : UrlParts) (c : Char) (hc : c ∈ pyUrlunparse p) :
    c ∈ p.scheme ∨ c ∈ p.netloc ∨ c ∈ p.path ∨ c ∈ p.params ∨ c ∈ p.query ∨
      c ∈ p.fragment ∨ c = '/' ∨ c = ':' ∨ c = '?' ∨ c = '#' ∨ c = ';' := by
  unfold pyUrlunparse at hc
  dsimp only at hc
  rcases mem_pyUrlunsplit _ c hc with h | h | h | h | h | h | h | h | h
  · exact Or.inl h
  · exact Or.inr (Or.inl h)
  · rcases mem_ite_append_cons h with h | h | h
    · exact Or.inr (Or.inr (Or.inl h))
    · exact Or.inr (Or.inr (Or.inr (Or.inr (Or.inr (Or.inr (Or.inr (Or.inr
        (Or.inr (Or.inr h)))))))))
    · exact Or.inr (Or.inr (Or.inr (Or.inl h)))
  · exact Or.inr (Or.inr (Or.inr (Or.inr (Or.inl h))))
  · exact Or.inr (Or.inr (Or.inr (Or.inr (Or.inr (Or.inl h)))))
  · exact Or.inr (Or.inr (Or.inr (Or.inr (Or.inr (Or.inr (Or.inl h))))))
  · exact Or.inr (Or.inr (Or.inr (Or.inr (Or.inr (Or.inr (Or.inr (Or.inl h)))))))
  · exact Or.inr (Or.inr (Or.inr (Or.inr (Or.inr (Or.inr (Or.inr (Or.inr
      (Or.inl h))))))))
  · exact Or.inr (Or.inr (Or.inr (Or.inr (Or.inr (Or.inr (Or.inr (Or.inr
      (Or.inr (Or.inl h)))))))))

theorem proxyParts_ok (include_proxy : Bool) (proxy_http proxy_https full_url : Str)
    (parts5 : List Str) (p2 : UrlParts) (h : pyUrlparse full_url = .ok p2) :
    ∃ parts6, proxyParts include_proxy proxy_http proxy_https full_url parts5
      = .ok parts6 := by
  unfold proxyParts
  cases include_proxy with
  | false => exact ⟨parts5, rfl⟩
  | true =>
    rw [if_pos rfl, h]
    dsimp only
    split
    · exact ⟨_, rfl⟩
    · split
      · exact ⟨_, rfl⟩
      · exact ⟨_, rfl⟩

theorem exists_map_ok {α β : Type} (f : α → β) (x : Except Unit α)
    (hx : ∃ a, x = .ok a) : ∃ out, x.map f = .ok out := by
  obtain ⟨a, ha⟩ := hx
  rw [ha]
  exact ⟨f a, rfl⟩

theorem exists_bind_ok {α β : Type} (x : Except Unit α) (f : α → Except Unit β)
    (a : α) (hx : x = .ok a) (hf : ∃ b, f a = .ok b) :
    ∃ b, x.bind f = .ok b := by
  rw [hx]
  obtain ⟨b, hb⟩ := hf
  exact ⟨b, hb⟩

/-- C7 counterexample: the exporter is not total — a URL whose authority opens
a square bracket without closing it makes `urlparse` raise `ValueError` inside
`generate_curl_command`. -/
theorem C7_generate_can_fail_counterexample :
    generate_curl_command { url := str "http://[" } false [] [] true
      = .error () := by decide

/-- C7 (amended: total only away from `urlparse`'s bracketed-authority
`ValueError`): for every request whose URL contains no square bracket — and
any method, auth, body, proxy and ssl configuration — `generate_curl_command`
returns a string; both `urlparse` calls (on the request URL and on the rebuilt
URL) succeed. -/
theorem C7_generate_total_without_brackets (request : RequestModel)
    (include_proxy : Bool) (proxy_http proxy_https : Str) (ssl_verify : Bool)
    (hl : '[' ∉ request.url) (hr : ']' ∉ request.url) :
    ∃ out, generate_curl_command request include_proxy proxy_http proxy_https
      ssl_verify = .ok out := by
  obtain ⟨p, hok, hsl, hsr, hnl, hnr, hpl, hpr, hml, hmr, hql, hqr, hfl, hfr⟩ :=
    pyUrlparse_no_brackets request.url hl hr
  have hfull : ∀ c ∈ generateFullUrl request p, c ≠ '[' ∧ c ≠ ']' := by
    intro c hc
    unfold generateFullUrl at hc
    rcases mem_pyUrlunparse _ c hc with h | h | h | h | h | h | h | h | h | h | h
    · exact ⟨fun he => hsl (he ▸ h), fun he => hsr (he ▸ h)⟩
    · exact ⟨fun he => hnl (he ▸ h), fun he => hnr (he ▸ h)⟩
    · exact ⟨fun he => hpl (he ▸ h), fun he => hpr (he ▸ h)⟩
    · exact ⟨fun he => hml (he ▸ h), fun he => hmr (he ▸ h)⟩
    · exact ⟨fun he => (urlencodeDoseq_no_brackets _).1 (he ▸ h),
        fun he => (urlencodeDoseq_no_brackets _).2 (he ▸ h)⟩
    · exact ⟨fun he => hfl (he ▸ h), fun he => hfr (he ▸ h)⟩
    · subst h
      exact ⟨by decide, by decide⟩
    · subst h
      exact ⟨by decide, by decide⟩
    · subst h
      exact ⟨by decide, by decide⟩
    · subst h
      exact ⟨by decide, by decide⟩
    · subst h
      exact ⟨by decide, by decide⟩
  obtain ⟨p2, hok2, _⟩ := pyUrlparse_no_brackets (generateFullUrl request p)
    (fun hc => (hfull '[' hc).1 rfl) (fun hc => (hfull ']' hc).2 rfl)
  unfold generate_curl_command
  refine exists_bind_ok _ _ p hok ?_
  dsimp only
  exact exists_map_ok _ _
    (proxyParts_ok include_proxy proxy_http proxy_https _ _ p2 hok2)

theorem C7_generate_total_without_brackets_witness :
    ('[' ∉ str "http://x.test/a") ∧ (']' ∉ str "http://x.test/a") ∧
    ∃ out, generate_curl_command { url := str "http://x.test/a" } true
      (str "hp") (str "hs") false = .ok out :=
  ⟨by decide, by decide,
    C7_generate_total_without_brackets { url := str "http://x.test/a" } true
      (str "hp") (str "hs") false (by decide) (by decide)⟩

theorem C9_query_keys_not_substituted_witness :
    build_url { url := str "http://x.test", query_params := [{ key := str "\x7b\x7bname\x7d\x7d", value := str "\x7b\x7bname\x7d\x7d" }] }
      [(str "name", str "val")]
      = .ok (str "http://x.test?%7B%7Bname%7D%7D=val") := by
  rw [C9_query_keys_not_substituted
    { url := str "http://x.test", query_params := [{ key := str "\x7b\x7bname\x7d\x7d", value := str "\x7b\x7bname\x7d\x7d" }] }
    [(str "name", str "val")]
    ⟨str "http", str "x.test", [], [], [], []⟩
    { key := str "\x7b\x7bname\x7d\x7d", value := str "\x7b\x7bname\x7d\x7d" }
    (by decide) rfl rfl rfl (by decide)]
  decide

/-! ## `shlex.split` inverts `shlex.quote` -/

theorem shlexSafeChar_facts (c : Char) (h : shlexSafeChar c = true) :
    shlexWs c = false ∧ c ≠ '\\' ∧ c ≠ '\'' ∧ c ≠ '"' := by
  refine ⟨?_, ?_, ?_, ?_⟩
  · by_contra hw
    rw [Bool.not_eq_false] at hw
    unfold shlexWs at hw
    rw [decide_eq_true_eq] at hw
    rcases hw with rfl | rfl | rfl | rfl <;> exact absurd h (by decide)
  · rintro rfl
    exact absurd h (by decide)
  · rintro rfl
    exact absurd h (by decide)
  · rintro rfl
    exact absurd h (by decide)

theorem scan_safe_word :
    ∀ (s : Str), s.all shlexSafeChar = true →
      ∀ (q : Bool) (cur tail : Str),
        shlexSplitAux .word q cur (s ++ tail) = shlexSplitAux .word q (cur ++ s) tail
  | [], _, q, cur, tail => by simp
  | c :: s2, hs, q, cur, tail => by
    rw [List.all_cons, Bool.and_eq_true] at hs
    obtain ⟨hw, hb, hq1, hq2⟩ := shlexSafeChar_facts c hs.1
    rw [List.cons_append, shlexSplitAux]
    rw [if_neg (by simp [hw]), if_neg hq1, if_neg hq2, if_neg hb]
    rw [scan_safe_word s2 hs.2 q (cur ++ [c]) tail]
    simp

theorem scan_inSingle :
    ∀ (s : Str), '\'' ∉ s →
      ∀ (q : Bool) (cur tail : Str),
        shlexSplitAux .inSingle q cur (s ++ tail)
          = shlexSplitAux .inSingle q (cur ++ s) tail
  | [], _, q, cur, tail => by simp
  | c :: s2, hs, q, cur, tail => by
    rw [List.cons_append, shlexSplitAux,
      if_neg (fun h => hs (List.mem_cons.2 (Or.inl h.symm)))]
    rw [scan_inSingle s2 (fun h => hs (List.mem_cons_of_mem c h)) q (cur ++ [c]) tail]
    simp

theorem scan_quoted_segments :
    ∀ (segs : List Str), (∀ e ∈ segs, '\'' ∉ e) →
      ∀ (cur tail : Str),
        shlexSplitAux .inSingle true cur
            (joinWith ['\'', '"', '\'', '"', '\''] segs ++ (['\''] ++ tail))
          = shlexSplitAux .word true (cur ++ joinWith ['\''] segs) tail
  | [], _, cur, tail => by
    simp only [joinWith, List.nil_append, List.append_nil]
    rw [List.singleton_append, shlexSplitAux, if_pos rfl]
  | [e], he, cur, tail => by
    simp only [joinWith]
    rw [scan_inSingle e (he e (List.mem_cons_self e [])) true cur (['\''] ++ tail)]
    rw [List.singleton_append, shlexSplitAux, if_pos rfl]
  | e :: e2 :: segs2, he, cur, tail => by
    rw [joinWith_cons _ _ _ (by simp)]
    rw [List.append_assoc, List.append_assoc,
      scan_inSingle e (he e (List.mem_cons_self e _)) true cur _]
    rw [List.cons_append, shlexSplitAux, if_pos rfl]
    rw [List.cons_append, shlexSplitAux, if_neg (by simp [shlexWs]),
      if_neg (by decide), if_pos rfl]
    rw [List.cons_append, shlexSplitAux, if_neg (by decide), if_neg (by decide)]
    rw [List.cons_append, shlexSplitAux, if_pos rfl]
    rw [List.singleton_append, shlexSplitAux, if_neg (by simp [shlexWs]), if_pos rfl]
    rw [scan_quoted_segments (e2 :: segs2)
      (fun x hx => he x (List.mem_cons_of_mem e hx)) (cur ++ e ++ ['\'']) tail]
    rw [joinWith_cons _ _ (e2 :: segs2) (by simp)]
    simp

theorem scan_atom (v : Str) (tail : Str) :
    ∃ q, shlexSplitAux .ws false [] (shlexQuote v ++ tail)
        = shlexSplitAux .word q v tail ∧ (v ≠ [] ∨ q = true) := by
  by_cases hv : v = []
  · subst hv
    refine ⟨true, ?_, Or.inr rfl⟩
    rw [show shlexQuote [] = ['\'', '\''] from rfl]
    rw [List.cons_append, shlexSplitAux, if_neg (by simp [shlexWs]),
      if_neg (by decide), if_pos rfl]
    rw [List.cons_append, shlexSplitAux, if_pos rfl]
    rw [List.nil_append]
  · by_cases hsafe : v.all shlexSafeChar = true
    · refine ⟨false, ?_, Or.inl hv⟩
      rw [show shlexQuote v = v from by rw [shlexQuote, if_neg hv, if_pos hsafe]]
      cases v with
      | nil => exact absurd rfl hv
      | cons c v2 =>
        rw [List.all_cons, Bool.and_eq_true] at hsafe
        obtain ⟨hw, hb, hq1, hq2⟩ := shlexSafeChar_facts c hsafe.1
        rw [List.cons_append, shlexSplitAux]
        rw [if_neg (by simp [hw]), if_neg hb, if_neg hq1, if_neg hq2]
        rw [scan_safe_word v2 hsafe.2 false ([] ++ [c]) tail]
        simp
    · refine ⟨true, ?_, Or.inl hv⟩
      have hsegs : ∀ e ∈ pySplitStr v ['\''], '\'' ∉ e := fun e he hq =>
        pySplitStr_not_infix v ['\''] (by simp) e he
          ((singleton_infix_iff '\'' e).2 hq)
      rw [show shlexQuote v
          = '\'' :: (pyReplace v ['\''] ['\'', '"', '\'', '"', '\'']) ++ ['\'']
        from by rw [shlexQuote, if_neg hv, if_neg hsafe]]
      rw [pyReplace_eq_joinWith v ['\''] _ (by simp)]
      rw [List.append_assoc, List.cons_append, shlexSplitAux,
        if_neg (by simp [shlexWs]), if_neg (by decide), if_pos rfl]
      rw [scan_quoted_segments (pySplitStr v ['\'']) hsegs [] tail]
      rw [joinWith_pySplitStr v ['\''] (by simp)]
      rw [List.nil_append]

theorem shlex_unsplit :
    ∀ (atoms : List Str),
      shlexSplitAux .ws false [] (joinWith [' '] (atoms.map shlexQuote)) = .ok atoms
  | [] => rfl
  | [v] => by
    obtain ⟨q, hq, hvq⟩ := scan_atom v []
    rw [List.append_nil] at hq
    simp only [List.map_cons, List.map_nil, joinWith]
    rw [hq, shlexSplitAux, if_pos hvq]
  | v :: v2 :: atoms2 => by
    obtain ⟨q, hq, hvq⟩ :=
      scan_atom v (' ' :: joinWith [' '] ((v2 :: atoms2).map shlexQuote))
    rw [List.map_cons, joinWith_cons _ _ _ (by simp), List.append_assoc,
      List.singleton_append, hq]
    rw [shlexSplitAux, if_pos (by decide), if_pos hvq]
    rw [shlex_unsplit (v2 :: atoms2)]

/-- `shlex.split` recovers exactly the atoms that were `shlex.quote`d onto the
command line. -/
theorem shlex_quote_inverse (atoms : List Str) :
    shlexSplitStrict (joinWith [' '] (atoms.map shlexQuote)) = .ok atoms :=
  shlex_unsplit atoms

/-! ## The importer's normalization recovers the quoted atoms -/

theorem isAlphanum_toNat (c : Char) (h : c.isAlphanum = true) :
    (48 ≤ c.toNat ∧ c.toNat ≤ 57) ∨ (65 ≤ c.toNat ∧ c.toNat ≤ 90) ∨
    (97 ≤ c.toNat ∧ c.toNat ≤ 122) := by
  simp only [Char.isAlphanum, Char.isAlpha, Char.isDigit, Char.isUpper,
    Char.isLower, Bool.or_eq_true, Bool.and_eq_true, decide_eq_true_eq] at h
  rcases h with (⟨h1, h2⟩ | ⟨h1, h2⟩) | ⟨h1, h2⟩
  · exact Or.inr (Or.inl ⟨UInt32.le_toNat_of_le (by decide) h1,
      UInt32.toNat_le_of_le (by decide) h2⟩)
  · exact Or.inr (Or.inr ⟨UInt32.le_toNat_of_le (by decide) h1,
      UInt32.toNat_le_of_le (by decide) h2⟩)
  · exact Or.inl ⟨UInt32.le_toNat_of_le (by decide) h1,
      UInt32.toNat_le_of_le (by decide) h2⟩

theorem shlexSafeChar_not_pySpace (c : Char) (h : shlexSafeChar c = true) :
    pyIsSpace c = false := by
  unfold shlexSafeChar at h
  rw [decide_eq_true_eq] at h
  by_contra hw
  rw [Bool.not_eq_false] at hw
  unfold pyIsSpace at hw
  rw [decide_eq_true_eq] at hw
  rcases h with h | rfl | rfl | rfl | rfl | rfl | rfl | rfl | rfl | rfl | rfl
  · rcases isAlphanum_toNat c h with ⟨h1, h2⟩ | ⟨h1, h2⟩ | ⟨h1, h2⟩ <;>
      rcases hw with hw | hw | hw | hw | hw | hw | hw | hw | hw | hw | hw <;> omega
  all_goals exact absurd hw (by decide)

theorem dropWhile_eq_self_of_head (p : Char → Bool) :
    ∀ s : Str, (∀ c, s.head? = some c → p c = false) → s.dropWhile p = s
  | [], _ => rfl
  | c :: s2, h => by
    rw [List.dropWhile_cons, if_neg (by simp [h c rfl])]

theorem pyStrip_eq_self (s : Str)
    (h1 : ∀ c, s.head? = some c → pyIsSpace c = false)
    (h2 : ∀ c, s.getLast? = some c → pyIsSpace c = false) : pyStrip s = s := by
  unfold pyStrip
  rw [dropWhile_eq_self_of_head pyIsSpace s h1]
  rw [dropWhile_eq_self_of_head pyIsSpace s.reverse
    (fun c hc => h2 c (by rwa [List.head?_reverse] at hc))]
  exact List.reverse_reverse s

theorem pyStrip_cons_space (s : Str) : pyStrip (' ' :: s) = pyStrip s := by
  unfold pyStrip
  rw [List.dropWhile_cons, if_pos (by decide)]

theorem shlexQuote_ne_nil (v : Str) : shlexQuote v ≠ [] := by
  unfold shlexQuote
  by_cases h : v = []
  · rw [if_pos h]
    simp
  · rw [if_neg h]
    split
    · exact h
    · simp

theorem shlexQuote_head_not_space (v : Str) :
    ∀ c, (shlexQuote v).head? = some c → pyIsSpace c = false := by
  intro c hc
  unfold shlexQuote at hc
  by_cases h : v = []
  · rw [if_pos h] at hc
    rw [show (['\'', '\''] : Str).head? = some '\'' from rfl] at hc
    rw [← Option.some.inj hc]
    decide
  · rw [if_neg h] at hc
    by_cases hsafe : v.all shlexSafeChar = true
    · rw [if_pos hsafe] at hc
      have hmem : c ∈ v := by
        cases v with
        | nil => exact absurd rfl h
        | cons a v2 =>
          rw [show (a :: v2).head? = some a from rfl] at hc
          exact List.mem_cons.2 (Or.inl (Option.some.inj hc).symm)
      exact shlexSafeChar_not_pySpace c (List.all_eq_true.1 hsafe c hmem)
    · rw [if_neg hsafe] at hc
      rw [show (('\'' :: pyReplace v ['\''] ['\'', '"', '\'', '"', '\'']) ++
          ['\'']).head? = some '\'' from rfl] at hc
      rw [← Option.some.inj hc]
      decide

theorem mem_of_getLast?_eq : ∀ {l : Str} {c : Char}, l.getLast? = some c → c ∈ l
  | [], c, hc => by simp at hc
  | [a], c, hc => by
    rw [show ([a] : Str).getLast? = some a from rfl] at hc
    exact List.mem_cons.2 (Or.inl (Option.some.inj hc).symm)
  | a :: a2 :: l2, c, hc => by
    rw [List.getLast?_cons_cons] at hc
    exact List.mem_cons_of_mem a (mem_of_getLast?_eq hc)

theorem shlexQuote_last_not_space (v : Str) :
    ∀ c, (shlexQuote v).getLast? = some c → pyIsSpace c = false := by
  intro c hc
  unfold shlexQuote at hc
  by_cases h : v = []
  · rw [if_pos h] at hc
    rw [show (['\'', '\''] : Str).getLast? = some '\'' from rfl] at hc
    rw [← Option.some.inj hc]
    decide
  · rw [if_neg h] at hc
    by_cases hsafe : v.all shlexSafeChar = true
    · rw [if_pos hsafe] at hc
      exact shlexSafeChar_not_pySpace c
        (List.all_eq_true.1 hsafe c (mem_of_getLast?_eq hc))
    · rw [if_neg hsafe] at hc
      rw [List.getLast?_concat] at hc
      rw [← Option.some.inj hc]
      decide

theorem joinWith_ne_nil (sep : Str) :
    ∀ (l : List Str), l ≠ [] → (∀ e ∈ l, e ≠ []) → joinWith sep l ≠ []
  | [], h, _ => absurd rfl h
  | [e], _, he => by simpa [joinWith] using he e (by simp)
  | e :: e2 :: l2, _, he => by
    rw [joinWith_cons _ _ _ (by simp)]
    intro hcon
    rw [List.append_eq_nil, List.append_eq_nil] at hcon
    exact he e (by simp) hcon.1.1

theorem joinWith_head_not_space :
    ∀ (l : List Str), (∀ e ∈ l, e ≠ []) →
      (∀ e ∈ l, ∀ c, e.head? = some c → pyIsSpace c = false) →
      ∀ c, (joinWith [' '] l).head? = some c → pyIsSpace c = false
  | [], _, _, c => by
    intro hc
    simp [joinWith] at hc
  | [e], _, hh, c => by
    intro hc
    exact hh e (by simp) c hc
  | e :: e2 :: l2, hne, hh, c => by
    intro hc
    rw [joinWith_cons _ _ _ (by simp)] at hc
    cases e with
    | nil => exact absurd rfl (hne [] (by simp))
    | cons a e2' =>
      rw [show (((a :: e2') ++ [' ']) ++ joinWith [' '] (e2 :: l2)).head?
          = some a from rfl] at hc
      exact hh (a :: e2') (by simp) c (congrArg some (Option.some.inj hc))

theorem joinWith_last_not_space :
    ∀ (l : List Str), (∀ e ∈ l, e ≠ []) →
      (∀ e ∈ l, ∀ c, e.getLast? = some c → pyIsSpace c = false) →
      ∀ c, (joinWith [' '] l).getLast? = some c → pyIsSpace c = false
  | [], _, _, c => by
    intro hc
    simp [joinWith] at hc
  | [e], _, hh, c => by
    intro hc
    exact hh e (by simp) c hc
  | e :: e2 :: l2, hne, hh, c => by
    intro hc
    rw [joinWith_cons _ _ _ (by simp)] at hc
    rw [List.getLast?_append_of_ne_nil _ (joinWith_ne_nil [' '] (e2 :: l2) (by simp)
      (fun x hx => hne x (List.mem_cons_of_mem e hx)))] at hc
    exact joinWith_last_not_space (e2 :: l2)
      (fun x hx => hne x (List.mem_cons_of_mem e hx))
      (fun x hx => hh x (List.mem_cons_of_mem e hx)) c hc

/-- The importer's strip/`curl `-prefix/tokenize pipeline recovers exactly the
atoms that were `shlex.quote`d behind `curl`. -/
theorem importTokens_quoted (atoms : List Str) (h : atoms ≠ []) :
    importTokens (joinWith [' '] ((str "curl" :: atoms).map shlexQuote)) = atoms := by
  have hmapne : atoms.map shlexQuote ≠ [] := by
    cases atoms with
    | nil => exact absurd rfl h
    | cons a l => simp
  have hedge : ∀ e ∈ atoms.map shlexQuote, e ≠ [] := by
    intro e he
    rw [List.mem_map] at he
    obtain ⟨v, _, rfl⟩ := he
    exact shlexQuote_ne_nil v
  have hhead : ∀ e ∈ atoms.map shlexQuote, ∀ c, e.head? = some c →
      pyIsSpace c = false := by
    intro e he
    rw [List.mem_map] at he
    obtain ⟨v, _, rfl⟩ := he
    exact shlexQuote_head_not_space v
  have hlast : ∀ e ∈ atoms.map shlexQuote, ∀ c, e.getLast? = some c →
      pyIsSpace c = false := by
    intro e he
    rw [List.mem_map] at he
    obtain ⟨v, _, rfl⟩ := he
    exact shlexQuote_last_not_space v
  have hJne : joinWith [' '] (atoms.map shlexQuote) ≠ [] :=
    joinWith_ne_nil [' '] (atoms.map shlexQuote) hmapne hedge
  have hcmd : joinWith [' '] ((str "curl" :: atoms).map shlexQuote)
      = str "curl " ++ joinWith [' '] (atoms.map shlexQuote) := by
    rw [List.map_cons, show shlexQuote (str "curl") = str "curl" from by decide,
      joinWith_cons _ _ _ hmapne, List.append_assoc]
    rfl
  rw [hcmd]
  have hbody : importCommandBody
      (str "curl " ++ joinWith [' '] (atoms.map shlexQuote))
      = joinWith [' '] (atoms.map shlexQuote) := by
    unfold importCommandBody
    rw [pyStrip_eq_self _
      (fun c hc => by
        rw [show (str "curl " ++ joinWith [' '] (atoms.map shlexQuote)).head?
            = some 'c' from rfl] at hc
        rw [← Option.some.inj hc]
        decide)
      (fun c hc => by
        rw [List.getLast?_append_of_ne_nil _ hJne] at hc
        exact joinWith_last_not_space (atoms.map shlexQuote) hedge hlast c hc)]
    rw [if_pos (by
      rw [List.isPrefixOf_iff_prefix]
      exact List.prefix_append _ _)]
    rw [show (str "curl " ++ joinWith [' '] (atoms.map shlexQuote)).drop 5
        = joinWith [' '] (atoms.map shlexQuote) from rfl]
    exact pyStrip_eq_self _
      (joinWith_head_not_space (atoms.map shlexQuote) hedge hhead)
      (joinWith_last_not_space (atoms.map shlexQuote) hedge hlast)
  unfold importTokens
  rw [hbody, shlex_quote_inverse atoms]

/-! ## Grouping compound command-line parts into their atoms -/

theorem joinWith_append (sep : Str) :
    ∀ (a b : List Str), a ≠ [] → b ≠ [] →
      joinWith sep (a ++ b) = joinWith sep a ++ sep ++ joinWith sep b
  | [], _, ha, _ => absurd rfl ha
  | [x], b, _, hb => by
    rw [List.singleton_append, joinWith_cons _ _ _ hb]
    rfl
  | x :: x2 :: a2, b, _, hb => by
    rw [List.cons_append, joinWith_cons sep x ((x2 :: a2) ++ b) (by simp),
      joinWith_append sep (x2 :: a2) b (by simp) hb,
      joinWith_cons sep x (x2 :: a2) (by simp)]
    simp [List.append_assoc]

theorem joinWith_flatten (sep : Str) :
    ∀ (ls : List (List Str)), (∀ l ∈ ls, l ≠ []) →
      joinWith sep (ls.map (joinWith sep)) = joinWith sep ls.flatten
  | [], _ => rfl
  | [l], _ => by simp [joinWith]
  | l :: l2 :: ls2, hl => by
    rw [List.map_cons, joinWith_cons _ _ _ (by simp), List.flatten_cons]
    rw [joinWith_flatten sep (l2 :: ls2) (fun x hx => hl x (List.mem_cons_of_mem l hx))]
    rw [joinWith_append sep l (l2 :: ls2).flatten (hl l (List.mem_cons_self l _))
      (by
        rw [List.flatten_cons]
        exact fun hcon => hl l2 (by simp) (List.append_eq_nil.1 hcon).1)]

theorem joinWith_quote_groups (gs : List (List Str)) (hgs : ∀ g ∈ gs, g ≠ []) :
    joinWith [' '] (gs.map fun g => joinWith [' '] (g.map shlexQuote))
      = joinWith [' '] (gs.flatten.map shlexQuote) := by
  have h1 : (gs.map fun g => joinWith [' '] (g.map shlexQuote))
      = (gs.map (List.map shlexQuote)).map (joinWith [' ']) := by
    rw [List.map_map]
    rfl
  rw [h1, joinWith_flatten [' '] (gs.map (List.map shlexQuote)) (by
    intro l hl
    rw [List.mem_map] at hl
    obtain ⟨g, hg, rfl⟩ := hl
    simpa using fun h => hgs g hg h)]
  rw [List.map_flatten]

theorem except_bind_ok {α β : Type} (a : α) (f : α → Except Unit β) :
    (Except.ok a).bind f = f a := rfl

theorem except_map_ok {α β : Type} (f : α → β) (a : α) :
    (Except.ok a : Except Unit α).map f = .ok (f a) := rfl

theorem proxyParts_false (ph phs fu : Str) (ps : List Str) :
    proxyParts false ph phs fu ps = .ok ps := rfl

theorem jq_pair (a b : Str) :
    joinWith [' '] ([a, b].map shlexQuote) = (shlexQuote a ++ [' ']) ++ shlexQuote b := rfl

theorem jq_pair2 (a b : Str) :
    joinWith [' '] [shlexQuote a, shlexQuote b] = (shlexQuote a ++ [' ']) ++ shlexQuote b := rfl

theorem shlexQuote_method (m : HttpMethod) : shlexQuote m.value = m.value := by
  cases m <;> decide

theorem headers_parts_eq (hs : List KeyValuePair) :
    (hs.filterMap fun header =>
        if header.enabled ∧ header.key ≠ [] then
          some (str "-H " ++ escape_shell_string (header.key ++ str ": " ++ header.value))
        else none)
      = (hs.filterMap fun h => if h.enabled ∧ h.key ≠ [] then
          some [str "-H", h.key ++ str ": " ++ h.value] else none).map
          (fun g => joinWith [' '] (g.map shlexQuote)) := by
  rw [List.map_filterMap]
  refine List.filterMap_congr ?_
  intro h _
  by_cases hc : h.enabled = true ∧ h.key ≠ []
  · rw [if_pos hc, if_pos hc]
    rw [show Option.map (fun g => joinWith [' '] (g.map shlexQuote))
        (some [str "-H", h.key ++ str ": " ++ h.value])
      = some (joinWith [' '] ([str "-H", h.key ++ str ": " ++ h.value].map shlexQuote))
      from rfl]
    rw [jq_pair, show shlexQuote (str "-H") = str "-H" from by decide]
    rfl
  · rw [if_neg hc, if_neg hc]
    rfl

theorem multipart_parts_eq (items : List MultipartItem) :
    (items.filterMap fun item =>
        if item.enabled ∧ item.key ≠ [] then
          if item.type = str "file" then
            some (str "-F " ++ escape_shell_string (item.key ++ '=' :: '@' :: item.value))
          else some (str "-F " ++ escape_shell_string (item.key ++ '=' :: item.value))
        else none)
      = (items.filterMap fun item => if item.enabled ∧ item.key ≠ [] then
            if item.type = str "file" then some [str "-F", item.key ++ '=' :: '@' :: item.value]
            else some [str "-F", item.key ++ '=' :: item.value]
          else none).map (fun g => joinWith [' '] (g.map shlexQuote)) := by
  rw [List.map_filterMap]
  refine List.filterMap_congr ?_
  intro it _
  by_cases hc : it.enabled = true ∧ it.key ≠ []
  · rw [if_pos hc, if_pos hc]
    by_cases ht : it.type = str "file"
    · rw [if_pos ht, if_pos ht]
      rw [show Option.map (fun g => joinWith [' '] (g.map shlexQuote))
          (some [str "-F", it.key ++ '=' :: '@' :: it.value])
        = some (joinWith [' '] ([str "-F", it.key ++ '=' :: '@' :: it.value].map shlexQuote))
        from rfl]
      rw [jq_pair, show shlexQuote (str "-F") = str "-F" from by decide]
      rfl
    · rw [if_neg ht, if_neg ht]
      rw [show Option.map (fun g => joinWith [' '] (g.map shlexQuote))
          (some [str "-F", it.key ++ '=' :: it.value])
        = some (joinWith [' '] ([str "-F", it.key ++ '=' :: it.value].map shlexQuote))
        from rfl]
      rw [jq_pair, show shlexQuote (str "-F") = str "-F" from by decide]
      rfl
  · rw [if_neg hc, if_neg hc]
    rfl

theorem generateTailGroups_ne_nil (request : RequestModel) (p : UrlParts) :
    ∀ g ∈ [[str "curl"]] ++ generateTailGroups request p, g ≠ [] := by
  intro g hg
  rcases List.mem_append.1 hg with h | h
  · rw [List.mem_singleton] at h
    rw [h]
    simp
  · unfold generateTailGroups at h
    rcases List.mem_append.1 h with h | h
    · rcases List.mem_append.1 h with h | h
      · rcases List.mem_append.1 h with h | h
        · revert h
          split
          · intro h
            rw [List.mem_singleton] at h
            rw [h]
            simp
          · intro h
            simp at h
        · rw [List.mem_singleton] at h
          rw [h]
          simp
      · rw [List.mem_filterMap] at h
        obtain ⟨x, _, hx⟩ := h
        by_cases hc : x.enabled = true ∧ x.key ≠ []
        · rw [if_pos hc] at hx
          rw [← Option.some.inj hx]
          simp
        · rw [if_neg hc] at hx
          exact absurd hx (by simp)
    · unfold generateBodyGroups at h
      revert h
      split
      · split
        · intro h
          rw [List.mem_singleton] at h
          rw [h]
          simp
        · intro h
          simp at h
      · split
        · split
          · split
            · intro h
              rw [List.mem_singleton] at h
              rw [h]
              simp
            · intro h
              simp at h
          · intro h
            simp at h
        · split
          · intro h
            rw [List.mem_filterMap] at h
            obtain ⟨x, _, hx⟩ := h
            by_cases hc : x.enabled = true ∧ x.key ≠ []
            · rw [if_pos hc] at hx
              by_cases ht : x.type = str "file"
              · rw [if_pos ht] at hx
                rw [← Option.some.inj hx]
                simp
              · rw [if_neg ht] at hx
                rw [← Option.some.inj hx]
                simp
            · rw [if_neg hc] at hx
              exact absurd hx (by simp)
          · intro h
            simp at h

theorem body_groups_map (request : RequestModel) :
    (generateBodyGroups request).map (fun g => joinWith [' '] (g.map shlexQuote))
      = if request.body_type.value = str "raw" then
          (if request.raw_body ≠ [] then
            [str "--data-raw " ++ escape_shell_string request.raw_body] else [])
        else if request.body_type.value = str "x-www-form-urlencoded" then
          (if request.form_data ≠ [] then
            (if generateFormParts request ≠ [] then
              [str "--data " ++ escape_shell_string (joinWith ['&'] (generateFormParts request))]
            else [])
          else [])
        else if request.body_type.value = str "multipart/form-data" then
          (request.multipart_data.filterMap fun item =>
            if item.enabled ∧ item.key ≠ [] then
              if item.type = str "file" then
                some (str "-F " ++ escape_shell_string (item.key ++ '=' :: '@' :: item.value))
              else some (str "-F " ++ escape_shell_string (item.key ++ '=' :: item.value))
            else none)
        else [] := by
  unfold generateBodyGroups
  by_cases h1 : request.body_type.value = str "raw"
  · rw [if_pos h1, if_pos h1]
    by_cases h2 : request.raw_body ≠ []
    · rw [if_pos h2, if_pos h2]
      simp only [List.map_cons, List.map_nil]
      rw [jq_pair2, show shlexQuote (str "--data-raw") = str "--data-raw" from by decide]
      rfl
    · rw [if_neg h2, if_neg h2]
      rfl
  · rw [if_neg h1, if_neg h1]
    by_cases h3 : request.body_type.value = str "x-www-form-urlencoded"
    · rw [if_pos h3, if_pos h3]
      by_cases h4 : request.form_data ≠ []
      · rw [if_pos h4, if_pos h4]
        by_cases h5 : generateFormParts request ≠ []
        · rw [if_pos h5, if_pos h5]
          simp only [List.map_cons, List.map_nil]
          rw [jq_pair2, show shlexQuote (str "--data") = str "--data" from by decide]
          rfl
        · rw [if_neg h5, if_neg h5]
          rfl
      · rw [if_neg h4, if_neg h4]
        rfl
    · rw [if_neg h3, if_neg h3]
      by_cases h6 : request.body_type.value = str "multipart/form-data"
      · rw [if_pos h6, if_pos h6]
        exact (multipart_parts_eq request.multipart_data).symm
      · rw [if_neg h6, if_neg h6]
        rfl

/-- With proxies off and ssl verification on, the generated command is
`curl` followed by the shell-quoted atoms of the request's argument groups. -/
theorem generate_command_eq (request : RequestModel) (p : UrlParts)
    (hok : pyUrlparse request.url = .ok p)
    (hauth : request.auth.auth_type = .NONE) :
    generate_curl_command request false [] [] true
      = .ok (joinWith [' ']
          ((str "curl" :: (generateTailGroups request p).flatten).map shlexQuote)) := by
  rw [show (str "curl" :: (generateTailGroups request p).flatten : List Str)
      = ([[str "curl"]] ++ generateTailGroups request p).flatten from rfl]
  rw [← joinWith_quote_groups ([[str "curl"]] ++ generateTailGroups request p)
    (generateTailGroups_ne_nil request p)]
  unfold generate_curl_command
  rw [hok, except_bind_ok]
  dsimp only
  rw [proxyParts_false, except_map_ok]
  rw [if_neg (show ¬¬(true = true) from fun h => h rfl)]
  refine congrArg Except.ok (congrArg (joinWith [' ']) ?_)
  rw [hauth]
  simp only [if_neg (show ¬(AuthType.NONE.value = str "basic") from by decide),
    if_neg (show ¬(AuthType.NONE.value = str "bearer") from by decide)]
  rw [List.map_append]
  unfold generateTailGroups
  rw [List.map_append, List.map_append, List.map_append]
  rw [show ([[str "curl"]] : List (List Str)).map
      (fun g => joinWith [' '] (g.map shlexQuote)) = [str "curl"] from by decide]
  rw [apply_ite (List.map (fun g : List Str => joinWith [' '] (g.map shlexQuote)))]
  rw [show ([[str "-X", request.method.value]] : List (List Str)).map
      (fun g => joinWith [' '] (g.map shlexQuote))
      = [str "-X " ++ request.method.value] from by
    simp only [List.map_cons, List.map_nil]
    rw [jq_pair2, shlexQuote_method request.method,
      show shlexQuote (str "-X") = str "-X" from by decide]
    rfl]
  rw [show (([] : List (List Str)).map
      (fun g => joinWith [' '] (g.map shlexQuote))) = [] from rfl]
  rw [show ([[generateFullUrl request p]] : List (List Str)).map
      (fun g => joinWith [' '] (g.map shlexQuote))
      = [escape_shell_string (generateFullUrl request p)] from rfl]
  rw [← headers_parts_eq request.headers]
  rw [body_groups_map request]
  by_cases h1 : request.body_type.value = str "raw"
  · rw [if_pos h1, if_pos h1]
    by_cases h2 : request.raw_body ≠ []
    · rw [if_pos h2, if_pos h2]
      by_cases hm : request.method.value ≠ str "GET"
      · rw [if_pos hm, if_pos hm]
        simp [List.append_assoc]
      · rw [if_neg hm, if_neg hm]
        simp [List.append_assoc]
    · rw [if_neg h2, if_neg h2]
      by_cases hm : request.method.value ≠ str "GET"
      · rw [if_pos hm, if_pos hm]
        simp [List.append_assoc]
      · rw [if_neg hm, if_neg hm]
        simp [List.append_assoc]
  · rw [if_neg h1, if_neg h1]
    by_cases h3 : request.body_type.value = str "x-www-form-urlencoded"
    · rw [if_pos h3, if_pos h3]
      by_cases h4 : request.form_data ≠ []
      · rw [if_pos h4, if_pos h4]
        by_cases h5 : (request.form_data.filterMap fun item =>
            if item.enabled ∧ item.key ≠ [] then some (item.key ++ '=' :: item.value)
            else none) ≠ []
        · rw [if_pos h5, if_pos (show generateFormParts request ≠ [] from h5)]
          by_cases hm : request.method.value ≠ str "GET"
          · rw [if_pos hm, if_pos hm]
            simp [List.append_assoc, generateFormParts]
          · rw [if_neg hm, if_neg hm]
            simp [List.append_assoc, generateFormParts]
        · rw [if_neg h5, if_neg (show ¬generateFormParts request ≠ [] from h5)]
          by_cases hm : request.method.value ≠ str "GET"
          · rw [if_pos hm, if_pos hm]
            simp [List.append_assoc]
          · rw [if_neg hm, if_neg hm]
            simp [List.append_assoc]
      · rw [if_neg h4, if_neg h4]
        by_cases hm : request.method.value ≠ str "GET"
        · rw [if_pos hm, if_pos hm]
          simp [List.append_assoc]
        · rw [if_neg hm, if_neg hm]
          simp [List.append_assoc]
    · rw [if_neg h3, if_neg h3]
      by_cases h6 : request.body_type.value = str "multipart/form-data"
      · rw [if_pos h6, if_pos h6]
        by_cases hm : request.method.value ≠ str "GET"
        · rw [if_pos hm, if_pos hm]
          simp [List.append_assoc]
        · rw [if_neg hm, if_neg hm]
          simp [List.append_assoc]
      · rw [if_neg h6, if_neg h6]
        by_cases hm : request.method.value ≠ str "GET"
        · rw [if_pos hm, if_pos hm]
          simp [List.append_assoc]
        · rw [if_neg hm, if_neg hm]
          simp [List.append_assoc]

/-! ## Scanning the generated tokens -/

theorem pySplitOnceAux_eq_gen (x : Char) (a b cur : Str) (ha : x ∉ a) :
    pySplitOnceAux [x] (a ++ x :: b) cur = (cur ++ a, some b) := by
  induction a generalizing cur with
  | nil =>
    rw [List.nil_append, pySplitOnceAux, if_pos (by simp [List.isPrefixOf])]
    simp
  | cons c a2 ih =>
    have hc : c ≠ x := fun h => ha (h ▸ List.mem_cons_self c a2)
    rw [List.cons_append, pySplitOnceAux,
      if_neg (by
        simp [List.isPrefixOf]
        intro h
        exact absurd h.symm hc)]
    rw [ih (cur ++ [c]) (fun h => ha (List.mem_cons_of_mem c h))]
    simp

theorem processHeader_encode (st : ScanState) (k v : Str) (hk : ':' ∉ k)
    (hsk : pyStrip k = k) (hsv : pyStrip v = v)
    (hba : ¬(asciiLower k = str "authorization" ∧
      (str "bearer ").isPrefixOf (asciiLower v) = true)) :
    processHeader st ((k ++ str ": ") ++ v)
      = { st with headers := st.headers ++ [(k, v)] } := by
  unfold processHeader
  rw [if_pos (List.mem_append.2 (Or.inl (List.mem_append.2 (Or.inr (by decide)))))]
  have hsplit : pySplitOnce ((k ++ str ": ") ++ v) [':'] = (k, some (' ' :: v)) := by
    rw [List.append_assoc, show str ": " ++ v = ':' :: ' ' :: v from rfl]
    have h := pySplitOnceAux_eq_gen ':' k (' ' :: v) [] hk
    simpa [pySplitOnce] using h
  rw [hsplit]
  dsimp only
  rw [show (some (' ' :: v)).getD [] = ' ' :: v from rfl]
  rw [pyStrip_cons_space, hsk, hsv]
  rw [if_neg hba]

theorem scanTokens_dashX (st : ScanState) (a : Str) (rest : List Str) :
    scanTokens st (str "-X" :: a :: rest)
      = scanTokens { st with method := asciiUpper a } rest := by
  rw [scanTokens, if_pos (by decide)]

theorem scanTokens_dashH (st : ScanState) (a : Str) (rest : List Str) :
    scanTokens st (str "-H" :: a :: rest) = scanTokens (processHeader st a) rest := by
  rw [scanTokens, if_neg (by decide), if_pos (by decide)]

theorem scanTokens_data (st : ScanState) (a : Str) (rest : List Str) :
    scanTokens st (str "--data" :: a :: rest)
      = scanTokens { st with data := some a } rest := by
  rw [scanTokens, if_neg (by decide), if_neg (by decide), if_pos (by decide)]

theorem scanTokens_dataraw (st : ScanState) (a : Str) (rest : List Str) :
    scanTokens st (str "--data-raw" :: a :: rest)
      = scanTokens { st with data_raw := some a } rest := by
  rw [scanTokens, if_neg (by decide), if_neg (by decide), if_neg (by decide),
    if_pos (by decide)]

theorem scanTokens_dashF (st : ScanState) (a : Str) (rest : List Str) :
    scanTokens st (str "-F" :: a :: rest)
      = scanTokens { st with form_data := st.form_data ++ [a] } rest := by
  rw [scanTokens, if_neg (by decide), if_neg (by decide), if_neg (by decide),
    if_neg (by decide), if_neg (by decide), if_pos (by decide)]

theorem scanTokens_url (st : ScanState) (u : Str) (rest : List Str)
    (hu : u.head? = some 'h') (hurl : st.url = []) :
    scanTokens st (u :: rest) = scanTokens { st with url := u } rest := by
  obtain ⟨u2, rfl⟩ : ∃ u2, u = 'h' :: u2 := by
    cases u with
    | nil => simp at hu
    | cons a u2 =>
      refine ⟨u2, ?_⟩
      rw [show (a :: u2 : Str).head? = some a from rfl] at hu
      rw [Option.some.inj hu]
  conv_lhs => rw [scanTokens.eq_def]
  dsimp only
  rw [if_neg (show ¬('h' :: u2 = str "-X" ∨ 'h' :: u2 = str "--request") from fun h => by
      rcases h with h | h <;>
        exact absurd (Option.some.inj (congrArg List.head? h)) (by decide)),
    if_neg (show ¬('h' :: u2 = str "-H" ∨ 'h' :: u2 = str "--header") from fun h => by
      rcases h with h | h <;>
        exact absurd (Option.some.inj (congrArg List.head? h)) (by decide)),
    if_neg (show ¬('h' :: u2 = str "-d" ∨ 'h' :: u2 = str "--data") from fun h => by
      rcases h with h | h <;>
        exact absurd (Option.some.inj (congrArg List.head? h)) (by decide)),
    if_neg (show ¬('h' :: u2 = str "--data-raw") from fun h =>
      absurd (Option.some.inj (congrArg List.head? h)) (by decide)),
    if_neg (show ¬('h' :: u2 = str "--data-binary") from fun h =>
      absurd (Option.some.inj (congrArg List.head? h)) (by decide)),
    if_neg (show ¬('h' :: u2 = str "-F" ∨ 'h' :: u2 = str "--form") from fun h => by
      rcases h with h | h <;>
        exact absurd (Option.some.inj (congrArg List.head? h)) (by decide)),
    if_neg (show ¬('h' :: u2 = str "-u" ∨ 'h' :: u2 = str "--user") from fun h => by
      rcases h with h | h <;>
        exact absurd (Option.some.inj (congrArg List.head? h)) (by decide)),
    if_neg (show ¬((str "--proxy").isPrefixOf ('h' :: u2) = true) from
      fun h => Bool.noConfusion h),
    if_neg (show ¬((['-'] : Str).isPrefixOf ('h' :: u2) = true) from
      fun h => Bool.noConfusion h),
    if_pos hurl]

theorem scanTokens_headers :
    ∀ (hs : List KeyValuePair),
      (∀ h ∈ hs, h.enabled = true → h.key ≠ [] →
        ':' ∉ h.key ∧ pyStrip h.key = h.key ∧ pyStrip h.value = h.value ∧
        ¬(asciiLower h.key = str "authorization" ∧
          (str "bearer ").isPrefixOf (asciiLower h.value) = true)) →
      ∀ (st : ScanState) (rest : List Str),
        scanTokens st ((hs.filterMap fun h =>
            if h.enabled ∧ h.key ≠ [] then
              some [str "-H", h.key ++ str ": " ++ h.value] else none).flatten ++ rest)
          = scanTokens { st with headers := st.headers ++ hs.filterMap (fun h => if h.enabled ∧ h.key ≠ [] then some (h.key, h.value) else none) } rest
  | [], _, st, rest => by
    simp only [List.filterMap_nil, List.flatten_nil, List.nil_append, List.append_nil]
  | h :: hs2, hcond, st, rest => by
    by_cases hc : h.enabled = true ∧ h.key ≠ []
    · obtain ⟨hk, hsk, hsv, hba⟩ := hcond h (List.mem_cons_self h hs2) hc.1 hc.2
      simp only [List.filterMap_cons, if_pos hc]
      rw [List.flatten_cons, List.append_assoc, List.cons_append, List.cons_append,
        List.nil_append]
      rw [scanTokens_dashH, processHeader_encode st h.key h.value hk hsk hsv hba]
      rw [scanTokens_headers hs2
        (fun x hx => hcond x (List.mem_cons_of_mem h hx)) _ rest]
      rw [List.append_assoc]
      rfl
    · simp only [List.filterMap_cons, if_neg hc]
      exact scanTokens_headers hs2
        (fun x hx => hcond x (List.mem_cons_of_mem h hx)) st rest

theorem scanTokens_forms :
    ∀ (items : List MultipartItem) (st : ScanState) (rest : List Str),
      scanTokens st ((items.filterMap fun item =>
          if item.enabled ∧ item.key ≠ [] then
            if item.type = str "file" then some [str "-F", item.key ++ '=' :: '@' :: item.value]
            else some [str "-F", item.key ++ '=' :: item.value]
          else none).flatten ++ rest)
        = scanTokens { st with form_data := st.form_data ++ items.filterMap (fun item => if item.enabled ∧ item.key ≠ [] then (if item.type = str "file" then some (item.key ++ '=' :: '@' :: item.value) else some (item.key ++ '=' :: item.value)) else none) } rest
  | [], st, rest => by
    simp only [List.filterMap_nil, List.flatten_nil, List.nil_append, List.append_nil]
  | item :: items2, st, rest => by
    by_cases hc : item.enabled = true ∧ item.key ≠ []
    · by_cases ht : item.type = str "file"
      · simp only [List.filterMap_cons, if_pos hc, if_pos ht]
        rw [List.flatten_cons, List.append_assoc, List.cons_append, List.cons_append,
          List.nil_append]
        rw [scanTokens_dashF, scanTokens_forms items2 _ rest, List.append_assoc]
        rfl
      · simp only [List.filterMap_cons, if_pos hc, if_neg ht]
        rw [List.flatten_cons, List.append_assoc, List.cons_append, List.cons_append,
          List.nil_append]
        rw [scanTokens_dashF, scanTokens_forms items2 _ rest, List.append_assoc]
        rfl
    · simp only [List.filterMap_cons, if_neg hc]
      exact scanTokens_forms items2 st rest

theorem pyUrlunparse_head (q : UrlParts) (c : Char) (hc : q.scheme.head? = some c) :
    (pyUrlunparse q).head? = some c := by
  obtain ⟨s2, hsch⟩ : ∃ s2, q.scheme = c :: s2 := by
    cases hq : q.scheme with
    | nil =>
      rw [hq] at hc
      simp at hc
    | cons a u2 =>
      rw [hq, show (a :: u2 : Str).head? = some a from rfl] at hc
      exact ⟨u2, by rw [Option.some.inj hc]⟩
  unfold pyUrlunparse pyUrlunsplit
  dsimp only
  rw [if_pos (show ¬q.scheme = [] from by rw [hsch]; simp)]
  rw [hsch]
  split
  · split <;> rfl
  · split <;> rfl

/-! ## Reassembling the imported request -/

theorem asciiUpper_method (m : HttpMethod) : asciiUpper m.value = m.value := by
  cases m <;> decide

theorem httpMethodOfValue_value (m : HttpMethod) :
    httpMethodOfValue m.value = some m := by
  cases m <;> decide

theorem scannedMethod_eq (request : RequestModel) :
    scannedMethod request = request.method.value := by
  unfold scannedMethod
  by_cases hm : request.method.value = str "GET"
  · rw [if_neg (not_not_intro hm), hm]
  · rw [if_pos hm, asciiUpper_method]

theorem scannedHeaders_map (hs : List KeyValuePair) :
    (scannedHeaders hs).map (fun kv => (⟨true, kv.1, kv.2⟩ : KeyValuePair))
      = hs.filterMap (fun h =>
          if h.enabled ∧ h.key ≠ [] then some ⟨true, h.key, h.value⟩ else none) := by
  unfold scannedHeaders
  rw [List.map_filterMap]
  refine List.filterMap_congr ?_
  intro h _
  by_cases hc : h.enabled = true ∧ h.key ≠ []
  · rw [if_pos hc, if_pos hc]
    rfl
  · rw [if_neg hc, if_neg hc]
    rfl

theorem pySplitOnce_append_cons (k v : Str) (x : Char) (hk : x ∉ k) :
    pySplitOnce (k ++ x :: v) [x] = (k, some v) := by
  unfold pySplitOnce
  have h := pySplitOnceAux_eq_gen x k v [] hk
  simpa using h

theorem generateFormParts_mem_ne_nil (request : RequestModel) :
    ∀ e ∈ generateFormParts request, e ≠ [] := by
  intro e he
  unfold generateFormParts at he
  rw [List.mem_filterMap] at he
  obtain ⟨i, _, hi⟩ := he
  by_cases hc : i.enabled = true ∧ i.key ≠ []
  · rw [if_pos hc] at hi
    rw [← Option.some.inj hi]
    intro hcon
    simp at hcon
  · rw [if_neg hc] at hi
    exact absurd hi (by simp)

theorem formParts_roundtrip (request : RequestModel)
    (hkeys : ∀ item ∈ request.form_data, item.enabled = true → item.key ≠ [] →
      '=' ∉ item.key) :
    (generateFormParts request).filterMap (fun pair =>
        if '=' ∈ pair then
          some (⟨true, (pySplitOnce pair ['=']).1,
            ((pySplitOnce pair ['=']).2.getD [])⟩ : KeyValuePair)
        else none)
      = request.form_data.filterMap (fun i =>
          if i.enabled ∧ i.key ≠ [] then some ⟨true, i.key, i.value⟩ else none) := by
  unfold generateFormParts
  rw [List.filterMap_filterMap]
  refine List.filterMap_congr ?_
  intro i hi
  by_cases hc : i.enabled = true ∧ i.key ≠ []
  · rw [if_pos hc, if_pos hc]
    show (if '=' ∈ i.key ++ '=' :: i.value then
        some (⟨true, (pySplitOnce (i.key ++ '=' :: i.value) ['=']).1,
          ((pySplitOnce (i.key ++ '=' :: i.value) ['=']).2.getD [])⟩ : KeyValuePair)
      else none) = some ⟨true, i.key, i.value⟩
    rw [if_pos (List.mem_append.2 (Or.inr (List.mem_cons_self _ _)))]
    rw [pySplitOnce_append_cons i.key i.value '=' (hkeys i hi hc.1 hc.2)]
    rfl
  · rw [if_neg hc, if_neg hc]
    rfl

theorem multipartFromItems_scannedForms (items : List MultipartItem)
    (hcond : ∀ item ∈ items, item.enabled = true → item.key ≠ [] →
      '=' ∉ item.key ∧
      (item.type = str "file" ∨
        (item.type = str "text" ∧ item.value.take 1 ≠ ['@']))) :
    multipartFromItems (scannedForms items)
      = items.filterMap (fun i =>
          if i.enabled ∧ i.key ≠ [] then some ⟨true, i.key, i.type, i.value⟩
          else none) := by
  unfold multipartFromItems scannedForms
  rw [List.filterMap_filterMap]
  refine List.filterMap_congr ?_
  intro i hi
  by_cases hc : i.enabled = true ∧ i.key ≠ []
  · obtain ⟨hkey, htype⟩ := hcond i hi hc.1 hc.2
    rw [if_pos hc, if_pos hc]
    rcases htype with hf | ⟨ht, hat⟩
    · rw [if_pos hf]
      show (if '=' ∈ i.key ++ '=' :: '@' :: i.value then _ else none)
        = some (⟨true, i.key, i.type, i.value⟩ : MultipartItem)
      rw [if_pos (List.mem_append.2 (Or.inr (List.mem_cons_self _ _)))]
      rw [pySplitOnce_append_cons i.key ('@' :: i.value) '=' hkey]
      rw [hf]
      rfl
    · rw [if_neg (show ¬(i.type = str "file") from
        fun h => absurd (ht.symm.trans h) (by decide))]
      show (if '=' ∈ i.key ++ '=' :: i.value then _ else none)
        = some (⟨true, i.key, i.type, i.value⟩ : MultipartItem)
      rw [if_pos (List.mem_append.2 (Or.inr (List.mem_cons_self _ _)))]
      rw [pySplitOnce_append_cons i.key i.value '=' hkey]
      rw [ht]
      show (if i.value.take 1 = ['@'] then _ else _)
        = some (⟨true, i.key, str "text", i.value⟩ : MultipartItem)
      rw [if_neg hat]
      rfl
  · rw [if_neg hc, if_neg hc]
    rfl

theorem generateFullUrl_id (request : RequestModel) (p : UrlParts)
    (hqp : request.query_params = [])
    (hqs : urlencodeDoseq (parse_qs p.query) = p.query)
    (hup : pyUrlunparse p = request.url) :
    generateFullUrl request p = request.url := by
  unfold generateFullUrl
  rw [hqp]
  show pyUrlunparse { p with query := urlencodeDoseq (parse_qs p.query) } = request.url
  rw [hqs]
  exact hup

theorem generateFullUrl_head (request : RequestModel) (p : UrlParts) (c : Char)
    (hsch : p.scheme.head? = some c) :
    (generateFullUrl request p).head? = some c := by
  unfold generateFullUrl
  exact pyUrlunparse_head _ c hsch

theorem scanTokens_front (request : RequestModel) (p : UrlParts)
    (hu : (generateFullUrl request p).head? = some 'h')
    (hhead : ∀ h ∈ request.headers, h.enabled = true → h.key ≠ [] →
      ':' ∉ h.key ∧ pyStrip h.key = h.key ∧ pyStrip h.value = h.value ∧
      ¬(asciiLower h.key = str "authorization" ∧
        (str "bearer ").isPrefixOf (asciiLower h.value) = true))
    (rest : List Str) :
    scanTokens {}
        ((if request.method.value ≠ str "GET" then
            [[str "-X", request.method.value]] else []).flatten
          ++ (generateFullUrl request p
            :: ((request.headers.filterMap fun h =>
                if h.enabled ∧ h.key ≠ [] then
                  some [str "-H", h.key ++ str ": " ++ h.value] else none).flatten
              ++ rest)))
      = scanTokens { url := generateFullUrl request p, method := scannedMethod request, headers := scannedHeaders request.headers } rest := by
  by_cases hm : request.method.value ≠ str "GET"
  · rw [if_pos hm]
    simp only [List.flatten_cons, List.flatten_nil, List.append_nil,
      List.cons_append, List.nil_append]
    rw [scanTokens_dashX]
    rw [scanTokens_url _ _ _ hu rfl]
    rw [scanTokens_headers request.headers hhead]
    unfold scannedMethod scannedHeaders
    rw [if_pos hm]
    rfl
  · rw [if_neg hm]
    simp only [List.flatten_nil, List.nil_append]
    rw [scanTokens_url _ _ _ hu rfl]
    rw [scanTokens_headers request.headers hhead]
    unfold scannedMethod scannedHeaders
    rw [if_neg hm]
    rfl

theorem scanTokens_generated (request : RequestModel) (p : UrlParts)
    (hsch : p.scheme.head? = some 'h')
    (hhead : ∀ h ∈ request.headers, h.enabled = true → h.key ≠ [] →
      ':' ∉ h.key ∧ pyStrip h.key = h.key ∧ pyStrip h.value = h.value ∧
      ¬(asciiLower h.key = str "authorization" ∧
        (str "bearer ").isPrefixOf (asciiLower h.value) = true)) :
    scanTokens {} ((generateTailGroups request p).flatten)
      = scannedState request p := by
  have hu := generateFullUrl_head request p 'h' hsch
  unfold generateTailGroups
  rw [List.append_assoc, List.append_assoc]
  simp only [List.flatten_append, List.flatten_cons, List.flatten_nil,
    List.append_nil, List.nil_append, List.cons_append]
  rw [scanTokens_front request p hu hhead]
  unfold generateBodyGroups
  by_cases h1 : request.body_type.value = str "raw"
  · rw [if_pos h1]
    by_cases h2 : request.raw_body ≠ []
    · rw [if_pos h2]
      simp only [List.flatten_cons, List.flatten_nil, List.append_nil]
      rw [scanTokens_dataraw]
      rw [scanTokens]
      unfold scannedState
      rw [if_neg (show ¬(request.body_type.value = str "x-www-form-urlencoded" ∧
            request.form_data ≠ [] ∧ generateFormParts request ≠ []) from
          fun hc => absurd (h1.symm.trans hc.1) (by decide)),
        if_pos (show request.body_type.value = str "raw" ∧ request.raw_body ≠ []
          from ⟨h1, h2⟩),
        if_neg (show ¬(request.body_type.value = str "multipart/form-data") from
          fun hc => absurd (h1.symm.trans hc) (by decide))]
    · rw [if_neg h2]
      rw [show ([] : List (List Str)).flatten = [] from rfl]
      rw [scanTokens]
      unfold scannedState
      rw [if_neg (show ¬(request.body_type.value = str "x-www-form-urlencoded" ∧
            request.form_data ≠ [] ∧ generateFormParts request ≠ []) from
          fun hc => absurd (h1.symm.trans hc.1) (by decide)),
        if_neg (show ¬(request.body_type.value = str "raw" ∧ request.raw_body ≠ [])
          from fun hc => h2 hc.2),
        if_neg (show ¬(request.body_type.value = str "multipart/form-data") from
          fun hc => absurd (h1.symm.trans hc) (by decide))]
  · rw [if_neg h1]
    by_cases h3 : request.body_type.value = str "x-www-form-urlencoded"
    · rw [if_pos h3]
      by_cases h4 : request.form_data ≠ []
      · rw [if_pos h4]
        by_cases h5 : generateFormParts request ≠ []
        · rw [if_pos h5]
          simp only [List.flatten_cons, List.flatten_nil, List.append_nil]
          rw [scanTokens_data]
          rw [scanTokens]
          unfold scannedState
          rw [if_pos (show request.body_type.value = str "x-www-form-urlencoded" ∧
                request.form_data ≠ [] ∧ generateFormParts request ≠ [] from
              ⟨h3, h4, h5⟩),
            if_neg (show ¬(request.body_type.value = str "raw" ∧
                request.raw_body ≠ []) from
              fun hc => absurd (h3.symm.trans hc.1) (by decide)),
            if_neg (show ¬(request.body_type.value = str "multipart/form-data") from
              fun hc => absurd (h3.symm.trans hc) (by decide))]
        · rw [if_neg h5]
          rw [show ([] : List (List Str)).flatten = [] from rfl]
          rw [scanTokens]
          unfold scannedState
          rw [if_neg (show ¬(request.body_type.value = str "x-www-form-urlencoded" ∧
                request.form_data ≠ [] ∧ generateFormParts request ≠ []) from
              fun hc => h5 hc.2.2),
            if_neg (show ¬(request.body_type.value = str "raw" ∧
                request.raw_body ≠ []) from
              fun hc => absurd (h3.symm.trans hc.1) (by decide)),
            if_neg (show ¬(request.body_type.value = str "multipart/form-data") from
              fun hc => absurd (h3.symm.trans hc) (by decide))]
      · rw [if_neg h4]
        rw [show ([] : List (List Str)).flatten = [] from rfl]
        rw [scanTokens]
        unfold scannedState
        rw [if_neg (show ¬(request.body_type.value = str "x-www-form-urlencoded" ∧
              request.form_data ≠ [] ∧ generateFormParts request ≠ []) from
            fun hc => h4 hc.2.1),
          if_neg (show ¬(request.body_type.value = str "raw" ∧
              request.raw_body ≠ []) from
            fun hc => absurd (h3.symm.trans hc.1) (by decide)),
          if_neg (show ¬(request.body_type.value = str "multipart/form-data") from
            fun hc => absurd (h3.symm.trans hc) (by decide))]
    · rw [if_neg h3]
      by_cases h6 : request.body_type.value = str "multipart/form-data"
      · rw [if_pos h6]
        rw [show (request.multipart_data.filterMap fun item =>
            if item.enabled ∧ item.key ≠ [] then
              if item.type = str "file" then
                some [str "-F", item.key ++ '=' :: '@' :: item.value]
              else some [str "-F", item.key ++ '=' :: item.value]
            else none).flatten
          = (request.multipart_data.filterMap fun item =>
            if item.enabled ∧ item.key ≠ [] then
              if item.type = str "file" then
                some [str "-F", item.key ++ '=' :: '@' :: item.value]
              else some [str "-F", item.key ++ '=' :: item.value]
            else none).flatten ++ [] from (List.append_nil _).symm]
        rw [scanTokens_forms]
        rw [scanTokens]
        unfold scannedState
        rw [if_neg (show ¬(request.body_type.value = str "x-www-form-urlencoded" ∧
              request.form_data ≠ [] ∧ generateFormParts request ≠ []) from
            fun hc => absurd (h6.symm.trans hc.1) (by decide)),
          if_neg (show ¬(request.body_type.value = str "raw" ∧
              request.raw_body ≠ []) from
            fun hc => absurd (h6.symm.trans hc.1) (by decide)),
          if_pos h6]
        rfl
      · rw [if_neg h6]
        rw [show ([] : List (List Str)).flatten = [] from rfl]
        rw [scanTokens]
        unfold scannedState
        rw [if_neg (show ¬(request.body_type.value = str "x-www-form-urlencoded" ∧
              request.form_data ≠ [] ∧ generateFormParts request ≠ []) from
            fun hc => h3 hc.1),
          if_neg (show ¬(request.body_type.value = str "raw" ∧
              request.raw_body ≠ []) from fun hc => h1 hc.1),
          if_neg h6]

theorem parse_generated (request : RequestModel) (p : UrlParts)
    (hsch : p.scheme.head? = some 'h')
    (hhead : ∀ h ∈ request.headers, h.enabled = true → h.key ≠ [] →
      ':' ∉ h.key ∧ pyStrip h.key = h.key ∧ pyStrip h.value = h.value ∧
      ¬(asciiLower h.key = str "authorization" ∧
        (str "bearer ").isPrefixOf (asciiLower h.value) = true)) :
    parse_curl_command (joinWith [' ']
        ((str "curl" :: (generateTailGroups request p).flatten).map shlexQuote))
      = assembleRequest (scannedState request p) := by
  have hne : (generateTailGroups request p).flatten ≠ [] := by
    have hmem : generateFullUrl request p ∈ (generateTailGroups request p).flatten := by
      refine List.mem_flatten.2 ⟨[generateFullUrl request p], ?_, List.mem_cons_self _ _⟩
      unfold generateTailGroups
      simp
    intro hcon
    rw [hcon] at hmem
    exact absurd hmem (List.not_mem_nil _)
  unfold parse_curl_command
  rw [importTokens_quoted _ hne]
  rw [if_neg hne]
  rw [scanTokens_generated request p hsch hhead]

/-- **C1.** Corrected round trip: for every request whose URL is in the
parser's normal form (`urlparse` accepts it, `urlunparse` gives it back, its
query string is already in canonical `urlencode` form, its scheme starts
with `h`), whose query parameters are folded into the URL, whose enabled
headers are strip-stable with colon-free keys and are not bearer
`Authorization` headers, with auth off, proxies off and ssl verification on,
and whose body survives the importer's sniffing (`C1BodyHyp`), parsing the
generated cURL command succeeds and reproduces the request's method, URL,
enabled headers, and body content (`C1BodyConc`), multipart file paths
re-splitting from their `@path` form. -/
theorem C1_parse_generate_roundtrip (request : RequestModel) (p : UrlParts)
    (hok : pyUrlparse request.url = .ok p)
    (hup : pyUrlunparse p = request.url)
    (hqs : urlencodeDoseq (parse_qs p.query) = p.query)
    (hqp : request.query_params = [])
    (hsch : p.scheme.head? = some 'h')
    (hauth : request.auth.auth_type = .NONE)
    (hhead : ∀ h ∈ request.headers, h.enabled = true → h.key ≠ [] →
      ':' ∉ h.key ∧ pyStrip h.key = h.key ∧ pyStrip h.value = h.value ∧
      ¬(asciiLower h.key = str "authorization" ∧
        (str "bearer ").isPrefixOf (asciiLower h.value) = true))
    (hbody : C1BodyHyp request) :
    ∃ cmd r2,
      generate_curl_command request false [] [] true = .ok cmd ∧
      parse_curl_command cmd = .ok r2 ∧
      r2.method = request.method ∧
      r2.url = request.url ∧
      r2.headers = request.headers.filterMap (fun h =>
        if h.enabled ∧ h.key ≠ [] then some ⟨true, h.key, h.value⟩ else none) ∧
      C1BodyConc request r2 := by
  have hfull : generateFullUrl request p = request.url :=
    generateFullUrl_id request p hqp hqs hup
  have hu : (generateFullUrl request p).head? = some 'h' :=
    generateFullUrl_head request p 'h' hsch
  have hurlne : request.url ≠ [] := by
    rw [← hfull]
    intro hcon
    rw [hcon] at hu
    simp at hu
  have hparse := parse_generated request p hsch hhead
  suffices h : ∃ r2, assembleRequest (scannedState request p) = .ok r2 ∧
      r2.method = request.method ∧ r2.url = request.url ∧
      r2.headers = request.headers.filterMap (fun h =>
        if h.enabled ∧ h.key ≠ [] then some ⟨true, h.key, h.value⟩ else none) ∧
      C1BodyConc request r2 by
    obtain ⟨r2, hr2, hconc⟩ := h
    exact ⟨_, r2, generate_command_eq request p hok hauth,
      hparse.trans hr2, hconc⟩
  unfold assembleRequest
  rw [show (scannedState request p).url = request.url from hfull]
  rw [if_neg hurlne, hok]
  dsimp only
  rcases hbody with ⟨hbt, hrb, hstrip, hclass⟩ |
    ⟨hbt, h4, h5, hjstrip, hjtake, hjeq, hjamp, hnoamp, hkeys⟩ |
    ⟨hbt, hfne, hitems⟩ | hbt
  · -- raw body
    have hval : request.body_type.value = str "raw" := by rw [hbt]; rfl
    have hbc : bodyContentOf (scannedState request p) = some request.raw_body := by
      unfold bodyContentOf
      rw [show (scannedState request p).data_raw = some request.raw_body from
          if_pos ⟨hval, hrb⟩,
        show (scannedState request p).data = none from
          if_neg (fun hc => absurd (hval.symm.trans hc.1) (by decide)),
        show (scannedState request p).data_binary = none from rfl]
      unfold pyOrOpt
      rw [if_pos (show optTruthy (some request.raw_body) = true from
        decide_eq_true hrb)]
    rw [hbc]
    rw [if_pos (show optTruthy (some request.raw_body) = true from
      decide_eq_true hrb)]
    unfold classifyAndSetBody
    dsimp only
    rw [show (some request.raw_body).getD [] = request.raw_body from rfl]
    rw [hstrip]
    rcases hclass with ⟨hjt, htake⟩ | ⟨htt, hnt, hnf⟩
    · rw [if_pos htake]
      refine ⟨_, rfl, ?_, rfl, scannedHeaders_map request.headers, ?_, ?_, ?_, ?_⟩
      · show (httpMethodOfValue (scannedState request p).method).getD .GET
          = request.method
        rw [show (scannedState request p).method = request.method.value from
          scannedMethod_eq request]
        rw [httpMethodOfValue_value]
        rfl
      · intro _
        exact ⟨rfl, rfl, hjt.symm⟩
      · intro hcon
        exact absurd (hbt.symm.trans hcon) (by decide)
      · intro hcon
        exact absurd (hbt.symm.trans hcon) (by decide)
      · intro hcon
        exact absurd (hbt.symm.trans hcon) (by decide)
    · rw [if_neg hnt, if_neg hnf]
      refine ⟨_, rfl, ?_, rfl, scannedHeaders_map request.headers, ?_, ?_, ?_, ?_⟩
      · show (httpMethodOfValue (scannedState request p).method).getD .GET
          = request.method
        rw [show (scannedState request p).method = request.method.value from
          scannedMethod_eq request]
        rw [httpMethodOfValue_value]
        rfl
      · intro _
        exact ⟨rfl, rfl, htt.symm⟩
      · intro hcon
        exact absurd (hbt.symm.trans hcon) (by decide)
      · intro hcon
        exact absurd (hbt.symm.trans hcon) (by decide)
      · intro hcon
        exact absurd (hbt.symm.trans hcon) (by decide)
  · -- form body
    have hval : request.body_type.value = str "x-www-form-urlencoded" := by rw [hbt]; rfl
    have hJne : joinWith ['&'] (generateFormParts request) ≠ [] :=
      joinWith_ne_nil ['&'] _ h5 (generateFormParts_mem_ne_nil request)
    have hbc : bodyContentOf (scannedState request p)
        = some (joinWith ['&'] (generateFormParts request)) := by
      unfold bodyContentOf
      rw [show (scannedState request p).data_raw = none from
          if_neg (fun hc => absurd (hval.symm.trans hc.1) (by decide)),
        show (scannedState request p).data
            = some (joinWith ['&'] (generateFormParts request)) from
          if_pos ⟨hval, h4, h5⟩,
        show (scannedState request p).data_binary = none from rfl]
      rfl
    rw [hbc]
    rw [if_pos (show optTruthy (some (joinWith ['&'] (generateFormParts request)))
        = true from decide_eq_true hJne)]
    unfold classifyAndSetBody
    dsimp only
    rw [show (some (joinWith ['&'] (generateFormParts request))).getD []
        = joinWith ['&'] (generateFormParts request) from rfl]
    rw [hjstrip]
    rw [if_neg hjtake, if_pos ⟨hjeq, hjamp⟩]
    rw [pySplit_joinWith '&' (generateFormParts request) h5 hnoamp]
    rw [formParts_roundtrip request hkeys]
    refine ⟨_, rfl, ?_, rfl, scannedHeaders_map request.headers, ?_, ?_, ?_, ?_⟩
    · show (httpMethodOfValue (scannedState request p).method).getD .GET
        = request.method
      rw [show (scannedState request p).method = request.method.value from
        scannedMethod_eq request]
      rw [httpMethodOfValue_value]
      rfl
    · intro hcon
      exact absurd (hbt.symm.trans hcon) (by decide)
    · intro _
      exact ⟨rfl, rfl⟩
    · intro hcon
      exact absurd (hbt.symm.trans hcon) (by decide)
    · intro hcon
      exact absurd (hbt.symm.trans hcon) (by decide)
  · -- multipart body
    have hval : request.body_type.value = str "multipart/form-data" := by rw [hbt]; rfl
    have hbc : bodyContentOf (scannedState request p) = none := by
      unfold bodyContentOf
      rw [show (scannedState request p).data_raw = none from
          if_neg (fun hc => absurd (hval.symm.trans hc.1) (by decide)),
        show (scannedState request p).data = none from
          if_neg (fun hc => absurd (hval.symm.trans hc.1) (by decide)),
        show (scannedState request p).data_binary = none from rfl]
      rfl
    rw [hbc]
    rw [if_neg (show ¬(optTruthy none = true) from fun hcon => Bool.noConfusion hcon)]
    rw [show (scannedState request p).form_data = scannedForms request.multipart_data
      from if_pos hval]
    rw [if_pos hfne]
    rw [multipartFromItems_scannedForms request.multipart_data hitems]
    refine ⟨_, rfl, ?_, rfl, scannedHeaders_map request.headers, ?_, ?_, ?_, ?_⟩
    · show (httpMethodOfValue (scannedState request p).method).getD .GET
        = request.method
      rw [show (scannedState request p).method = request.method.value from
        scannedMethod_eq request]
      rw [httpMethodOfValue_value]
      rfl
    · intro hcon
      exact absurd (hbt.symm.trans hcon) (by decide)
    · intro hcon
      exact absurd (hbt.symm.trans hcon) (by decide)
    · intro _
      exact ⟨rfl, rfl⟩
    · intro hcon
      exact absurd (hbt.symm.trans hcon) (by decide)
  · -- no body
    have hval : request.body_type.value = str "none" := by rw [hbt]; rfl
    have hbc : bodyContentOf (scannedState request p) = none := by
      unfold bodyContentOf
      rw [show (scannedState request p).data_raw = none from
          if_neg (fun hc => absurd (hval.symm.trans hc.1) (by decide)),
        show (scannedState request p).data = none from
          if_neg (fun hc => absurd (hval.symm.trans hc.1) (by decide)),
        show (scannedState request p).data_binary = none from rfl]
      rfl
    rw [hbc]
    rw [if_neg (show ¬(optTruthy none = true) from fun hcon => Bool.noConfusion hcon)]
    rw [show (scannedState request p).form_data = [] from
      if_neg (fun hc => absurd (hval.symm.trans hc) (by decide))]
    rw [if_neg (show ¬(([] : List Str) ≠ []) from fun hcon => hcon rfl)]
    refine ⟨_, rfl, ?_, rfl, scannedHeaders_map request.headers, ?_, ?_, ?_, ?_⟩
    · show (httpMethodOfValue (scannedState request p).method).getD .GET
        = request.method
      rw [show (scannedState request p).method = request.method.value from
        scannedMethod_eq request]
      rw [httpMethodOfValue_value]
      rfl
    · intro hcon
      exact absurd (hbt.symm.trans hcon) (by decide)
    · intro hcon
      exact absurd (hbt.symm.trans hcon) (by decide)
    · intro hcon
      exact absurd (hbt.symm.trans hcon) (by decide)
    · intro _
      rfl

/-- Witness for C1: a GET request for `http://x.test/p` with one enabled
header and a raw JSON body round-trips through generate-then-parse. -/
theorem C1_parse_generate_roundtrip_witness :
    ∃ cmd r2,
      generate_curl_command { method := .GET, url := str "http://x.test/p", headers := [⟨true, str "Accept", str "a"⟩], body_type := .RAW, raw_body_type := .JSON, raw_body := str "\x7b\x7d" } false [] [] true = .ok cmd ∧
      parse_curl_command cmd = .ok r2 ∧
      r2.method = ({ method := .GET, url := str "http://x.test/p", headers := [⟨true, str "Accept", str "a"⟩], body_type := .RAW, raw_body_type := .JSON, raw_body := str "\x7b\x7d" } : RequestModel).method ∧
      r2.url = ({ method := .GET, url := str "http://x.test/p", headers := [⟨true, str "Accept", str "a"⟩], body_type := .RAW, raw_body_type := .JSON, raw_body := str "\x7b\x7d" } : RequestModel).url ∧
      r2.headers = ({ method := .GET, url := str "http://x.test/p", headers := [⟨true, str "Accept", str "a"⟩], body_type := .RAW, raw_body_type := .JSON, raw_body := str "\x7b\x7d" } : RequestModel).headers.filterMap (fun h =>
        if h.enabled ∧ h.key ≠ [] then some ⟨true, h.key, h.value⟩ else none) ∧
      C1BodyConc { method := .GET, url := str "http://x.test/p", headers := [⟨true, str "Accept", str "a"⟩], body_type := .RAW, raw_body_type := .JSON, raw_body := str "\x7b\x7d" } r2 :=
  C1_parse_generate_roundtrip
    { method := .GET, url := str "http://x.test/p", headers := [⟨true, str "Accept", str "a"⟩], body_type := .RAW, raw_body_type := .JSON, raw_body := str "\x7b\x7d" }
    { scheme := str "http", netloc := str "x.test", path := str "/p", params := [], query := [], fragment := [] }
    (by decide) (by decide) (by decide) rfl (by decide) (by decide) (by decide)
    (Or.inl ⟨rfl, by decide, by decide, Or.inl ⟨rfl, Or.inl (by decide)⟩⟩)

/-- Counterexample for C1 as stated: a raw body with leading whitespace is
not reproduced by the round trip - the importer strips the collected data
value, so `" hi"` comes back as `"hi"`. -/
theorem C1_raw_body_not_reproduced_counterexample :
    (generate_curl_command { method := .GET, url := str "http://x.test/p", body_type := .RAW, raw_body := str " hi" } false [] [] true).map
        (fun cmd => (parse_curl_command cmd).map fun r => r.raw_body)
      = .ok (.ok (str "hi"))
    ∧ ({ method := .GET, url := str "http://x.test/p", body_type := .RAW, raw_body := str " hi" } : RequestModel).raw_body ≠ str "hi" := by
  constructor
  · decide
  · decide

end CurlMonkey
